import Mathlib

/-!
# Simple File System (sfs_api.c): shallow embedding

The global tables of `sfs_api.c` become the fields of one state record `FS`
that every operation takes and returns.  Conventions of the embedding:

* a C `int` is an `Int`; the additions on cursors, which can leave the range of
  a 32-bit `int`, go through `wrap32`;
* an array indexed by an `int` is a total function on `Int`; only the cells the
  C array has (0..127, 0..1023, 0..11, 0..255) are meaningful, and a whole-array
  operation (`memset`, block I/O of a table) acts on the whole function;
* a `char[32]` file name field holds the C string stored in it (the characters
  before the terminator), and a `char*` argument is the list of characters it
  points to;
* a data block is a function from byte position to byte value; the 256-entry
  pointer array of an indirect block is stored in it little-endian;
* the emulated disk keeps the four table regions (blocks 1..22) as tables and
  every block as bytes; the byte-level aliasing of blocks 0..22 with the table
  regions is outside the model.
-/

namespace SFS

/-! ## Constants -/

abbrev MAX_FNAME_LENGTH : Nat := 32
abbrev BLOCK_SIZE : Int := 1024
abbrev TOTAL_NUM_OF_BLOCKS : Nat := 1024
abbrev MAX_INODES : Nat := 128
abbrev PRE_DEFINED_BLOCKS : Nat := 23
/-- Number of pointers in an indirect block, `BLOCK_SIZE / sizeof(int)`. -/
abbrev INDIRECT_ENTRIES : Nat := 256

/-- Two's-complement wrap of an integer into the range of a 32-bit `int`. -/
def wrap32 (x : Int) : Int := (x + 2147483648) % 4294967296 - 2147483648

/-- Truncating division of C on `int`. -/
def cdiv (a b : Int) : Int := Int.tdiv a b

/-- Remainder of C on `int` (sign of the dividend). -/
def cmod (a b : Int) : Int := Int.tmod a b

/-! ## Data model -/

/-- Superblock; `magic` is never assigned by the source, so it is `none`. -/
structure SUPER_BLOCK where
  magic : Option Int
  block_size : Int
  file_system_size : Int
  inode_table_length : Int
  root_directory : Int

structure INODE where
  mode : Int
  link_cnt : Int
  uid : Int
  gid : Int
  size : Int
  pointers : Int → Int
  indirect_pointer : Int

structure DIRECTORY_ENTRY where
  full_filename : List Char
  inode_pointer : Int
deriving DecidableEq

structure OPEN_FILE_DESCRIPTOR where
  inode_pointer : Int
  read_pointer : Int
  write_pointer : Int
deriving DecidableEq

/-- One block of the device: byte value at each byte position. -/
abbrev Block := Nat → Nat

/-- Modelled from the spec: the block device of `disk_emu.h` (not part of the
sources), a fixed array of 1024 blocks with `read_block`/`write_block`; the
table regions are kept as the tables last written to them. -/
structure DISK where
  super_block : SUPER_BLOCK
  inode_table : Int → INODE
  inode_bitmap : Int → Int
  data_block_bitmap : Int → Int
  directory_table : Int → DIRECTORY_ENTRY
  blocks : Int → Block

/-- The global variables of `sfs_api.c` together with the device. -/
structure FS where
  inode_table : Int → INODE
  directory_table : Int → DIRECTORY_ENTRY
  open_file_descriptor_table : Int → OPEN_FILE_DESCRIPTOR
  current_directory : Int
  inode_bitmap : Int → Int
  data_block_bitmap : Int → Int
  disk : DISK

/-- An inode with every field zero (what `memset` leaves). -/
def zero_inode : INODE :=
  { mode := 0, link_cnt := 0, uid := 0, gid := 0, size := 0,
    pointers := fun _ => 0, indirect_pointer := 0 }

/-- A directory entry with every byte zero. -/
def zero_entry : DIRECTORY_ENTRY := { full_filename := [], inode_pointer := 0 }

/-- Modelled from the spec: the blank image `init_fresh_disk` creates. -/
def blank_disk : DISK :=
  { super_block := { magic := some 0, block_size := 0, file_system_size := 0,
                     inode_table_length := 0, root_directory := 0 },
    inode_table := fun _ => zero_inode,
    inode_bitmap := fun _ => 0,
    data_block_bitmap := fun _ => 0,
    directory_table := fun _ => zero_entry,
    blocks := fun _ _ => 0 }

/-- Modelled from the spec: `read_blocks(p, 1, buf)`; an index outside the
device fails and leaves the buffer as it was. -/
def read_block (d : DISK) (p : Int) (buf : Block) : Block :=
  if 0 ≤ p ∧ p < 1024 then d.blocks p else buf

/-- Modelled from the spec: `write_blocks(p, 1, buf)`; an index outside the
device fails and writes nothing. -/
def write_block (d : DISK) (p : Int) (buf : Block) : DISK :=
  if 0 ≤ p ∧ p < 1024 then { d with blocks := Function.update d.blocks p buf } else d

/-! ## Helpers of the source -/

def min (x y : Int) : Int := if x > y then y else x

def max (x y : Int) : Int := if x > y then x else y

/-- The loop `for (i = start; i < start + n; i++) if (p i) return i;` followed by
`return -1`. -/
def scan (p : Int → Bool) : Nat → Int → Int
  | 0, _ => -1
  | n + 1, i => if p i then i else scan p n (i + 1)

/-- `strncmp(a, b, MAX_FNAME_LENGTH) == 0` on C strings. -/
def strncmp_eq (a b : List Char) : Bool := a.take MAX_FNAME_LENGTH == b.take MAX_FNAME_LENGTH

def set_bit_1 (s : FS) (mode : String) (loc : Int) : FS :=
  if mode = "inode" then { s with inode_bitmap := Function.update s.inode_bitmap loc 1 }
  else if mode = "data" then { s with data_block_bitmap := Function.update s.data_block_bitmap loc 1 }
  else s

def set_bit_0 (s : FS) (mode : String) (loc : Int) : FS :=
  if mode = "inode" then { s with inode_bitmap := Function.update s.inode_bitmap loc 0 }
  else if mode = "data" then { s with data_block_bitmap := Function.update s.data_block_bitmap loc 0 }
  else s

def find_free_bit (s : FS) (mode : String) : Int :=
  if mode = "inode" then scan (fun i => s.inode_bitmap i == 0) MAX_INODES 0
  else if mode = "data" then scan (fun i => s.data_block_bitmap i == 0) TOTAL_NUM_OF_BLOCKS 0
  else -1

/-! ## Mount and format -/

def init_fresh_base_blocks (s : FS) : FS :=
  let super_block : SUPER_BLOCK :=
    { magic := none, block_size := BLOCK_SIZE,
      file_system_size := TOTAL_NUM_OF_BLOCKS * BLOCK_SIZE,
      inode_table_length := MAX_INODES, root_directory := 1 }
  let s := { s with disk := { s.disk with super_block := super_block } }
  let s := { s with inode_bitmap := fun _ => 0 }
  let root_directory : INODE :=
    { mode := 0, gid := 0, uid := 0, link_cnt := 0, size := 0,
      pointers := fun _ => 0, indirect_pointer := 0 }
  let s := { s with inode_table := Function.update s.inode_table 0 root_directory }
  let s := { s with disk := { s.disk with inode_table := s.inode_table } }
  let s := set_bit_1 s "inode" 1
  let s := { s with disk := { s.disk with inode_bitmap := s.inode_bitmap } }
  let s := { s with data_block_bitmap := fun _ => 0 }
  let s := (List.range PRE_DEFINED_BLOCKS).foldl (fun (s : FS) (i : Nat) => set_bit_1 s "data" (i : Int)) s
  let s := { s with disk := { s.disk with data_block_bitmap := s.data_block_bitmap } }
  let root_entry : DIRECTORY_ENTRY := { full_filename := "root".toList, inode_pointer := -1 }
  let s := { s with directory_table := Function.update s.directory_table 0 root_entry }
  { s with disk := { s.disk with directory_table := s.directory_table } }

def init_old_base_blocks (s : FS) : FS :=
  let s := { s with inode_bitmap := s.disk.inode_bitmap }
  let s := { s with directory_table := s.disk.directory_table }
  let s := { s with inode_table := s.disk.inode_table }
  { s with data_block_bitmap := s.disk.data_block_bitmap }

/-- The four `memset` calls clear the two bitmaps, the inode table and the
directory table; the device initialisation is taken to succeed. -/
def mksfs (s : FS) (fresh : Int) : FS :=
  let s := { s with data_block_bitmap := fun _ => 0 }
  let s := { s with inode_bitmap := fun _ => 0 }
  let s := { s with inode_table := fun _ => zero_inode }
  let s := { s with directory_table := fun _ => zero_entry }
  if fresh = 1 then
    init_fresh_base_blocks { s with disk := blank_disk }
  else
    init_old_base_blocks s

/-! ## Free-slot search, open and close -/

def find_free_entry (s : FS) (mode : String) : Int :=
  if mode = "open_file_descriptor_table" then
    scan (fun i => (s.open_file_descriptor_table i).inode_pointer == 0) MAX_INODES 0
  else if mode = "directory_table" then
    scan (fun i => (s.directory_table i).full_filename == []) MAX_INODES 0
  else if mode = "inode_table" then
    scan (fun i => (s.inode_table i).mode == 0) (MAX_INODES - 1) 1
  else -1

/-- The directory loop of `sfs_fopen`: first slot in 1..127 whose name matches,
or -1. -/
def dir_find (s : FS) (name : List Char) : Int :=
  scan (fun i => strncmp_eq (s.directory_table i).full_filename name) (MAX_INODES - 1) 1

def sfs_fopen (s : FS) (name : List Char) : Int × FS :=
  if name.length > MAX_FNAME_LENGTH then (-1, s)
  else
    let i := dir_find s name
    if i ≠ -1 then
      let entry := s.directory_table i
      let inode_index := entry.inode_pointer
      let file_descriptor := s.open_file_descriptor_table i
      if file_descriptor.inode_pointer ≠ 0 then (i, s)
      else
        let insert_descriptor : OPEN_FILE_DESCRIPTOR :=
          { inode_pointer := inode_index, read_pointer := 0,
            write_pointer := (s.inode_table inode_index).size }
        (i, { s with open_file_descriptor_table :=
                Function.update s.open_file_descriptor_table i insert_descriptor })
    else
      let free_dir_loc := find_free_entry s "directory_table"
      let free_inode_loc := find_free_entry s "inode_table"
      if free_dir_loc = -1 ∨ free_inode_loc = -1 then (-1, s)
      else
        let inode : INODE :=
          { gid := 0, indirect_pointer := 0, link_cnt := 0, mode := 1,
            pointers := fun _ => 0, size := 0, uid := 0 }
        let s := { s with inode_table := Function.update s.inode_table free_inode_loc inode }
        let new_entry : DIRECTORY_ENTRY := { full_filename := name, inode_pointer := free_inode_loc }
        let s := { s with directory_table := Function.update s.directory_table free_dir_loc new_entry }
        let new_descriptor : OPEN_FILE_DESCRIPTOR :=
          { inode_pointer := free_inode_loc, read_pointer := 0,
            write_pointer := (s.inode_table free_inode_loc).size }
        let s := { s with open_file_descriptor_table :=
                    Function.update s.open_file_descriptor_table free_dir_loc new_descriptor }
        let s := set_bit_1 s "inode" free_inode_loc
        let s := { s with disk := { s.disk with inode_table := s.inode_table } }
        let s := { s with disk := { s.disk with directory_table := s.directory_table } }
        (free_dir_loc, s)

def sfs_fclose (s : FS) (fileID : Int) : Int × FS :=
  if fileID ≥ 0 ∧ fileID < MAX_INODES then
    let descriptor := s.open_file_descriptor_table fileID
    if descriptor.inode_pointer = 0 then (-1, s)
    else
      let fresh_descriptor : OPEN_FILE_DESCRIPTOR :=
        { inode_pointer := 0, read_pointer := 0, write_pointer := 0 }
      (0, { s with open_file_descriptor_table :=
              Function.update s.open_file_descriptor_table fileID fresh_descriptor })
  else (-1, s)

def sfs_fseek (s : FS) (fileID : Int) (loc : Int) : Int × FS :=
  if (s.open_file_descriptor_table fileID).inode_pointer = 0 then (0, s)
  else
    let d := s.open_file_descriptor_table fileID
    let d : OPEN_FILE_DESCRIPTOR := { d with read_pointer := loc, write_pointer := loc }
    (1, { s with open_file_descriptor_table :=
                  Function.update s.open_file_descriptor_table fileID d })

/-! ## Block I/O helpers -/

/-- Byte `j` (0..3) of the little-endian 32-bit encoding of `v`. -/
def int_byte (v : Int) (j : Nat) : Nat := ((v % 4294967296).toNat / 256 ^ j) % 256

/-- The 32-bit `int` stored little-endian at bytes `4k .. 4k+3` of a block. -/
def block_int (b : Block) (k : Nat) : Int :=
  wrap32 ((b (4 * k) : Int) + 256 * b (4 * k + 1) + 65536 * b (4 * k + 2) + 16777216 * b (4 * k + 3))

/-- The block image of the array `int indirect_buffer[256]`. -/
def ints_to_block (buf : Int → Int) : Block := fun i => int_byte (buf (i / 4 : Nat)) (i % 4)

/-- The call `read_blocks(p, 1, &indirect_buffer)`: on success cells 0..255 are
loaded from the block, otherwise the array keeps what it held. -/
def read_indirect (d : DISK) (p : Int) (buf : Int → Int) : Int → Int :=
  if 0 ≤ p ∧ p < 1024 then
    fun k => if 0 ≤ k ∧ k < INDIRECT_ENTRIES then block_int (d.blocks p) k.toNat else buf k
  else buf

/-- The call `memcpy(dst + off, src, n)` into a block-sized scratch buffer. -/
def memcpy_to (dst : Block) (off : Int) (src : List Nat) (n : Int) : Block :=
  fun i => if off ≤ (i : Int) ∧ (i : Int) < off + n then src.getD ((i : Int) - off).toNat 0 else dst i

/-- The bytes `memcpy(buffer, src + off, n)` stores into the user buffer. -/
def memcpy_from (src : Block) (off : Int) (n : Int) : List Nat :=
  (List.range n.toNat).map (fun j => src (off.toNat + j))

def write_to_block (d : DISK) (block_pointer : Int) (buffer : List Nat) (length offset : Int) :
    Int × DISK :=
  let string_buf : Block := fun _ => 0
  if offset ≠ 0 then
    let max_write := min (BLOCK_SIZE - offset) length
    let string_buf := read_block d block_pointer string_buf
    let string_buf := memcpy_to string_buf offset buffer max_write
    (max_write, write_block d block_pointer string_buf)
  else
    let max_write := min BLOCK_SIZE length
    let string_buf := memcpy_to string_buf 0 buffer max_write
    (max_write, write_block d block_pointer string_buf)

def read_from_block (d : DISK) (block_pointer : Int) (length offset : Int) : Int × List Nat :=
  let string_buf : Block := fun _ => 0
  if offset ≠ 0 then
    let max_read := min (BLOCK_SIZE - offset) length
    let string_buf := read_block d block_pointer string_buf
    (max_read, memcpy_from string_buf offset max_read)
  else
    let max_read := min BLOCK_SIZE length
    let string_buf := read_block d block_pointer string_buf
    (max_read, memcpy_from string_buf 0 max_read)

/-! ## Write path -/

/-- Local variables of `sfs_fwrite` that live across loop iterations. -/
structure WLocals where
  remaining : Int
  bytes_wrote : Int
  write_ptr_loc : Int
  buffer : List Nat
  indirect_pointer : Int
  indirect_buffer : Int → Int

/-- The three stores that close every iteration of the write loop, together
with the cursor update. -/
def fwrite_flush (s : FS) (fileID : Int) (l : WLocals) : FS :=
  let d := s.open_file_descriptor_table fileID
  let d : OPEN_FILE_DESCRIPTOR := { d with write_pointer := l.write_ptr_loc }
  let s := { s with open_file_descriptor_table := Function.update s.open_file_descriptor_table fileID d }
  let s := { s with disk := { s.disk with data_block_bitmap := s.data_block_bitmap } }
  let s :=
    if l.indirect_pointer ≠ 0 then
      { s with disk := write_block s.disk l.indirect_pointer (ints_to_block l.indirect_buffer) }
    else s
  { s with disk := { s.disk with inode_table := s.inode_table } }

/-- Store `v` into `inode_table[inode].pointers[idx]`. -/
def set_pointer (s : FS) (inode idx v : Int) : FS :=
  let n := s.inode_table inode
  let n : INODE := { n with pointers := Function.update n.pointers idx v }
  { s with inode_table := Function.update s.inode_table inode n }

/-- Store `v` into `inode_table[inode].size`. -/
def set_size (s : FS) (inode v : Int) : FS :=
  let n := s.inode_table inode
  let n : INODE := { n with size := v }
  { s with inode_table := Function.update s.inode_table inode n }

/-- Store `v` into `inode_table[inode].indirect_pointer`. -/
def set_indirect (s : FS) (inode v : Int) : FS :=
  let n := s.inode_table inode
  let n : INODE := { n with indirect_pointer := v }
  { s with inode_table := Function.update s.inode_table inode n }

/-- The transfer and the bookkeeping that follow block resolution in both
branches of the write loop. -/
def fwrite_transfer (s : FS) (inode : Int) (l : WLocals) (block_pointer offset : Int) :
    FS × WLocals :=
  let r := write_to_block s.disk block_pointer l.buffer l.remaining offset
  let bytes := r.1
  let s := { s with disk := r.2 }
  let write_ptr_loc := wrap32 (l.write_ptr_loc + bytes)
  let l : WLocals :=
    { l with bytes_wrote := l.bytes_wrote + bytes, remaining := l.remaining - bytes,
             write_ptr_loc := write_ptr_loc, buffer := l.buffer.drop bytes.toNat }
  let s := set_size s inode (max write_ptr_loc (s.inode_table inode).size)
  (s, l)

/-- One iteration of `while (remaining > 0)` in `sfs_fwrite`; `Except.error`
is an early `return -1` and carries the state left behind. -/
def fwrite_step (s : FS) (fileID : Int) (descriptor : OPEN_FILE_DESCRIPTOR) (l : WLocals) :
    Except FS (FS × WLocals) :=
  if l.write_ptr_loc < 12 * BLOCK_SIZE then
    let block_pointer_index := cdiv l.write_ptr_loc BLOCK_SIZE
    let offset := cmod l.write_ptr_loc BLOCK_SIZE
    let inode := descriptor.inode_pointer
    let block_pointer := (s.inode_table inode).pointers block_pointer_index
    if block_pointer = 0 then
      let block_pointer := find_free_bit s "data"
      if block_pointer = -1 then .error s
      else
        let s := set_bit_1 s "data" block_pointer
        let s := set_pointer s inode block_pointer_index block_pointer
        let r := fwrite_transfer s inode l block_pointer offset
        .ok (fwrite_flush r.1 fileID r.2, r.2)
    else
      let r := fwrite_transfer s inode l block_pointer offset
      .ok (fwrite_flush r.1 fileID r.2, r.2)
  else
    if l.indirect_pointer = 0 then
      let new_indirect := find_free_bit s "data"
      if new_indirect = -1 then .error s
      else
        let s := set_bit_1 s "data" new_indirect
        let s := set_indirect s descriptor.inode_pointer new_indirect
        let l : WLocals := { l with indirect_pointer := new_indirect }
        let block_pointer := find_free_bit s "data"
        if block_pointer = -1 then .error s
        else
          let s := set_bit_1 s "data" block_pointer
          let buf : Int → Int := fun i => if 0 ≤ i ∧ i < INDIRECT_ENTRIES then 0 else l.indirect_buffer i
          let l : WLocals := { l with indirect_buffer := Function.update buf 0 block_pointer }
          let offset := cmod l.write_ptr_loc BLOCK_SIZE
          let r := fwrite_transfer s descriptor.inode_pointer l block_pointer offset
          .ok (fwrite_flush r.1 fileID r.2, r.2)
    else
      let block_index := cdiv l.write_ptr_loc BLOCK_SIZE - 12
      if block_index > INDIRECT_ENTRIES then .error s
      else
        let block_pointer := l.indirect_buffer block_index
        if block_pointer = 0 then
          let block_pointer := find_free_bit s "data"
          if block_pointer = -1 then .error s
          else
            let s := set_bit_1 s "data" block_pointer
            let j := scan (fun i => l.indirect_buffer i == 0) INDIRECT_ENTRIES 0
            let l : WLocals :=
              if j ≠ -1 then { l with indirect_buffer := Function.update l.indirect_buffer j block_pointer }
              else l
            let offset := cmod l.write_ptr_loc BLOCK_SIZE
            let r := fwrite_transfer s descriptor.inode_pointer l block_pointer offset
            .ok (fwrite_flush r.1 fileID r.2, r.2)
        else
          let offset := cmod l.write_ptr_loc BLOCK_SIZE
          let r := fwrite_transfer s descriptor.inode_pointer l block_pointer offset
          .ok (fwrite_flush r.1 fileID r.2, r.2)

/-- The loop `while (remaining > 0)` of `sfs_fwrite`; every iteration moves at
least one byte, so `remaining` iterations are enough (`fwrite_loop_fuel`). -/
def fwrite_loop (fileID : Int) (descriptor : OPEN_FILE_DESCRIPTOR) :
    Nat → FS → WLocals → Int × FS
  | 0, s, l => (l.bytes_wrote, s)
  | fuel + 1, s, l =>
    if l.remaining > 0 then
      match fwrite_step s fileID descriptor l with
      | .error s => (-1, s)
      | .ok (s, l) => fwrite_loop fileID descriptor fuel s l
    else (l.bytes_wrote, s)

/-- The function `sfs_fwrite`; `stack` is the content of the uninitialised local
array `indirect_buffer` (and of the memory behind it). -/
def sfs_fwrite (s : FS) (stack : Int → Int) (fileID : Int) (buf : List Nat) (length : Int) :
    Int × FS :=
  let descriptor := s.open_file_descriptor_table fileID
  if descriptor.inode_pointer = 0 then (-1, s)
  else
    let indirect_pointer := (s.inode_table descriptor.inode_pointer).indirect_pointer
    let indirect_buffer :=
      if indirect_pointer ≠ 0 then read_indirect s.disk indirect_pointer stack else stack
    let l : WLocals :=
      { remaining := length, bytes_wrote := 0, write_ptr_loc := descriptor.write_pointer,
        buffer := buf, indirect_pointer := indirect_pointer, indirect_buffer := indirect_buffer }
    fwrite_loop fileID descriptor length.toNat s l

/-! ## Read path -/

/-- Local variables of `sfs_fread` that live across loop iterations; `out` is
what has been stored into the user buffer so far. -/
structure RLocals where
  remaining : Int
  bytes_read : Int
  read_ptr_loc : Int
  out : List Nat

/-- One iteration of `while (remaining > 0)` in `sfs_fread`; `none` is the
early `return -1`. -/
def fread_step (s : FS) (descriptor : OPEN_FILE_DESCRIPTOR) (indirect_pointer : Int)
    (indirect_buffer : Int → Int) (l : RLocals) : Option RLocals :=
  if l.read_ptr_loc < 12 * BLOCK_SIZE then
    let offset := cmod l.read_ptr_loc BLOCK_SIZE
    let block_pointer_index := cdiv l.read_ptr_loc BLOCK_SIZE
    let block_pointer := (s.inode_table descriptor.inode_pointer).pointers block_pointer_index
    let r := read_from_block s.disk block_pointer l.remaining offset
    let bytes := r.1
    some { bytes_read := l.bytes_read + bytes, remaining := l.remaining - bytes,
           read_ptr_loc := wrap32 (l.read_ptr_loc + bytes), out := l.out ++ r.2 }
  else
    if indirect_pointer = 0 then none
    else
      let block_index := cdiv l.read_ptr_loc BLOCK_SIZE - 12
      let block_pointer := indirect_buffer block_index
      let offset := cmod l.read_ptr_loc BLOCK_SIZE
      let r := read_from_block s.disk block_pointer l.remaining offset
      let bytes := r.1
      some { bytes_read := l.bytes_read + bytes, remaining := l.remaining - bytes,
             read_ptr_loc := wrap32 (l.read_ptr_loc + bytes), out := l.out ++ r.2 }

/-- The loop `while (remaining > 0)` of `sfs_fread` followed by the cursor
store; every iteration moves at least one byte, so `remaining` iterations are
enough (`fread_loop_fuel`). -/
def fread_loop (s : FS) (fileID : Int) (descriptor : OPEN_FILE_DESCRIPTOR) (indirect_pointer : Int)
    (indirect_buffer : Int → Int) : Nat → RLocals → Int × List Nat × FS
  | fuel + 1, l =>
    if l.remaining > 0 then
      match fread_step s descriptor indirect_pointer indirect_buffer l with
      | none => (-1, l.out, s)
      | some l => fread_loop s fileID descriptor indirect_pointer indirect_buffer fuel l
    else
      let d := s.open_file_descriptor_table fileID
      let d : OPEN_FILE_DESCRIPTOR := { d with read_pointer := l.read_ptr_loc }
      (l.bytes_read, l.out,
        { s with open_file_descriptor_table := Function.update s.open_file_descriptor_table fileID d })
  | 0, l =>
    let d := s.open_file_descriptor_table fileID
    let d : OPEN_FILE_DESCRIPTOR := { d with read_pointer := l.read_ptr_loc }
    (l.bytes_read, l.out,
      { s with open_file_descriptor_table := Function.update s.open_file_descriptor_table fileID d })

/-- The function `sfs_fread`: return value, bytes stored into `buf`, new state;
`stack` is the content of the uninitialised local array `indirect_buffer`. -/
def sfs_fread (s : FS) (stack : Int → Int) (fileID : Int) (length : Int) : Int × List Nat × FS :=
  let descriptor := s.open_file_descriptor_table fileID
  if descriptor.inode_pointer = 0 then (-1, [], s)
  else
    let read_ptr_loc := descriptor.read_pointer
    let size := (s.inode_table descriptor.inode_pointer).size
    let remaining :=
      if wrap32 (length + read_ptr_loc) > size then size - descriptor.read_pointer else length
    let indirect_pointer := (s.inode_table descriptor.inode_pointer).indirect_pointer
    let indirect_buffer :=
      if indirect_pointer ≠ 0 then read_indirect s.disk indirect_pointer stack else stack
    let l : RLocals :=
      { remaining := remaining, bytes_read := 0, read_ptr_loc := read_ptr_loc, out := [] }
    fread_loop s fileID descriptor indirect_pointer indirect_buffer remaining.toNat l

/-- A run of `sfs_fopen` calls, one per name, with the handles returned. -/
def open_all (s : FS) : List (List Char) → List Int × FS
  | [] => ([], s)
  | n :: ns => ((sfs_fopen s n).1 :: (open_all (sfs_fopen s n).2 ns).1, (open_all (sfs_fopen s n).2 ns).2)

/-- The state `sfs_fopen` builds when it creates a file in directory slot `d`
with inode `i`. -/
def created_state (s : FS) (name : List Char) (d i : Int) : FS :=
  let inode : INODE :=
    { gid := 0, indirect_pointer := 0, link_cnt := 0, mode := 1,
      pointers := fun _ => 0, size := 0, uid := 0 }
  let it := Function.update s.inode_table i inode
  let dt := Function.update s.directory_table d { full_filename := name, inode_pointer := i }
  { s with
    inode_table := it
    directory_table := dt
    open_file_descriptor_table := Function.update s.open_file_descriptor_table d ⟨i, 0, 0⟩
    inode_bitmap := Function.update s.inode_bitmap i 1
    disk := { s.disk with inode_table := it, directory_table := dt } }

/-- Shape of the tables after the files `created` have been created, in this
order, on a fresh file system: file `j` sits in directory slot `j + 1`, the
directory slots and the inodes behind them are free. -/
def Filled (s : FS) (created : List (List Char)) : Prop :=
  (s.directory_table 0).full_filename = "root".toList ∧
  (∀ j : Nat, j < created.length → (s.directory_table ((j : Int) + 1)).full_filename = created.getD j []) ∧
  (∀ k : Int, (created.length : Int) < k → k < 128 → (s.directory_table k).full_filename = []) ∧
  (∀ k : Int, 1 ≤ k → k ≤ (created.length : Int) → (s.inode_table k).mode ≠ 0) ∧
  (∀ k : Int, (created.length : Int) < k → k < 128 → (s.inode_table k).mode = 0)

/-- What the bookkeeping of one write iteration before the transfer (marking
data bits, storing a direct pointer or the indirect pointer in inode `inode`)
can change between `s` and `s1`: the data bitmap and, in inode `inode`, the
pointers only. -/
def Prep (s s1 : FS) (inode : Int) : Prop :=
  s1.directory_table = s.directory_table ∧
  s1.open_file_descriptor_table = s.open_file_descriptor_table ∧
  s1.inode_bitmap = s.inode_bitmap ∧
  s1.current_directory = s.current_directory ∧
  s1.disk = s.disk ∧
  (∀ j : Int, j ≠ inode → s1.inode_table j = s.inode_table j) ∧
  (s1.inode_table inode).size = (s.inode_table inode).size ∧
  (s1.inode_table inode).mode = (s.inode_table inode).mode

/-- Bytes moved by one transfer at cursor `p` with `remaining` bytes left. -/
def chunk (p remaining : Int) : Int := min (BLOCK_SIZE - cmod p BLOCK_SIZE) remaining

/-- What a completed iteration of the write loop does, from `(s, l)` to
`(s', l')`: the counters move by `chunk`, the size of the inode becomes the
maximum of itself and the new cursor, the cursor of the handle is stored, the
in-memory inode table is flushed, and the rest is left alone. -/
def StepFacts (s : FS) (fileID : Int) (descriptor : OPEN_FILE_DESCRIPTOR) (l : WLocals)
    (s' : FS) (l' : WLocals) : Prop :=
  l'.remaining = l.remaining - chunk l.write_ptr_loc l.remaining ∧
  l'.bytes_wrote = l.bytes_wrote + chunk l.write_ptr_loc l.remaining ∧
  l'.write_ptr_loc = wrap32 (l.write_ptr_loc + chunk l.write_ptr_loc l.remaining) ∧
  l'.buffer = l.buffer.drop (chunk l.write_ptr_loc l.remaining).toNat ∧
  (s'.inode_table descriptor.inode_pointer).size =
    max (wrap32 (l.write_ptr_loc + chunk l.write_ptr_loc l.remaining))
      (s.inode_table descriptor.inode_pointer).size ∧
  (s'.inode_table descriptor.inode_pointer).mode = (s.inode_table descriptor.inode_pointer).mode ∧
  (∀ j : Int, j ≠ descriptor.inode_pointer → s'.inode_table j = s.inode_table j) ∧
  s'.open_file_descriptor_table = Function.update s.open_file_descriptor_table fileID
    { s.open_file_descriptor_table fileID with
      write_pointer := wrap32 (l.write_ptr_loc + chunk l.write_ptr_loc l.remaining) } ∧
  s'.directory_table = s.directory_table ∧
  s'.inode_bitmap = s.inode_bitmap ∧
  s'.current_directory = s.current_directory ∧
  s'.disk.inode_table = s'.inode_table ∧
  s'.disk.directory_table = s.disk.directory_table ∧
  s'.disk.inode_bitmap = s.disk.inode_bitmap

/-! ## Layout of a file built by appending -/

/-- Number of blocks a file of `L` bytes occupies. -/
def nblocks (L : Int) : Int := (L + 1023) / 1024

/-- Number of device blocks a file of `nb` data blocks uses: the data blocks
and, beyond twelve of them, the indirect block. -/
def used (nb : Int) : Int := nb + (if 12 < nb then 1 else 0)

/-- Device block that holds byte `p` of a file whose first block is `N0`, when
its blocks were taken one after the other from the data bitmap: twelve direct
blocks, the indirect block, then the blocks it lists. -/
def blk (N0 p : Int) : Int := if p < 12288 then N0 + p / 1024 else N0 + 1 + p / 1024

/-- State of the file with inode `i` after the `L` bytes `data` have been
appended to it, its first block being `N0` and every block below `N0` being
taken: size, direct pointers, indirect pointer, indirect block on the device,
data bitmap and contents of the data blocks. -/
structure FileInv (s : FS) (i N0 L : Int) (data : List Nat) : Prop where
  len_eq : (data.length : Int) = L
  first_pos : 0 < N0
  room : N0 + used (nblocks L) ≤ 1024
  size_eq : (s.inode_table i).size = L
  direct : ∀ j : Int, 0 ≤ j → j < 12 →
    (s.inode_table i).pointers j = if j < nblocks L then N0 + j else 0
  indirect : (s.inode_table i).indirect_pointer = if 12 < nblocks L then N0 + 12 else 0
  entries : 12 < nblocks L → ∀ k : Int, 0 ≤ k → k < 256 →
    block_int (s.disk.blocks (N0 + 12)) k.toNat = if k < nblocks L - 12 then N0 + 13 + k else 0
  bitmap : ∀ b : Int, 0 ≤ b → b < 1024 →
    s.data_block_bitmap b = if b < N0 + used (nblocks L) then 1 else 0
  content : ∀ p : Int, 0 ≤ p → p < L →
    s.disk.blocks (blk N0 p) (p % 1024).toNat = data.getD p.toNat 0

/-- The local `indirect_pointer` and `indirect_buffer` of `sfs_fwrite` agree
with the inode and the indirect block of a file of `L` bytes starting at `N0`. -/
structure BufInv (l : WLocals) (N0 L : Int) : Prop where
  pointer_eq : l.indirect_pointer = if 12 < nblocks L then N0 + 12 else 0
  buffer_eq : 12 < nblocks L → ∀ k : Int, 0 ≤ k → k < 256 →
    l.indirect_buffer k = if k < nblocks L - 12 then N0 + 13 + k else 0

/-- What a call of `sfs_fwrite` on handle `fileID` with inode `inode` leaves
alone, whether it succeeds or not: directory, inode bitmap, directory cursor,
every other inode, the mode of the inode, every other open-file slot, the
inode pointer and the read cursor of the handle, and the directory region of
the device. -/
def WriteFrame (s s' : FS) (fileID inode : Int) : Prop :=
  s'.directory_table = s.directory_table ∧
  s'.inode_bitmap = s.inode_bitmap ∧
  s'.current_directory = s.current_directory ∧
  (∀ j : Int, j ≠ inode → s'.inode_table j = s.inode_table j) ∧
  (s'.inode_table inode).mode = (s.inode_table inode).mode ∧
  (∀ k : Int, k ≠ fileID → s'.open_file_descriptor_table k = s.open_file_descriptor_table k) ∧
  (s'.open_file_descriptor_table fileID).inode_pointer =
    (s.open_file_descriptor_table fileID).inode_pointer ∧
  (s'.open_file_descriptor_table fileID).read_pointer =
    (s.open_file_descriptor_table fileID).read_pointer ∧
  s'.disk.directory_table = s.disk.directory_table ∧
  s'.disk.inode_bitmap = s.disk.inode_bitmap

/-- The in-memory inode table and directory table are the ones on the device. -/
def Synced (s : FS) : Prop :=
  s.disk.inode_table = s.inode_table ∧ s.disk.directory_table = s.directory_table

/-- A run of `sfs_fwrite` calls on one handle, each with its own stack
content and its buffer written in full, with the values returned. -/
def write_all (s : FS) (h : Int) : List ((Int → Int) × List Nat) → List Int × FS
  | [] => ([], s)
  | c :: cs =>
    ((sfs_fwrite s c.1 h c.2 c.2.length).1 :: (write_all (sfs_fwrite s c.1 h c.2 c.2.length).2 h cs).1,
      (write_all (sfs_fwrite s c.1 h c.2 c.2.length).2 h cs).2)

/-! ## Runs of API calls -/

/-- A call of `sfs_fopen`, `sfs_fwrite` (with the stack content it finds) or
`sfs_fclose`. -/
inductive Call where
  | fopen (name : List Char)
  | fwrite (stack : Int → Int) (fileID : Int) (buf : List Nat) (length : Int)
  | fclose (fileID : Int)

/-- The value a call returns and the state it leaves. -/
def run_call (s : FS) : Call → Int × FS
  | .fopen name => sfs_fopen s name
  | .fwrite stack fileID buf length => sfs_fwrite s stack fileID buf length
  | .fclose fileID => sfs_fclose s fileID

/-- The state after a sequence of calls. -/
def run (s : FS) : List Call → FS
  | [] => s
  | c :: cs => run (run_call s c).2 cs

/-- No `sfs_fwrite` of the sequence returns -1. -/
def writes_succeed (s : FS) : List Call → Prop
  | [] => True
  | .fwrite stack fileID buf length :: cs =>
    (sfs_fwrite s stack fileID buf length).1 ≠ -1 ∧
      writes_succeed (sfs_fwrite s stack fileID buf length).2 cs
  | c :: cs => writes_succeed (run_call s c).2 cs

/-- The data bits are set exactly below `N`. -/
def BitmapPrefix (s : FS) (N : Int) : Prop :=
  ∀ b : Int, 0 ≤ b → b < 1024 → s.data_block_bitmap b = if b < N then 1 else 0

/-! ## Directory listing, file size and removal -/

/-- The bytes a string copy picks up from the `int` field `inode_pointer`: the
bytes of its little-endian encoding up to the first zero byte. -/
def pointer_chars (v : Int) : List Char :=
  (((List.range 4).map (int_byte v)).takeWhile (fun b => b != 0)).map Char.ofNat

/-- The C string that starts at `directory_table[cur].full_filename`, as
`strcpy` reads it.  A name shorter than 32 bytes ends at its terminator inside
the 32-byte field.  A name of 32 bytes fills the field and leaves no
terminator in it, so the string runs on through the four bytes of
`inode_pointer`, the next member of the entry, and, if none of them is zero,
through the entry that follows; `n` bounds the number of entries followed, and
entries past index 127 stand for the memory behind the table. -/
def stored_string (s : FS) : Nat → Int → List Char
  | 0, _ => []
  | n + 1, cur =>
    if (s.directory_table cur).full_filename.length < MAX_FNAME_LENGTH then
      (s.directory_table cur).full_filename
    else
      (s.directory_table cur).full_filename.take MAX_FNAME_LENGTH ++
        pointer_chars (s.directory_table cur).inode_pointer ++
        (if (pointer_chars (s.directory_table cur).inode_pointer).length = 4 then
          stored_string s n (cur + 1)
        else [])

/-- The loop `while (current_directory != MAX_INODES)` of
`sfs_getnextfilename` from cursor `cur`, followed by the code after it: the
value returned, the content of `fname` and the new cursor.  The call
`strcpy(fname, directory_table[cur].full_filename)` copies the string
`stored_string` finds at the name field. -/
def getnext_loop (s : FS) (fname : List Char) : Nat → Int → Int × List Char × Int
  | 0, cur => (0, fname, if cur = MAX_INODES then 1 else cur)
  | n + 1, cur =>
    if cur ≠ MAX_INODES then
      if (s.directory_table cur).inode_pointer ≠ 0 ∧
          strncmp_eq (s.directory_table cur).full_filename "root".toList = false then
        (1, stored_string s MAX_INODES cur, wrap32 (cur + 1))
      else getnext_loop s fname n (wrap32 (cur + 1))
    else (0, fname, 1)

/-- The function `sfs_getnextfilename`: value returned, content of `fname`
after the call, new state.  The cursor reaches `MAX_INODES` after
`(MAX_INODES - current_directory) mod 2^32` increments, which is the number of
iterations the loop is given. -/
def sfs_getnextfilename (s : FS) (fname : List Char) : Int × List Char × FS :=
  let r := getnext_loop s fname (((MAX_INODES : Int) - s.current_directory) % 4294967296).toNat
    s.current_directory
  (r.1, r.2.1, { s with current_directory := r.2.2 })

def sfs_getfilesize (s : FS) (path : List Char) : Int :=
  let i := scan (fun i => strncmp_eq path (s.directory_table i).full_filename) MAX_INODES 0
  if i ≠ -1 then
    let ptr := (s.directory_table i).inode_pointer
    (s.inode_table ptr).size
  else 0

/-- The first block of the array `eraser` after its `memset`. -/
def eraser : Block := fun _ => 0

/-- The pair `write_blocks(p, 1, &eraser); set_bit_0("data", p);` of
`sfs_remove`. -/
def erase_block (s : FS) (p : Int) : FS :=
  set_bit_0 { s with disk := write_block s.disk p eraser } "data" p

/-- The loop of `sfs_remove` over the entries of the indirect block. -/
def erase_indirect (s : FS) (indirect_buffer : Int → Int) : FS :=
  (List.range INDIRECT_ENTRIES).foldl
    (fun (s : FS) (i : Nat) =>
      if indirect_buffer (i : Int) ≠ 0 then erase_block s (indirect_buffer (i : Int)) else s) s

/-- The loop of `sfs_remove` over the twelve direct pointers. -/
def erase_direct (s : FS) (inode_ptr : Int) : FS :=
  (List.range 12).foldl
    (fun (s : FS) (i : Nat) =>
      if (s.inode_table inode_ptr).pointers (i : Int) ≠ 0 then
        set_pointer (erase_block s ((s.inode_table inode_ptr).pointers (i : Int))) inode_ptr (i : Int) 0
      else s) s

/-- The first loop of `sfs_remove`: the first slot whose name matches, or 0. -/
def remove_index (s : FS) (file : List Char) : Int :=
  let found := scan (fun i => strncmp_eq (s.directory_table i).full_filename file) MAX_INODES 0
  if found = -1 then 0 else found

/-- The part of `sfs_remove` that clears the directory entry, the open-file
slot of the same index and the `gid` of the inode. -/
def remove_unlink (s : FS) (index : Int) : FS :=
  let dir := s.directory_table index
  let e : DIRECTORY_ENTRY := { dir with full_filename := [] }
  let s := { s with directory_table := Function.update s.directory_table index e }
  let inode_ptr := dir.inode_pointer
  let e : DIRECTORY_ENTRY := { (s.directory_table index) with inode_pointer := 0 }
  let s := { s with directory_table := Function.update s.directory_table index e }
  let d : OPEN_FILE_DESCRIPTOR := { inode_pointer := 0, read_pointer := 0, write_pointer := 0 }
  let s :=
    if (s.open_file_descriptor_table index).inode_pointer = inode_ptr then
      { s with open_file_descriptor_table := Function.update s.open_file_descriptor_table index d }
    else s
  let n : INODE := { (s.inode_table inode_ptr) with gid := 0 }
  { s with inode_table := Function.update s.inode_table inode_ptr n }

/-- The part of `sfs_remove` that resolves the indirect block and resets
`indirect_pointer`, `link_cnt` and `mode`; `stack` is the content of the
uninitialised local array `indirect_buffer`. -/
def remove_indirect (s : FS) (stack : Int → Int) (inode_ptr : Int) : FS :=
  let indirect_pointer := (s.inode_table inode_ptr).indirect_pointer
  let s :=
    if indirect_pointer ≠ 0 then
      let indirect_buffer := read_indirect s.disk indirect_pointer stack
      set_bit_0 (erase_indirect s indirect_buffer) "data" indirect_pointer
    else s
  let n : INODE := { (s.inode_table inode_ptr) with indirect_pointer := 0, link_cnt := 0, mode := 0 }
  { s with inode_table := Function.update s.inode_table inode_ptr n }

/-- The part of `sfs_remove` that resolves the direct pointers, resets `uid`
and clears the inode bit. -/
def remove_direct (s : FS) (inode_ptr : Int) : FS :=
  let s := erase_direct s inode_ptr
  let n : INODE := { (s.inode_table inode_ptr) with uid := 0 }
  let s := { s with inode_table := Function.update s.inode_table inode_ptr n }
  set_bit_0 s "inode" inode_ptr

/-- The three `write_blocks` calls that end `sfs_remove`: inode bitmap, data
bitmap and directory table. -/
def remove_flush (s : FS) : FS :=
  let s := { s with disk := { s.disk with inode_bitmap := s.inode_bitmap } }
  let s := { s with disk := { s.disk with data_block_bitmap := s.data_block_bitmap } }
  { s with disk := { s.disk with directory_table := s.directory_table } }

/-- The part of `sfs_remove` that follows the test `index == 0`. -/
def remove_entry (s : FS) (stack : Int → Int) (index : Int) : FS :=
  let inode_ptr := (s.directory_table index).inode_pointer
  remove_flush (remove_direct (remove_indirect (remove_unlink s index) stack inode_ptr) inode_ptr)

/-- What a sequence of block erasures leaves alone, and that it only clears
data bits and only erases blocks. -/
structure EraseFrame (s s' : FS) : Prop where
  directory_table : s'.directory_table = s.directory_table
  open_table : s'.open_file_descriptor_table = s.open_file_descriptor_table
  cursor : s'.current_directory = s.current_directory
  inode_bitmap : s'.inode_bitmap = s.inode_bitmap
  bits : ∀ b : Int, s'.data_block_bitmap b = s.data_block_bitmap b ∨ s'.data_block_bitmap b = 0
  zero_bits : ∀ b : Int, s.data_block_bitmap b = 0 → s'.data_block_bitmap b = 0
  disk_super : s'.disk.super_block = s.disk.super_block
  disk_inode_table : s'.disk.inode_table = s.disk.inode_table
  disk_inode_bitmap : s'.disk.inode_bitmap = s.disk.inode_bitmap
  disk_data_bitmap : s'.disk.data_block_bitmap = s.disk.data_block_bitmap
  disk_directory : s'.disk.directory_table = s.disk.directory_table
  blocks : ∀ b : Int, s'.disk.blocks b = s.disk.blocks b ∨ s'.disk.blocks b = eraser
  zero_blocks : ∀ b : Int, s.disk.blocks b = eraser → s'.disk.blocks b = eraser

def sfs_remove (s : FS) (stack : Int → Int) (file : List Char) : Int × FS :=
  let index := remove_index s file
  if index = 0 then (-1, s)
  else (0, remove_entry s stack index)

/-- One call of the API between two mounts. -/
inductive Op where
  | fopen (name : List Char)
  | fclose (fileID : Int)
  | fwrite (stack : Int → Int) (fileID : Int) (buf : List Nat) (length : Int)
  | fread (stack : Int → Int) (fileID : Int) (length : Int)
  | fseek (fileID : Int) (loc : Int)
  | remove (stack : Int → Int) (file : List Char)

/-- The state a call leaves. -/
def apply_op (s : FS) : Op → FS
  | .fopen name => (sfs_fopen s name).2
  | .fclose fileID => (sfs_fclose s fileID).2
  | .fwrite stack fileID buf length => (sfs_fwrite s stack fileID buf length).2
  | .fread stack fileID length => (sfs_fread s stack fileID length).2.2
  | .fseek fileID loc => (sfs_fseek s fileID loc).2
  | .remove stack file => (sfs_remove s stack file).2

/-- The state after a sequence of calls. -/
def run_ops (s : FS) : List Op → FS
  | [] => s
  | c :: cs => run_ops (apply_op s c) cs

/-! ## Concrete states -/

/-- The bytes of "hello". -/
def hello : List Nat := [104, 101, 108, 108, 111]

/-- An all-zero stack area for the uninitialised `indirect_buffer`. -/
def stack0 : Int → Int := fun _ => 0

/-- The 127 one-character file names with character codes 1..127. -/
def names127 : List (List Char) := (List.range 127).map (fun i => [Char.ofNat (i + 1)])

/-- The state at program start: zero-initialised globals, the directory
cursor at 1, and a blank device. -/
def boot : FS :=
  { inode_table := fun _ => zero_inode,
    directory_table := fun _ => zero_entry,
    open_file_descriptor_table := fun _ => { inode_pointer := 0, read_pointer := 0, write_pointer := 0 },
    current_directory := 1,
    inode_bitmap := fun _ => 0,
    data_block_bitmap := fun _ => 0,
    disk := blank_disk }

/-- The state after `mksfs(1); sfs_fopen("a")` from program start. -/
def one_file : FS := (sfs_fopen (mksfs boot 1) "a".toList).2

/-- The state after `mksfs(1); sfs_fopen("a"); sfs_fwrite(1, "hello", 5);
sfs_fseek(1, 1)` from program start: a 5-byte file with its cursors at 1. -/
def hello_at_1 : FS := (sfs_fseek (sfs_fwrite one_file stack0 1 hello 5).2 1 1).2

/-- A buffer of `n` zero bytes. -/
def zeros (n : Nat) : List Nat := List.replicate n 0

/-- Five files that fill the device up to its last block, the fifth ending at
the end of its direct region: a, b, c of 268 blocks, d of 180 blocks, e of 12
blocks. -/
def fill_calls : List Call :=
  [ .fopen "a".toList, .fwrite stack0 1 (zeros 274432) 274432,
    .fopen "b".toList, .fwrite stack0 2 (zeros 274432) 274432,
    .fopen "c".toList, .fwrite stack0 3 (zeros 274432) 274432,
    .fopen "d".toList, .fwrite stack0 4 (zeros 184320) 184320,
    .fopen "e".toList, .fwrite stack0 5 (zeros 12288) 12288 ]

/-- The state after `mksfs(1)` and `fill_calls` from program start. -/
def nearly_full : FS := run (mksfs boot 1) fill_calls

/-- The state after `mksfs(1); sfs_fopen("a"); sfs_fseek(1, 274432)` from
program start: an empty file with its cursors at the maximum file size. -/
def empty_at_max : FS := (sfs_fseek one_file 1 274432).2

/-- The state after `mksfs(1); sfs_fopen("a"); sfs_fseek(1, 12288);
sfs_fwrite(1, "x", 1); sfs_fseek(1, 274432)` from program start: a file with an
indirect block (block 23, first entry 24) and its cursors at the maximum file
size. -/
def indirect_at_max : FS :=
  (sfs_fseek (sfs_fwrite (sfs_fseek one_file 1 12288).2 stack0 1 [120] 1).2 1 274432).2

/-- The state after `mksfs(1); sfs_fopen("a"); sfs_fopen("b")` from program
start. -/
def two_files : FS := (sfs_fopen one_file "b".toList).2

/-- The state after `mksfs(1); sfs_fopen("a"); sfs_fwrite(1, "hello", 5);
sfs_fseek(1, 12288); sfs_fwrite(1, "x", 1)` from program start: file "a" in
slot 1 with inode 1, size 12289, direct block 23, indirect block 24 and
indirect entry 25. -/
def sample_file : FS :=
  (sfs_fwrite (sfs_fseek (sfs_fwrite one_file stack0 1 hello 5).2 1 12288).2 stack0 1 [120] 1).2

/-- The state after `mksfs(1); sfs_fopen("a"); sfs_fwrite(1, "hello", 5);
sfs_remove("a"); mksfs(0)` from program start. -/
def removed_then_remounted : FS :=
  mksfs (sfs_remove (sfs_fwrite one_file stack0 1 hello 5).2 stack0 "a".toList).2 0

/-- The state after `mksfs(1); sfs_fopen("a"); sfs_fseek(1, 1024);
sfs_fwrite(1, "x", 1); sfs_fseek(1, 0)` from program start: a file of size
1025 whose first direct pointer is 0, with its cursors at 0. -/
def hole_file : FS := (sfs_fseek (sfs_fwrite (sfs_fseek one_file 1 1024).2 stack0 1 [120] 1).2 1 0).2

/-- The state after `mksfs(1); sfs_fopen("a"); sfs_fwrite(1, "hello", 5);
sfs_fseek(1, 0)` from program start. -/
def hello_rewound : FS := (sfs_fseek (sfs_fwrite one_file stack0 1 hello 5).2 1 0).2

/-- The state after `sfs_fwrite(1, "J", 1); sfs_fseek(1, 0)` on
`hello_rewound`. -/
def overwritten : FS := (sfs_fseek (sfs_fwrite hello_rewound stack0 1 [74] 1).2 1 0).2

/-- The names one pass of `sfs_getnextfilename` is to report, by the
specification: the names of the slots `c, c+1, .., c+n-1`, in this order, whose
inode pointer is not 0 and whose name is not "root". -/
def listed (s : FS) (c : Int) (n : Nat) : List (List Char) :=
  (((List.range n).map (fun (k : Nat) => c + (k : Int))).filter
    (fun j => decide ((s.directory_table j).inode_pointer ≠ 0) &&
      !strncmp_eq (s.directory_table j).full_filename "root".toList)).map
    (fun j => (s.directory_table j).full_filename)

/-- The first `n` of successive calls of `sfs_getnextfilename` on one buffer
`fname`: the value each call returns with the content of `fname` after it, and
the state after the last call. -/
def getnext_calls (s : FS) (fname : List Char) : Nat → List (Int × List Char) × FS
  | 0 => ([], s)
  | n + 1 =>
    (((sfs_getnextfilename s fname).1, (sfs_getnextfilename s fname).2.1) ::
      (getnext_calls (sfs_getnextfilename s fname).2.2 (sfs_getnextfilename s fname).2.1 n).1,
    (getnext_calls (sfs_getnextfilename s fname).2.2 (sfs_getnextfilename s fname).2.1 n).2)

/-- The state after `mksfs(1); sfs_fopen("a"); sfs_fopen("b"); sfs_fopen("c")`
from program start. -/
def three_files : FS := (sfs_fopen two_files "c".toList).2

/-- Every populated open-file slot names the inode of the directory entry of
the same index. -/
def ParallelIndex (s : FS) : Prop :=
  ∀ k : Int, (s.open_file_descriptor_table k).inode_pointer ≠ 0 →
    (s.directory_table k).inode_pointer = (s.open_file_descriptor_table k).inode_pointer

/-- A short session: create and write "a", create "b", close "a", remove "a". -/
def sample_ops : List Op :=
  [.fopen "a".toList, .fwrite stack0 1 hello 5, .fopen "b".toList, .fclose 1,
    .remove stack0 "a".toList]

/-- The state after `mksfs(1); sfs_fopen("root")` from program start. -/
def root_file : FS := (sfs_fopen (mksfs boot 1) "root".toList).2

/-- The data bitmap on the device is the one in memory. -/
def BitmapSynced (s : FS) : Prop := s.disk.data_block_bitmap = s.data_block_bitmap

/-- The state after `sfs_fwrite(5, "x", 1)` on `nearly_full`; the call returns
-1. -/
def failed_append : FS := run nearly_full [.fwrite stack0 5 [120] 1]

/-- The state after `sfs_fopen("f")` on `failed_append`. -/
def sixth_file : FS := run failed_append [.fopen "f".toList]

/-- The state after `mksfs(0)` on `sixth_file`. -/
def stale_remount : FS := mksfs sixth_file 0

/-- The state after `sfs_fwrite(6, buf, 4)` on `stale_remount`. -/
def refilled (buf : List Nat) : FS := run stale_remount [.fwrite stack0 6 buf 4]

/-- A file name of 32 bytes, the longest `sfs_fopen` accepts. -/
def long_name : List Char := "aaaaaaaaaaaaaaaaaaaaaaaaaaaaaaaa".toList

/-- The state after `mksfs(1); sfs_fopen(long_name)` from program start. -/
def long_name_file : FS := (sfs_fopen (mksfs boot 1) long_name).2

/-! ## Basic facts about the helpers -/

theorem wrap32_of_range {x : Int} (h1 : -2147483648 ≤ x) (h2 : x < 2147483648) : wrap32 x = x := by
  unfold wrap32; omega

theorem cdiv_nonneg_eq {a : Int} (h : 0 ≤ a) : cdiv a BLOCK_SIZE = a / 1024 := by
  unfold cdiv; exact Int.tdiv_eq_ediv h (by decide)

theorem cmod_nonneg_eq {a : Int} (h : 0 ≤ a) : cmod a BLOCK_SIZE = a % 1024 := by
  unfold cmod; exact Int.tmod_eq_emod h (by decide)

theorem min_def (x y : Int) : min x y = if x > y then y else x := rfl

theorem max_def (x y : Int) : max x y = if x > y then x else y := rfl

/-- What `scan` returns: either -1 with no hit in the window, or the first hit. -/
theorem scan_spec (p : Int → Bool) (n : Nat) (i : Int) :
    (scan p n i = -1 ∧ ∀ j, i ≤ j → j < i + n → p j = false) ∨
    (i ≤ scan p n i ∧ scan p n i < i + n ∧ p (scan p n i) = true ∧
      ∀ j, i ≤ j → j < scan p n i → p j = false) := by
  induction n generalizing i with
  | zero => left; exact ⟨rfl, fun j h1 h2 => by simp at h2; omega⟩
  | succ n ih =>
    unfold scan
    by_cases hp : p i = true
    · right; simp only [hp, if_true]
      exact ⟨le_refl _, by push_cast; omega, trivial, fun j h1 h2 => by omega⟩
    · simp only [hp]
      rcases ih (i + 1) with ⟨h1, h2⟩ | ⟨h1, h2, h3, h4⟩
      · left; refine ⟨by simpa using h1, fun j hj1 hj2 => ?_⟩
        by_cases hji : j = i
        · subst hji; simpa using hp
        · exact h2 j (by omega) (by push_cast at hj2; omega)
      · right; simp only [Bool.false_eq_true, if_false]
        refine ⟨by omega, by push_cast; omega, h3, fun j hj1 hj2 => ?_⟩
        by_cases hji : j = i
        · subst hji; simpa using hp
        · exact h4 j (by omega) hj2

/-- With a non-negative start, `scan` returns -1 exactly when nothing in the
window satisfies the test. -/
theorem scan_eq_neg_one_iff (p : Int → Bool) (n : Nat) (i : Int) (hi : 0 ≤ i) :
    scan p n i = -1 ↔ ∀ j, i ≤ j → j < i + n → p j = false := by
  rcases scan_spec p n i with ⟨h1, h2⟩ | ⟨h1, h2, h3, h4⟩
  · exact ⟨fun _ => h2, fun _ => h1⟩
  · constructor
    · intro h; omega
    · intro h; rw [h _ h1 h2] at h3; exact absurd h3 (by simp)

/-- The first hit of `scan`, when there is one. -/
theorem scan_eq_of_first (p : Int → Bool) (n : Nat) (i r : Int)
    (h1 : i ≤ r) (h2 : r < i + n) (h3 : p r = true) (h4 : ∀ j, i ≤ j → j < r → p j = false) :
    scan p n i = r := by
  rcases scan_spec p n i with ⟨_, g2⟩ | ⟨g1, g2, g3, g4⟩
  · rw [g2 r h1 h2] at h3; exact absurd h3 (by simp)
  · by_contra hne
    rcases lt_or_gt_of_ne hne with hlt | hgt
    · rw [h4 _ g1 hlt] at g3; exact absurd g3 (by simp)
    · rw [g4 r h1 hgt] at h3; exact absurd h3 (by simp)

/-- Setting the data bits `0 .. n-1` one after the other. -/
theorem foldl_set_bit_data (n : Nat) (s : FS) :
    (List.range n).foldl (fun (s : FS) (i : Nat) => set_bit_1 s "data" (i : Int)) s =
      { s with data_block_bitmap :=
          fun b => if 0 ≤ b ∧ b < n then 1 else s.data_block_bitmap b } := by
  induction n with
  | zero =>
    simp only [List.range_zero, List.foldl_nil]
    cases s; simp only [FS.mk.injEq, true_and, and_true]
    funext b; split
    · rename_i h; simp at h; omega
    · rfl
  | succ n ih =>
    rw [List.range_succ, List.foldl_append, ih]
    simp only [List.foldl_cons, List.foldl_nil, set_bit_1]
    simp only [show ("data" : String) ≠ "inode" by decide, if_false, if_true]
    simp only [FS.mk.injEq, true_and, and_true]
    funext b
    by_cases hb : b = (n : Int)
    · subst hb; simp
    · rw [Function.update_noteq hb]
      by_cases h1 : 0 ≤ b ∧ b < n
      · rw [if_pos h1, if_pos (by push_cast; omega)]
      · rw [if_neg h1, if_neg (by push_cast; omega)]

/-! ## Format and mount -/

/-- The state `mksfs(1)` leaves, field by field. -/
theorem mksfs_fresh_fields (s : FS) :
    (mksfs s 1).inode_bitmap = Function.update (fun _ => 0) 1 1 ∧
    (mksfs s 1).data_block_bitmap = (fun b => if 0 ≤ b ∧ b < 23 then 1 else 0) ∧
    (mksfs s 1).inode_table = (fun _ => zero_inode) ∧
    (mksfs s 1).directory_table =
      Function.update (fun _ => zero_entry) 0 { full_filename := "root".toList, inode_pointer := -1 } ∧
    (mksfs s 1).open_file_descriptor_table = s.open_file_descriptor_table ∧
    (mksfs s 1).disk.inode_table = (mksfs s 1).inode_table ∧
    (mksfs s 1).disk.inode_bitmap = (mksfs s 1).inode_bitmap ∧
    (mksfs s 1).disk.data_block_bitmap = (mksfs s 1).data_block_bitmap ∧
    (mksfs s 1).disk.directory_table = (mksfs s 1).directory_table ∧
    (mksfs s 1).disk.blocks = (fun _ _ => 0) := by
  have hz : Function.update (fun _ : Int => zero_inode) 0
      { mode := 0, gid := 0, uid := 0, link_cnt := 0, size := 0,
        pointers := fun _ => 0, indirect_pointer := 0 } = fun _ => zero_inode := by
    funext i
    by_cases hi : i = 0
    · subst hi; rw [Function.update_same]; rfl
    · rw [Function.update_noteq hi]
  simp only [mksfs, init_fresh_base_blocks, foldl_set_bit_data, if_true]
  simp only [set_bit_1, if_true, hz, blank_disk]
  simp

/-- C3: after `mksfs(1)` from any prior state, the inode bitmap has bit 1 set
and every other bit 0, the data bitmap has exactly bits 0..22 set, every inode
is all zeros, directory entry 0 is ("root", -1) and every other entry is empty
with inode pointer 0, and the device regions of the inode table, the two
bitmaps and the directory table hold the same values. -/
theorem mksfs_fresh_post (s : FS) :
    (∀ i : Int, (mksfs s 1).inode_bitmap i = if i = 1 then 1 else 0) ∧
    (∀ b : Int, (mksfs s 1).data_block_bitmap b = if 0 ≤ b ∧ b < 23 then 1 else 0) ∧
    (∀ i : Int, (mksfs s 1).inode_table i = zero_inode) ∧
    (mksfs s 1).directory_table 0 = { full_filename := "root".toList, inode_pointer := -1 } ∧
    (∀ i : Int, i ≠ 0 → (mksfs s 1).directory_table i = { full_filename := [], inode_pointer := 0 }) ∧
    (mksfs s 1).disk.inode_table = (mksfs s 1).inode_table ∧
    (mksfs s 1).disk.inode_bitmap = (mksfs s 1).inode_bitmap ∧
    (mksfs s 1).disk.data_block_bitmap = (mksfs s 1).data_block_bitmap ∧
    (mksfs s 1).disk.directory_table = (mksfs s 1).directory_table := by
  obtain ⟨h1, h2, h3, h4, -, h6, h7, h8, h9, -⟩ := mksfs_fresh_fields s
  refine ⟨fun i => ?_, fun b => ?_, fun i => ?_, ?_, fun i hi => ?_, h6, h7, h8, h9⟩
  · rw [h1]
    by_cases hi : i = 1
    · subst hi; simp
    · rw [Function.update_noteq hi, if_neg hi]
  · rw [h2]
  · rw [h3]
  · rw [h4, Function.update_same]
  · rw [h4, Function.update_noteq hi]; rfl

/-- C4: `mksfs` does not clear the open-file table: the slot opened by
`mksfs(1); sfs_fopen("a")` is still populated after a second `mksfs(1)` and
after `mksfs(0)`. -/
theorem mksfs_keeps_open_slot :
    (one_file.open_file_descriptor_table 1).inode_pointer = 1 ∧
    ((mksfs one_file 1).open_file_descriptor_table 1).inode_pointer = 1 ∧
    ((mksfs one_file 0).open_file_descriptor_table 1).inode_pointer = 1 := by
  decide

/-! ## Close -/

/-- C8: `sfs_fclose(h)` returns 0 exactly when `0 <= h < 128` and slot `h` is
populated, and then only clears that slot; otherwise it returns -1 and leaves
the state as it was; a second close of the same handle returns -1. -/
theorem sfs_fclose_spec (s : FS) (h : Int) :
    sfs_fclose s h =
      (if 0 ≤ h ∧ h < 128 ∧ (s.open_file_descriptor_table h).inode_pointer ≠ 0 then
        (0, { s with open_file_descriptor_table :=
                      Function.update s.open_file_descriptor_table h ⟨0, 0, 0⟩ })
      else (-1, s)) ∧
    (sfs_fclose (sfs_fclose s h).2 h).1 = -1 := by
  have key : ∀ s : FS, sfs_fclose s h =
      (if 0 ≤ h ∧ h < 128 ∧ (s.open_file_descriptor_table h).inode_pointer ≠ 0 then
        (0, { s with open_file_descriptor_table :=
                      Function.update s.open_file_descriptor_table h ⟨0, 0, 0⟩ })
      else (-1, s)) := by
    intro s
    unfold sfs_fclose
    by_cases h1 : h ≥ 0 ∧ h < (MAX_INODES : Int)
    · rw [if_pos h1]
      by_cases h2 : (s.open_file_descriptor_table h).inode_pointer = 0
      · rw [if_pos h2, if_neg (by tauto)]
      · rw [if_neg h2, if_pos ⟨h1.1, by simpa using h1.2, h2⟩]
    · rw [if_neg h1, if_neg (by simp only [MAX_INODES] at h1; push_cast at h1; tauto)]
  refine ⟨key s, ?_⟩
  rw [key s]
  split
  · rw [key]; simp
  · rename_i hn; rw [key, if_neg hn]

/-! ## Open -/

theorem strncmp_eq_iff {a b : List Char} (ha : a.length ≤ 32) (hb : b.length ≤ 32) :
    strncmp_eq a b = true ↔ a = b := by
  unfold strncmp_eq
  rw [List.take_of_length_le ha, List.take_of_length_le hb]
  simp

/-- The directory loop of `sfs_fopen` finds nothing exactly when no slot in
1..127 holds the name. -/
theorem dir_find_eq_neg_one_iff (s : FS) (name : List Char) (hlen : name.length ≤ 32)
    (hwf : ∀ k : Int, 1 ≤ k → k < 128 → (s.directory_table k).full_filename.length ≤ 32) :
    dir_find s name = -1 ↔ ∀ k : Int, 1 ≤ k → k < 128 → (s.directory_table k).full_filename ≠ name := by
  unfold dir_find
  rw [scan_eq_neg_one_iff _ _ _ (by decide)]
  constructor
  · intro h k h1 h2 heq
    have := h k h1 (by simpa using h2)
    rw [(strncmp_eq_iff (hwf k h1 h2) hlen).2 heq] at this
    exact absurd this (by simp)
  · intro h k h1 h2
    have h2' : k < 128 := by simpa using h2
    cases hc : strncmp_eq (s.directory_table k).full_filename name
    · rfl
    · exact absurd ((strncmp_eq_iff (hwf k h1 h2') hlen).1 hc) (h k h1 h2')

/-- The directory loop of `sfs_fopen` returns the first slot holding the name. -/
theorem dir_find_eq_of_first (s : FS) (name : List Char) (k : Int) (hk1 : 1 ≤ k) (hk2 : k < 128)
    (hwf : ∀ j : Int, 1 ≤ j → j < 128 → (s.directory_table j).full_filename.length ≤ 32)
    (hheld : (s.directory_table k).full_filename = name)
    (hfirst : ∀ j : Int, 1 ≤ j → j < k → (s.directory_table j).full_filename ≠ name) :
    dir_find s name = k := by
  have hlen : name.length ≤ 32 := hheld ▸ hwf k hk1 hk2
  unfold dir_find
  apply scan_eq_of_first _ _ _ _ hk1 (by simpa using hk2)
  · exact (strncmp_eq_iff (hwf k hk1 hk2) hlen).2 hheld
  · intro j h1 h2
    cases hc : strncmp_eq (s.directory_table j).full_filename name
    · rfl
    · exact absurd ((strncmp_eq_iff (hwf j h1 (by omega)) hlen).1 hc) (hfirst j h1 h2)

/-- The create branch of `sfs_fopen`, as a whole-state equation. -/
theorem sfs_fopen_create_eq (s : FS) (name : List Char) (d i : Int)
    (hlen : name.length ≤ 32)
    (hwf : ∀ k : Int, 1 ≤ k → k < 128 → (s.directory_table k).full_filename.length ≤ 32)
    (hnew : ∀ k : Int, 1 ≤ k → k < 128 → (s.directory_table k).full_filename ≠ name)
    (hd1 : 0 ≤ d) (hd2 : d < 128) (hd3 : (s.directory_table d).full_filename = [])
    (hd4 : ∀ j : Int, 0 ≤ j → j < d → (s.directory_table j).full_filename ≠ [])
    (hi1 : 1 ≤ i) (hi2 : i < 128) (hi3 : (s.inode_table i).mode = 0)
    (hi4 : ∀ j : Int, 1 ≤ j → j < i → (s.inode_table j).mode ≠ 0) :
    sfs_fopen s name = (d, created_state s name d i) := by
  have hfind : dir_find s name = -1 := (dir_find_eq_neg_one_iff s name hlen hwf).2 hnew
  have hfd : find_free_entry s "directory_table" = d := by
    simp only [find_free_entry, show ("directory_table" : String) ≠ "open_file_descriptor_table" by decide,
      if_false, if_true]
    apply scan_eq_of_first _ _ _ _ hd1 (by simpa using hd2)
    · simpa using hd3
    · intro j h1 h2; simpa using hd4 j h1 h2
  have hfi : find_free_entry s "inode_table" = i := by
    simp only [find_free_entry, show ("inode_table" : String) ≠ "open_file_descriptor_table" by decide,
      show ("inode_table" : String) ≠ "directory_table" by decide, if_false, if_true]
    apply scan_eq_of_first _ _ _ _ hi1 (by simp; omega)
    · simpa using hi3
    · intro j h1 h2; simpa using hi4 j h1 h2
  unfold sfs_fopen
  rw [if_neg (by simp only [MAX_FNAME_LENGTH]; omega)]
  simp only [hfind, ne_eq, not_true_eq_false, if_false, hfd, hfi]
  rw [if_neg (by omega)]
  simp only [created_state, set_bit_1, if_true, Function.update_same]

/-- C5: for a name of at most 32 bytes held by no directory slot in 1..127,
with `d` the lowest free directory slot and `i` the lowest free inode slot,
`sfs_fopen` returns `d`, stores `(name, i)` in directory slot `d`, makes inode
`i` a file of size 0 with all twelve direct pointers and the indirect pointer
0, and sets open-file slot `d` to `(i, 0, 0)`. -/
theorem sfs_fopen_create (s : FS) (name : List Char) (d i : Int)
    (hlen : name.length ≤ 32)
    (hwf : ∀ k : Int, 1 ≤ k → k < 128 → (s.directory_table k).full_filename.length ≤ 32)
    (hnew : ∀ k : Int, 1 ≤ k → k < 128 → (s.directory_table k).full_filename ≠ name)
    (hd1 : 0 ≤ d) (hd2 : d < 128) (hd3 : (s.directory_table d).full_filename = [])
    (hd4 : ∀ j : Int, 0 ≤ j → j < d → (s.directory_table j).full_filename ≠ [])
    (hi1 : 1 ≤ i) (hi2 : i < 128) (hi3 : (s.inode_table i).mode = 0)
    (hi4 : ∀ j : Int, 1 ≤ j → j < i → (s.inode_table j).mode ≠ 0) :
    (sfs_fopen s name).1 = d ∧
    (sfs_fopen s name).2.directory_table d = { full_filename := name, inode_pointer := i } ∧
    ((sfs_fopen s name).2.inode_table i).mode = 1 ∧
    ((sfs_fopen s name).2.inode_table i).size = 0 ∧
    (∀ j : Int, ((sfs_fopen s name).2.inode_table i).pointers j = 0) ∧
    ((sfs_fopen s name).2.inode_table i).indirect_pointer = 0 ∧
    (sfs_fopen s name).2.open_file_descriptor_table d =
      { inode_pointer := i, read_pointer := 0, write_pointer := 0 } := by
  rw [sfs_fopen_create_eq s name d i hlen hwf hnew hd1 hd2 hd3 hd4 hi1 hi2 hi3 hi4]
  simp [created_state]

/-- On the freshly formatted file system, `sfs_fopen("a")` creates the file in
directory slot 1 with inode 1. -/
theorem sfs_fopen_create_witness :
    (sfs_fopen (mksfs boot 1) "a".toList).1 = 1 ∧
    (sfs_fopen (mksfs boot 1) "a".toList).2.directory_table 1 =
      { full_filename := "a".toList, inode_pointer := 1 } ∧
    ((sfs_fopen (mksfs boot 1) "a".toList).2.inode_table 1).mode = 1 ∧
    ((sfs_fopen (mksfs boot 1) "a".toList).2.inode_table 1).size = 0 ∧
    (∀ j : Int, ((sfs_fopen (mksfs boot 1) "a".toList).2.inode_table 1).pointers j = 0) ∧
    ((sfs_fopen (mksfs boot 1) "a".toList).2.inode_table 1).indirect_pointer = 0 ∧
    (sfs_fopen (mksfs boot 1) "a".toList).2.open_file_descriptor_table 1 =
      { inode_pointer := 1, read_pointer := 0, write_pointer := 0 } := by
  obtain ⟨-, -, h3, h4, -⟩ := mksfs_fresh_fields boot
  have hdir : ∀ k : Int, k ≠ 0 → ((mksfs boot 1).directory_table k).full_filename = [] := by
    intro k hk; rw [h4, Function.update_noteq hk]; rfl
  have hdir0 : ((mksfs boot 1).directory_table 0).full_filename = "root".toList := by
    rw [h4, Function.update_same]
  have hmode : ∀ k : Int, ((mksfs boot 1).inode_table k).mode = 0 := by
    intro k; rw [h3]; rfl
  exact sfs_fopen_create (mksfs boot 1) "a".toList 1 1 (by decide)
    (fun k h1 _ => by rw [hdir k (by omega)]; decide)
    (fun k h1 _ => by rw [hdir k (by omega)]; decide)
    (by decide) (by decide) (hdir 1 (by decide))
    (fun j h1 h2 => by
      have : j = 0 := by omega
      subst this; rw [hdir0]; decide)
    (by decide) (by decide) (hmode 1) (fun j h1 h2 => by omega)

/-- The two branches of `sfs_fopen` on a name found in directory slot `k`. -/
theorem sfs_fopen_found_eq (s : FS) (name : List Char) (k : Int) (hk1 : 1 ≤ k) (hk2 : k < 128)
    (hwf : ∀ j : Int, 1 ≤ j → j < 128 → (s.directory_table j).full_filename.length ≤ 32)
    (hheld : (s.directory_table k).full_filename = name)
    (hfirst : ∀ j : Int, 1 ≤ j → j < k → (s.directory_table j).full_filename ≠ name) :
    sfs_fopen s name =
      (k, if (s.open_file_descriptor_table k).inode_pointer = 0 then
            { s with open_file_descriptor_table :=
                      Function.update s.open_file_descriptor_table k
                        ⟨(s.directory_table k).inode_pointer, 0,
                          (s.inode_table (s.directory_table k).inode_pointer).size⟩ }
          else s) := by
  have hlen : name.length ≤ 32 := hheld ▸ hwf k hk1 hk2
  have hfind := dir_find_eq_of_first s name k hk1 hk2 hwf hheld hfirst
  unfold sfs_fopen
  rw [if_neg (by simp only [MAX_FNAME_LENGTH]; omega)]
  simp only [hfind]
  rw [if_pos (by omega)]
  by_cases hp : (s.open_file_descriptor_table k).inode_pointer = 0
  · simp [hp]
  · simp [hp]

/-- C6: for a name whose first holder among the directory slots 1..127 is slot
`k`, `sfs_fopen` returns `k`; an empty open-file slot `k` becomes (inode pointer
of the directory entry, read cursor 0, write cursor = size of that inode), a
populated one is left as it is; and after `sfs_fclose(k)` a new `sfs_fopen` of
the name returns `k` again. -/
theorem sfs_fopen_existing (s : FS) (name : List Char) (k : Int) (hk1 : 1 ≤ k) (hk2 : k < 128)
    (hwf : ∀ j : Int, 1 ≤ j → j < 128 → (s.directory_table j).full_filename.length ≤ 32)
    (hheld : (s.directory_table k).full_filename = name)
    (hfirst : ∀ j : Int, 1 ≤ j → j < k → (s.directory_table j).full_filename ≠ name) :
    sfs_fopen s name =
      (k, if (s.open_file_descriptor_table k).inode_pointer = 0 then
            { s with open_file_descriptor_table :=
                      Function.update s.open_file_descriptor_table k
                        ⟨(s.directory_table k).inode_pointer, 0,
                          (s.inode_table (s.directory_table k).inode_pointer).size⟩ }
          else s) ∧
    (sfs_fopen (sfs_fclose s k).2 name).1 = k := by
  refine ⟨sfs_fopen_found_eq s name k hk1 hk2 hwf hheld hfirst, ?_⟩
  have hdir : (sfs_fclose s k).2.directory_table = s.directory_table := by
    simp only [sfs_fclose]; split_ifs <;> rfl
  rw [sfs_fopen_found_eq (sfs_fclose s k).2 name k hk1 hk2 (by rw [hdir]; exact hwf)
    (by rw [hdir]; exact hheld) (by rw [hdir]; exact hfirst)]

/-- The file "a" created on a fresh file system is reopened in slot 1, before
and after a close. -/
theorem sfs_fopen_existing_witness :
    sfs_fopen one_file "a".toList =
      (1, if (one_file.open_file_descriptor_table 1).inode_pointer = 0 then
            { one_file with open_file_descriptor_table :=
                              Function.update one_file.open_file_descriptor_table 1
                                ⟨(one_file.directory_table 1).inode_pointer, 0,
                                  (one_file.inode_table (one_file.directory_table 1).inode_pointer).size⟩ }
          else one_file) ∧
    (sfs_fopen (sfs_fclose one_file 1).2 "a".toList).1 = 1 := by
  have hdir : ∀ j : Int, 1 ≤ j → (one_file.directory_table j).full_filename =
      if j = 1 then "a".toList else [] := by
    intro j hj
    obtain ⟨-, -, h3, h4, -⟩ := mksfs_fresh_fields boot
    have hdir : ∀ k : Int, k ≠ 0 → ((mksfs boot 1).directory_table k).full_filename = [] := by
      intro k hk; rw [h4, Function.update_noteq hk]; rfl
    have hdir0 : ((mksfs boot 1).directory_table 0).full_filename = "root".toList := by
      rw [h4, Function.update_same]
    have hmode : ∀ k : Int, ((mksfs boot 1).inode_table k).mode = 0 := by
      intro k; rw [h3]; rfl
    have hc := sfs_fopen_create_eq (mksfs boot 1) "a".toList 1 1 (by decide)
      (fun k h1 _ => by rw [hdir k (by omega)]; decide)
      (fun k h1 _ => by rw [hdir k (by omega)]; decide)
      (by decide) (by decide) (hdir 1 (by decide))
      (fun j h1 h2 => by
        have : j = 0 := by omega
        subst this; rw [hdir0]; decide)
      (by decide) (by decide) (hmode 1) (fun j h1 h2 => by omega)
    unfold one_file; rw [hc]
    simp only [created_state]
    by_cases h1 : j = 1
    · subst h1; simp
    · rw [Function.update_noteq h1, if_neg h1]; exact hdir j (by omega)
  exact sfs_fopen_existing one_file "a".toList 1 (by decide) (by decide)
    (fun j h1 _ => by rw [hdir j h1]; split <;> decide)
    (by rw [hdir 1 (by decide)]; rfl)
    (fun j h1 h2 => by omega)

theorem find_free_dir_eq_neg_one_iff (s : FS) :
    find_free_entry s "directory_table" = -1 ↔
      ∀ d : Int, 0 ≤ d → d < 128 → (s.directory_table d).full_filename ≠ [] := by
  simp only [find_free_entry, show ("directory_table" : String) ≠ "open_file_descriptor_table" by decide,
    if_false, if_true]
  rw [scan_eq_neg_one_iff _ _ _ (by decide)]
  constructor
  · intro h d h1 h2; simpa using h d h1 (by simpa using h2)
  · intro h d h1 h2; simpa using h d h1 (by simpa using h2)

theorem find_free_inode_eq_neg_one_iff (s : FS) :
    find_free_entry s "inode_table" = -1 ↔
      ∀ i : Int, 1 ≤ i → i < 128 → (s.inode_table i).mode ≠ 0 := by
  simp only [find_free_entry, show ("inode_table" : String) ≠ "open_file_descriptor_table" by decide,
    show ("inode_table" : String) ≠ "directory_table" by decide, if_false, if_true]
  rw [scan_eq_neg_one_iff _ _ _ (by decide)]
  constructor
  · intro h d h1 h2; simpa using h d h1 (by simp; omega)
  · intro h d h1 h2; simpa using h d h1 (by simp at h2; omega)

theorem dir_find_range (s : FS) (name : List Char) :
    dir_find s name = -1 ∨ (1 ≤ dir_find s name ∧ dir_find s name < 128) := by
  unfold dir_find
  rcases scan_spec (fun i => strncmp_eq (s.directory_table i).full_filename name) (MAX_INODES - 1) 1
    with ⟨h, -⟩ | ⟨h1, h2, -⟩
  · left; exact h
  · right
    have hc : ((MAX_INODES - 1 : Nat) : Int) = 127 := rfl
    rw [hc] at h2
    exact ⟨h1, by omega⟩

theorem find_free_dir_range (s : FS) :
    find_free_entry s "directory_table" = -1 ∨ 0 ≤ find_free_entry s "directory_table" := by
  simp only [find_free_entry, show ("directory_table" : String) ≠ "open_file_descriptor_table" by decide,
    if_false, if_true]
  rcases scan_spec (fun i => (s.directory_table i).full_filename == []) MAX_INODES 0
    with ⟨h, -⟩ | ⟨h1, -⟩
  · left; exact h
  · right; exact h1

/-- When `sfs_fopen` returns -1 and what it leaves behind. -/
theorem sfs_fopen_eq_neg_one (s : FS) (name : List Char)
    (hwf : ∀ k : Int, 1 ≤ k → k < 128 → (s.directory_table k).full_filename.length ≤ 32) :
    ((sfs_fopen s name).1 = -1 ↔
      (name.length > 32 ∨
        ((∀ k : Int, 1 ≤ k → k < 128 → (s.directory_table k).full_filename ≠ name) ∧
          ((∀ d : Int, 0 ≤ d → d < 128 → (s.directory_table d).full_filename ≠ []) ∨
           (∀ i : Int, 1 ≤ i → i < 128 → (s.inode_table i).mode ≠ 0))))) ∧
    ((sfs_fopen s name).1 = -1 → (sfs_fopen s name).2 = s) := by
  by_cases hlen : name.length > 32
  · have : sfs_fopen s name = (-1, s) := by
      unfold sfs_fopen; rw [if_pos (by simpa using hlen)]
    rw [this]; exact ⟨⟨fun _ => Or.inl hlen, fun _ => rfl⟩, fun _ => rfl⟩
  · have hlen' : name.length ≤ 32 := by omega
    have hiff := dir_find_eq_neg_one_iff s name hlen' hwf
    by_cases hf : dir_find s name = -1
    · by_cases hfree : find_free_entry s "directory_table" = -1 ∨ find_free_entry s "inode_table" = -1
      · have : sfs_fopen s name = (-1, s) := by
          unfold sfs_fopen; rw [if_neg (by simpa using hlen)]
          simp only [hf, ne_eq, not_true_eq_false, if_false]
          rw [if_pos hfree]
        rw [this]
        refine ⟨⟨fun _ => Or.inr ⟨hiff.1 hf, ?_⟩, fun _ => rfl⟩, fun _ => rfl⟩
        rcases hfree with h | h
        · exact Or.inl ((find_free_dir_eq_neg_one_iff s).1 h)
        · exact Or.inr ((find_free_inode_eq_neg_one_iff s).1 h)
      · have h1 : (sfs_fopen s name).1 = find_free_entry s "directory_table" := by
          unfold sfs_fopen; rw [if_neg (by simpa using hlen)]
          simp only [hf, ne_eq, not_true_eq_false, if_false]
          rw [if_neg hfree]
        have h2 : find_free_entry s "directory_table" ≠ -1 := fun h => hfree (Or.inl h)
        rw [h1]
        refine ⟨⟨fun h => absurd h h2, fun h => ?_⟩, fun h => absurd h h2⟩
        rcases h with h | ⟨-, h | h⟩
        · omega
        · exact absurd ((find_free_dir_eq_neg_one_iff s).2 h) (fun h => hfree (Or.inl h))
        · exact absurd ((find_free_inode_eq_neg_one_iff s).2 h) (fun h => hfree (Or.inr h))
    · have h1 : (sfs_fopen s name).1 = dir_find s name := by
        unfold sfs_fopen; rw [if_neg (by simpa using hlen)]
        simp only [ne_eq, hf, not_false_eq_true, if_true]
        split_ifs <;> rfl
      rw [h1]
      refine ⟨⟨fun h => absurd h hf, fun h => ?_⟩, fun h => absurd h hf⟩
      rcases h with h | ⟨h, -⟩
      · omega
      · exact absurd (hiff.2 h) hf

/-- The freshly formatted file system holds no file. -/
theorem filled_fresh (s : FS) : Filled (mksfs s 1) [] := by
  obtain ⟨-, -, h3, h4, -⟩ := mksfs_fresh_fields s
  refine ⟨by rw [h4, Function.update_same], fun j hj => by simp at hj, fun k h1 _ => ?_,
    fun k h1 h2 => by simp at h2; omega, fun k _ _ => by rw [h3]; rfl⟩
  simp at h1
  rw [h4, Function.update_noteq (by omega)]; rfl

/-- Creating one more file on a file system of shape `Filled`. -/
theorem filled_step (s : FS) (created : List (List Char)) (n : List Char)
    (hF : Filled s created) (hroom : created.length < 127)
    (hvalid : ∀ m ∈ created, m ≠ [] ∧ m.length ≤ 32)
    (hn1 : n ≠ []) (hn2 : n.length ≤ 32) (hn3 : n ∉ created) :
    (sfs_fopen s n).1 = (created.length : Int) + 1 ∧ Filled (sfs_fopen s n).2 (created ++ [n]) := by
  obtain ⟨f0, f1, f2, f3, f4⟩ := hF
  have hstored : ∀ k : Int, 1 ≤ k → k ≤ (created.length : Int) →
      (s.directory_table k).full_filename ∈ created := by
    intro k h1 h2
    have hj : (k - 1).toNat < created.length := by omega
    have := f1 (k - 1).toNat hj
    rw [show (((k - 1).toNat : Nat) : Int) + 1 = k by omega] at this
    rw [this, List.getD_eq_getElem _ _ hj]
    exact List.getElem_mem _
  have hwf : ∀ k : Int, 1 ≤ k → k < 128 → (s.directory_table k).full_filename.length ≤ 32 := by
    intro k h1 h2
    by_cases hk : k ≤ (created.length : Int)
    · exact (hvalid _ (hstored k h1 hk)).2
    · rw [f2 k (by omega) h2]; simp
  have hnew : ∀ k : Int, 1 ≤ k → k < 128 → (s.directory_table k).full_filename ≠ n := by
    intro k h1 h2
    by_cases hk : k ≤ (created.length : Int)
    · intro h; exact hn3 (h ▸ hstored k h1 hk)
    · rw [f2 k (by omega) h2]; exact fun h => hn1 h.symm
  have hd4 : ∀ j : Int, 0 ≤ j → j < (created.length : Int) + 1 →
      (s.directory_table j).full_filename ≠ [] := by
    intro j h1 h2
    by_cases hj : j = 0
    · subst hj; rw [f0]; decide
    · exact (hvalid _ (hstored j (by omega) (by omega))).1
  have hc := sfs_fopen_create_eq s n ((created.length : Int) + 1) ((created.length : Int) + 1)
    hn2 hwf hnew (by omega) (by omega) (f2 _ (by omega) (by omega)) hd4 (by omega) (by omega)
    (f4 _ (by omega) (by omega)) (fun j h1 h2 => f3 j h1 (by omega))
  rw [hc]
  refine ⟨rfl, ?_, ?_, ?_, ?_, ?_⟩
  · simp only [created_state]
    rw [Function.update_noteq (by omega)]; exact f0
  · intro j hj
    simp only [created_state]
    rw [List.length_append, List.length_singleton] at hj
    by_cases hjl : j = created.length
    · subst hjl
      rw [Function.update_same]
      simp [List.getD_eq_getElem?_getD]
    · rw [Function.update_noteq (by omega), f1 j (by omega)]
      simp only [List.getD_eq_getElem?_getD]
      rw [List.getElem?_append_left (by omega)]
  · intro k h1 h2
    simp only [created_state]
    rw [List.length_append, List.length_singleton] at h1
    push_cast at h1
    rw [Function.update_noteq (by omega)]; exact f2 k (by omega) h2
  · intro k h1 h2
    simp only [created_state]
    rw [List.length_append, List.length_singleton] at h2
    push_cast at h2
    by_cases hk : k = (created.length : Int) + 1
    · subst hk; rw [Function.update_same]; decide
    · rw [Function.update_noteq hk]; exact f3 k h1 (by omega)
  · intro k h1 h2
    simp only [created_state]
    rw [List.length_append, List.length_singleton] at h1
    push_cast at h1
    rw [Function.update_noteq (by omega)]; exact f4 k (by omega) h2

/-- Creating the files `rest` one after the other on a file system of shape
`Filled`: the handles are consecutive and the shape is kept. -/
theorem open_all_filled (rest : List (List Char)) :
    ∀ (s : FS) (created : List (List Char)), Filled s created →
      created.length + rest.length ≤ 127 → (created ++ rest).Nodup →
      (∀ m ∈ created ++ rest, m ≠ [] ∧ m.length ≤ 32) →
      (open_all s rest).1 = (List.range rest.length).map (fun j => ((created.length + j : Nat) : Int) + 1) ∧
      Filled (open_all s rest).2 (created ++ rest) := by
  induction rest with
  | nil => intro s created hF _ _ _; simpa [open_all] using hF
  | cons n ns ih =>
    intro s created hF hroom hnd hvalid
    have hn := hvalid n (by simp)
    have hnot : n ∉ created := by
      intro h
      have := List.nodup_append.1 hnd
      exact this.2.2 h (by simp)
    obtain ⟨h1, h2⟩ := filled_step s created n hF (by simp at hroom; omega)
      (fun m hm => hvalid m (by simp [hm])) hn.1 hn.2 hnot
    obtain ⟨g1, g2⟩ := ih (sfs_fopen s n).2 (created ++ [n]) h2
      (by simp at hroom ⊢; omega) (by simpa using hnd) (by simpa using hvalid)
    refine ⟨?_, by simpa [open_all] using g2⟩
    simp only [open_all, g1, h1, List.length_cons, List.range_succ_eq_map, List.map_cons,
      List.map_map, List.length_append, List.length_singleton]
    refine congrArg₂ _ (by simp) (List.map_congr_left fun j _ => ?_)
    simp only [Function.comp]
    simp only [List.length_nil, Nat.succ_eq_add_one]
    push_cast; omega

/-- Once 127 files exist, `sfs_fopen` of any other name returns -1. -/
theorem filled_full_fail (s : FS) (names : List (List Char)) (extra : List Char)
    (hF : Filled s names) (hlen : names.length = 127)
    (hvalid : ∀ m ∈ names, m ≠ [] ∧ m.length ≤ 32) (hextra : extra ∉ names) :
    (sfs_fopen s extra).1 = -1 := by
  obtain ⟨f0, f1, -, -, -⟩ := hF
  have hstored : ∀ k : Int, 1 ≤ k → k < 128 → (s.directory_table k).full_filename ∈ names := by
    intro k h1 h2
    have hj : (k - 1).toNat < names.length := by omega
    have := f1 (k - 1).toNat hj
    rw [show (((k - 1).toNat : Nat) : Int) + 1 = k by omega] at this
    rw [this, List.getD_eq_getElem _ _ hj]
    exact List.getElem_mem _
  have hwf : ∀ k : Int, 1 ≤ k → k < 128 → (s.directory_table k).full_filename.length ≤ 32 :=
    fun k h1 h2 => (hvalid _ (hstored k h1 h2)).2
  refine ((sfs_fopen_eq_neg_one s extra hwf).1).2 (Or.inr ⟨fun k h1 h2 h => ?_, Or.inl fun d h1 h2 => ?_⟩)
  · exact hextra (h ▸ hstored k h1 h2)
  · by_cases hd : d = 0
    · subst hd; rw [f0]; decide
    · exact (hvalid _ (hstored d (by omega) h2)).1

/-- C7: `sfs_fopen(name)` returns -1 exactly when the name is longer than 32
bytes, or no directory slot in 1..127 holds it and there is no free directory
slot or no free inode slot; when it returns -1 the whole state, device
included, is unchanged.  After `mksfs(1)`, creating 127 files with distinct
non-empty names of at most 32 bytes returns the handles 1..127, and opening
any further name then returns -1. -/
theorem sfs_fopen_fail (s : FS) (name : List Char)
    (hwf : ∀ k : Int, 1 ≤ k → k < 128 → (s.directory_table k).full_filename.length ≤ 32) :
    ((sfs_fopen s name).1 = -1 ↔
      (name.length > 32 ∨
        ((∀ k : Int, 1 ≤ k → k < 128 → (s.directory_table k).full_filename ≠ name) ∧
          ((∀ d : Int, 0 ≤ d → d < 128 → (s.directory_table d).full_filename ≠ []) ∨
           (∀ i : Int, 1 ≤ i → i < 128 → (s.inode_table i).mode ≠ 0))))) ∧
    ((sfs_fopen s name).1 = -1 → (sfs_fopen s name).2 = s) ∧
    (∀ (s0 : FS) (names : List (List Char)) (extra : List Char),
      names.length = 127 → names.Nodup → (∀ m ∈ names, m ≠ [] ∧ m.length ≤ 32) → extra ∉ names →
      (open_all (mksfs s0 1) names).1 = (List.range 127).map (fun (j : Nat) => (j : Int) + 1) ∧
      (sfs_fopen (open_all (mksfs s0 1) names).2 extra).1 = -1) := by
  refine ⟨(sfs_fopen_eq_neg_one s name hwf).1, (sfs_fopen_eq_neg_one s name hwf).2, ?_⟩
  intro s0 names extra hlen hnd hvalid hextra
  obtain ⟨h1, h2⟩ := open_all_filled names (mksfs s0 1) [] (filled_fresh s0)
    (by simp [hlen]) (by simpa using hnd) (by simpa using hvalid)
  refine ⟨?_, filled_full_fail _ names extra (by simpa using h2) hlen hvalid hextra⟩
  rw [h1, hlen]
  exact List.map_congr_left fun j _ => by simp

set_option maxRecDepth 100000 in
/-- On the freshly formatted file system a 33-byte name is refused with the
state unchanged, the 127 names of `names127` are created with handles 1..127,
and the 128th create returns -1. -/
theorem sfs_fopen_fail_witness :
    (sfs_fopen (mksfs boot 1) (List.replicate 33 'x')).1 = -1 ∧
    (sfs_fopen (mksfs boot 1) (List.replicate 33 'x')).2 = mksfs boot 1 ∧
    (open_all (mksfs boot 1) names127).1 = (List.range 127).map (fun (j : Nat) => (j : Int) + 1) ∧
    (sfs_fopen (open_all (mksfs boot 1) names127).2 "f128".toList).1 = -1 := by
  have hwf : ∀ k : Int, 1 ≤ k → k < 128 →
      ((mksfs boot 1).directory_table k).full_filename.length ≤ 32 := by
    intro k h1 _
    rw [(mksfs_fresh_fields boot).2.2.2.1, Function.update_noteq (by omega)]
    decide
  have h := sfs_fopen_fail (mksfs boot 1) (List.replicate 33 'x') hwf
  have hret := h.1.2 (Or.inl (by decide))
  exact ⟨hret, h.2.1 hret,
    h.2.2 boot names127 "f128".toList (by decide) (by decide) (by decide) (by decide)⟩

/-! ## The write loop, for every state -/

theorem cmod_lt (a : Int) : cmod a BLOCK_SIZE < 1024 := Int.tmod_lt_of_pos a (by decide)

theorem chunk_bounds (p remaining : Int) (h : 0 < remaining) :
    1 ≤ chunk p remaining ∧ chunk p remaining ≤ remaining := by
  have := cmod_lt p
  unfold chunk min
  simp only [BLOCK_SIZE] at *
  split_ifs <;> omega

theorem write_to_block_fst (d : DISK) (bp : Int) (buffer : List Nat) (length offset : Int) :
    (write_to_block d bp buffer length offset).1 = min (BLOCK_SIZE - offset) length := by
  unfold write_to_block
  by_cases h : offset = 0
  · subst h; simp
  · simp [h]

theorem prep_refl (s : FS) (inode : Int) : Prep s s inode :=
  ⟨rfl, rfl, rfl, rfl, rfl, fun _ _ => rfl, rfl, rfl⟩

theorem prep_trans {s s1 s2 : FS} {inode : Int} (h1 : Prep s s1 inode) (h2 : Prep s1 s2 inode) :
    Prep s s2 inode := by
  obtain ⟨a1, a2, a3, a4, a5, a6, a7, a8⟩ := h1
  obtain ⟨b1, b2, b3, b4, b5, b6, b7, b8⟩ := h2
  exact ⟨b1.trans a1, b2.trans a2, b3.trans a3, b4.trans a4, b5.trans a5,
    fun j hj => (b6 j hj).trans (a6 j hj), b7.trans a7, b8.trans a8⟩

theorem prep_set_bit (s : FS) (loc inode : Int) : Prep s (set_bit_1 s "data" loc) inode := by
  simp only [set_bit_1, show ("data" : String) ≠ "inode" by decide, if_false, if_true]
  exact ⟨rfl, rfl, rfl, rfl, rfl, fun _ _ => rfl, rfl, rfl⟩

theorem prep_set_pointer (s : FS) (inode idx v : Int) : Prep s (set_pointer s inode idx v) inode := by
  refine ⟨rfl, rfl, rfl, rfl, rfl, fun j hj => ?_, ?_, ?_⟩
  · simp only [set_pointer]; rw [Function.update_noteq hj]
  · simp only [set_pointer, Function.update_same]
  · simp only [set_pointer, Function.update_same]

theorem prep_set_indirect (s : FS) (inode v : Int) : Prep s (set_indirect s inode v) inode := by
  refine ⟨rfl, rfl, rfl, rfl, rfl, fun j hj => ?_, ?_, ?_⟩
  · simp only [set_indirect]; rw [Function.update_noteq hj]
  · simp only [set_indirect, Function.update_same]
  · simp only [set_indirect, Function.update_same]

/-- Every way through one iteration of the write loop: an early return on a
state reached by bookkeeping only, or bookkeeping followed by the transfer at
offset `write_ptr_loc % BLOCK_SIZE` and the flush. -/
theorem fwrite_step_cases (s : FS) (fileID : Int) (descriptor : OPEN_FILE_DESCRIPTOR) (l : WLocals)
    (P : Except FS (FS × WLocals) → Prop)
    (herr : ∀ s1, Prep s s1 descriptor.inode_pointer → P (.error s1))
    (hok : ∀ (s1 : FS) (l1 : WLocals) (bp : Int), Prep s s1 descriptor.inode_pointer →
      l1.remaining = l.remaining → l1.bytes_wrote = l.bytes_wrote →
      l1.write_ptr_loc = l.write_ptr_loc → l1.buffer = l.buffer →
      P (.ok (fwrite_flush
          (fwrite_transfer s1 descriptor.inode_pointer l1 bp (cmod l.write_ptr_loc BLOCK_SIZE)).1 fileID
          (fwrite_transfer s1 descriptor.inode_pointer l1 bp (cmod l.write_ptr_loc BLOCK_SIZE)).2,
        (fwrite_transfer s1 descriptor.inode_pointer l1 bp (cmod l.write_ptr_loc BLOCK_SIZE)).2))) :
    P (fwrite_step s fileID descriptor l) := by
  unfold fwrite_step
  dsimp only
  split_ifs
  all_goals first
    | exact herr _ (prep_refl _ _)
    | exact herr _ (prep_trans (prep_set_bit _ _ _) (prep_set_indirect _ _ _))
    | exact hok _ _ _ (prep_refl _ _) rfl rfl rfl rfl
    | exact hok _ _ _ (prep_set_bit _ _ _) rfl rfl rfl rfl
    | exact hok _ _ _ (prep_trans (prep_set_bit _ _ _) (prep_set_pointer _ _ _ _)) rfl rfl rfl rfl
    | exact hok _ _ _ (prep_trans (prep_trans (prep_set_bit _ _ _) (prep_set_indirect _ _ _))
        (prep_set_bit _ _ _)) rfl rfl rfl rfl

theorem write_block_fields (d : DISK) (p : Int) (buf : Block) :
    (write_block d p buf).super_block = d.super_block ∧
    (write_block d p buf).inode_table = d.inode_table ∧
    (write_block d p buf).inode_bitmap = d.inode_bitmap ∧
    (write_block d p buf).data_block_bitmap = d.data_block_bitmap ∧
    (write_block d p buf).directory_table = d.directory_table := by
  unfold write_block; split_ifs <;> exact ⟨rfl, rfl, rfl, rfl, rfl⟩

theorem write_to_block_fields (d : DISK) (bp : Int) (buffer : List Nat) (length offset : Int) :
    (write_to_block d bp buffer length offset).2.directory_table = d.directory_table ∧
    (write_to_block d bp buffer length offset).2.inode_bitmap = d.inode_bitmap := by
  unfold write_to_block
  split_ifs <;> exact ⟨(write_block_fields _ _ _).2.2.2.2, (write_block_fields _ _ _).2.2.1⟩

/-- A completed iteration of the write loop satisfies `StepFacts`. -/
theorem fwrite_step_ok (s : FS) (fileID : Int) (descriptor : OPEN_FILE_DESCRIPTOR) (l : WLocals) :
    ∀ (s' : FS) (l' : WLocals), fwrite_step s fileID descriptor l = .ok (s', l') →
      StepFacts s fileID descriptor l s' l' := by
  apply fwrite_step_cases s fileID descriptor l
    (fun r => ∀ (s' : FS) (l' : WLocals), r = .ok (s', l') → StepFacts s fileID descriptor l s' l')
  · intro s1 _ s' l' h; cases h
  · intro s1 l1 bp hprep e1 e2 e3 e4 s' l' h
    obtain ⟨p1, p2, p3, p4, p5, p6, p7, p8⟩ := hprep
    injection h with h
    injection h with hs hl
    subst hs hl
    have hd := write_to_block_fields s1.disk bp l1.buffer l1.remaining (cmod l.write_ptr_loc BLOCK_SIZE)
    have hflush : ∀ (t : FS) (m : WLocals),
        (fwrite_flush t fileID m).disk.directory_table = t.disk.directory_table ∧
        (fwrite_flush t fileID m).disk.inode_bitmap = t.disk.inode_bitmap := by
      intro t m
      simp only [fwrite_flush]
      split_ifs
      · exact ⟨(write_block_fields _ _ _).2.2.2.2, (write_block_fields _ _ _).2.2.1⟩
      · exact ⟨rfl, rfl⟩
    refine ⟨?_, ?_, ?_, ?_, ?_, ?_, ?_, ?_, ?_, ?_, ?_, ?_, ?_, ?_⟩
    · simp only [fwrite_transfer, write_to_block_fst, chunk, e1, e3]
    · simp only [fwrite_transfer, write_to_block_fst, chunk, e1, e2, e3]
    · simp only [fwrite_transfer, write_to_block_fst, chunk, e1, e3]
    · simp only [fwrite_transfer, write_to_block_fst, chunk, e1, e3, e4]
    · simp only [fwrite_flush, fwrite_transfer, set_size, write_to_block_fst, chunk, e1, e3,
        Function.update_same, p7]
      split_ifs <;> simp [p7]
    · simp only [fwrite_flush, fwrite_transfer, set_size]
      split_ifs <;> simp [p8]
    · intro j hj
      simp only [fwrite_flush, fwrite_transfer, set_size]
      split_ifs <;> simp [Function.update_noteq hj, p6 j hj]
    · simp only [fwrite_flush, fwrite_transfer, set_size, write_to_block_fst, chunk, e1, e3]
      split_ifs <;> simp [p2]
    · simp only [fwrite_flush, fwrite_transfer, set_size]
      split_ifs <;> simp [p1]
    · simp only [fwrite_flush, fwrite_transfer, set_size]
      split_ifs <;> simp [p3]
    · simp only [fwrite_flush, fwrite_transfer, set_size]
      split_ifs <;> simp [p4]
    · simp only [fwrite_flush]
    · rw [(hflush _ _).1]
      simp only [fwrite_transfer, set_size]
      rw [hd.1, p5]
    · rw [(hflush _ _).2]
      simp only [fwrite_transfer, set_size]
      rw [hd.2, p5]

theorem fwrite_loop_done (fileID : Int) (descriptor : OPEN_FILE_DESCRIPTOR) (fuel : Nat) (s : FS)
    (l : WLocals) (h : ¬ l.remaining > 0) :
    fwrite_loop fileID descriptor fuel s l = (l.bytes_wrote, s) := by
  cases fuel with
  | zero => rfl
  | succ n => simp only [fwrite_loop, if_neg h]

theorem fwrite_loop_ok (fileID : Int) (descriptor : OPEN_FILE_DESCRIPTOR) (fuel : Nat) (s s' : FS)
    (l l' : WLocals) (h : l.remaining > 0) (hs : fwrite_step s fileID descriptor l = .ok (s', l')) :
    fwrite_loop fileID descriptor (fuel + 1) s l = fwrite_loop fileID descriptor fuel s' l' := by
  simp only [fwrite_loop, if_pos h, hs]

theorem fwrite_loop_err (fileID : Int) (descriptor : OPEN_FILE_DESCRIPTOR) (fuel : Nat) (s s' : FS)
    (l : WLocals) (h : l.remaining > 0) (hs : fwrite_step s fileID descriptor l = .error s') :
    fwrite_loop fileID descriptor (fuel + 1) s l = (-1, s') := by
  simp only [fwrite_loop, if_pos h, hs]

/-- The write loop does not depend on the fuel once there is at least
`remaining` of it: every iteration moves at least one byte. -/
theorem fwrite_loop_fuel (fileID : Int) (descriptor : OPEN_FILE_DESCRIPTOR) (f1 : Nat) :
    ∀ (f2 : Nat) (s : FS) (l : WLocals), l.remaining.toNat ≤ f1 → l.remaining.toNat ≤ f2 →
      fwrite_loop fileID descriptor f1 s l = fwrite_loop fileID descriptor f2 s l := by
  induction f1 with
  | zero =>
    intro f2 s l h1 _
    have hr : ¬ l.remaining > 0 := by omega
    rw [fwrite_loop_done _ _ _ _ _ hr, fwrite_loop_done _ _ _ _ _ hr]
  | succ n ih =>
    intro f2 s l h1 h2
    by_cases hr : l.remaining > 0
    · cases f2 with
      | zero => omega
      | succ m =>
        rcases hstep : fwrite_step s fileID descriptor l with s' | ⟨s', l'⟩
        · rw [fwrite_loop_err _ _ _ _ _ _ hr hstep, fwrite_loop_err _ _ _ _ _ _ hr hstep]
        · rw [fwrite_loop_ok _ _ _ _ _ _ _ hr hstep, fwrite_loop_ok _ _ _ _ _ _ _ hr hstep]
          have hf := (fwrite_step_ok s fileID descriptor l s' l' hstep).1
          have hc := chunk_bounds l.write_ptr_loc l.remaining hr
          exact ih m s' l' (by omega) (by omega)
    · rw [fwrite_loop_done _ _ _ _ _ hr, fwrite_loop_done _ _ _ _ _ hr]

/-- A write loop that does not return -1 writes everything that remains, and
if there was something to write it leaves the size of the inode at the maximum
of the old size and the final cursor, and the final cursor in the handle. -/
theorem fwrite_loop_size (fileID : Int) (descriptor : OPEN_FILE_DESCRIPTOR) (fuel : Nat) :
    ∀ (s : FS) (l : WLocals), l.remaining.toNat ≤ fuel → 0 ≤ l.remaining → 0 ≤ l.write_ptr_loc →
      l.write_ptr_loc + l.remaining < 2147483648 → 0 ≤ l.bytes_wrote →
      (fwrite_loop fileID descriptor fuel s l).1 ≠ -1 →
      (fwrite_loop fileID descriptor fuel s l).1 = l.bytes_wrote + l.remaining ∧
      (0 < l.remaining →
        ((fwrite_loop fileID descriptor fuel s l).2.inode_table descriptor.inode_pointer).size =
          max (l.write_ptr_loc + l.remaining) (s.inode_table descriptor.inode_pointer).size ∧
        ((fwrite_loop fileID descriptor fuel s l).2.open_file_descriptor_table fileID).write_pointer =
          l.write_ptr_loc + l.remaining) := by
  induction fuel with
  | zero =>
    intro s l h1 h2 _ _ _ _
    have hr : l.remaining = 0 := by omega
    rw [fwrite_loop_done _ _ _ _ _ (by omega)]
    exact ⟨by simp [hr], fun h => by omega⟩
  | succ n ih =>
    intro s l h1 h2 h3 h4 h5 hne
    by_cases hr : l.remaining > 0
    · rcases hstep : fwrite_step s fileID descriptor l with s' | ⟨s', l'⟩
      · rw [fwrite_loop_err _ _ _ _ _ _ hr hstep] at hne; exact absurd rfl hne
      · rw [fwrite_loop_ok _ _ _ _ _ _ _ hr hstep] at hne ⊢
        obtain ⟨g1, g2, g3, -, g5, -, -, g8, -⟩ := fwrite_step_ok s fileID descriptor l s' l' hstep
        have hc := chunk_bounds l.write_ptr_loc l.remaining hr
        rw [wrap32_of_range (by omega) (by omega)] at g3 g5 g8
        obtain ⟨i1, i2⟩ := ih s' l' (by omega) (by omega) (by omega) (by omega) (by omega) hne
        refine ⟨by rw [i1, g1, g2]; omega, fun _ => ?_⟩
        by_cases hr' : 0 < l'.remaining
        · obtain ⟨j1, j2⟩ := i2 hr'
          rw [j1, j2, g5, g3, g1]
          refine ⟨?_, by omega⟩
          simp only [max_def]
          split_ifs <;> omega
        · rw [fwrite_loop_done _ _ _ _ _ (by omega)]
          have hcr : chunk l.write_ptr_loc l.remaining = l.remaining := by omega
          rw [g5, g8, Function.update_same, hcr]
          exact ⟨rfl, rfl⟩
    · have hr0 : l.remaining = 0 := by omega
      rw [fwrite_loop_done _ _ _ _ _ hr]
      exact ⟨by simp [hr0], fun h => by omega⟩

/-- C10: for an open handle with write cursor `w >= 0`, a write of `n > 0`
bytes that does not return -1 (with `w + n` representable as an `int`)
returns `n`, leaves the size of the inode at max(old size, `w + n`) and the
write cursor at `w + n`; when the cursor was at the old size `s`, the new size
is `s + n`. -/
theorem sfs_fwrite_size (s : FS) (stack : Int → Int) (h : Int) (buf : List Nat) (n : Int)
    (hopen : (s.open_file_descriptor_table h).inode_pointer ≠ 0)
    (hw : 0 ≤ (s.open_file_descriptor_table h).write_pointer)
    (hn : 0 < n)
    (hrep : (s.open_file_descriptor_table h).write_pointer + n < 2147483648)
    (hsucc : (sfs_fwrite s stack h buf n).1 ≠ -1) :
    (sfs_fwrite s stack h buf n).1 = n ∧
    ((sfs_fwrite s stack h buf n).2.inode_table (s.open_file_descriptor_table h).inode_pointer).size =
      max (s.inode_table (s.open_file_descriptor_table h).inode_pointer).size
        ((s.open_file_descriptor_table h).write_pointer + n) ∧
    ((sfs_fwrite s stack h buf n).2.open_file_descriptor_table h).write_pointer =
      (s.open_file_descriptor_table h).write_pointer + n ∧
    ((s.inode_table (s.open_file_descriptor_table h).inode_pointer).size =
        (s.open_file_descriptor_table h).write_pointer →
      ((sfs_fwrite s stack h buf n).2.inode_table (s.open_file_descriptor_table h).inode_pointer).size =
        (s.inode_table (s.open_file_descriptor_table h).inode_pointer).size + n) := by
  unfold sfs_fwrite at hsucc ⊢
  simp only [if_neg hopen] at hsucc ⊢
  obtain ⟨h1, h2⟩ := fwrite_loop_size h (s.open_file_descriptor_table h) n.toNat s _
    (le_refl _) (le_of_lt hn) hw hrep (le_refl _) hsucc
  obtain ⟨h3, h4⟩ := h2 hn
  refine ⟨by simpa using h1, ?_, h4, fun he => ?_⟩
  · rw [h3]; simp only [max_def]; split_ifs <;> omega
  · rw [h3]; simp only [max_def]; split_ifs <;> omega

set_option maxRecDepth 100000 in
/-- Writing "hello" to the file just created on a fresh file system returns 5
and leaves size and write cursor at 5. -/
theorem sfs_fwrite_size_witness :
    (sfs_fwrite one_file stack0 1 hello 5).1 = 5 ∧
    ((sfs_fwrite one_file stack0 1 hello 5).2.inode_table 1).size = 5 ∧
    ((sfs_fwrite one_file stack0 1 hello 5).2.open_file_descriptor_table 1).write_pointer = 5 := by
  have hp : (one_file.open_file_descriptor_table 1).inode_pointer = 1 := by decide
  have hwp : (one_file.open_file_descriptor_table 1).write_pointer = 0 := by decide
  have hsz : (one_file.inode_table 1).size = 0 := by decide
  have h := sfs_fwrite_size one_file stack0 1 hello 5 (by rw [hp]; decide) (by rw [hwp])
    (by decide) (by rw [hwp]; decide) (by decide)
  rw [hp, hwp, hsz] at h
  exact ⟨h.1, by rw [h.2.1]; decide, by rw [h.2.2.1]; decide⟩

/-! ## The read loop -/

theorem read_from_block_fst (d : DISK) (bp : Int) (length offset : Int) :
    (read_from_block d bp length offset).1 = min (BLOCK_SIZE - offset) length := by
  unfold read_from_block
  by_cases h : offset = 0
  · subst h; simp
  · simp [h]

/-- An iteration of the read loop fails only beyond the direct region of a
file without indirect block; otherwise it moves `chunk` bytes. -/
theorem fread_step_some (s : FS) (descriptor : OPEN_FILE_DESCRIPTOR) (ip : Int) (ib : Int → Int)
    (l : RLocals) (h : l.read_ptr_loc < 12288 ∨ ip ≠ 0) :
    ∃ l', fread_step s descriptor ip ib l = some l' ∧
      l'.remaining = l.remaining - chunk l.read_ptr_loc l.remaining ∧
      l'.bytes_read = l.bytes_read + chunk l.read_ptr_loc l.remaining ∧
      l'.read_ptr_loc = wrap32 (l.read_ptr_loc + chunk l.read_ptr_loc l.remaining) := by
  unfold fread_step
  by_cases h1 : l.read_ptr_loc < 12 * BLOCK_SIZE
  · simp only [if_pos h1, read_from_block_fst, chunk]
    exact ⟨_, rfl, rfl, rfl, rfl⟩
  · have h2 : ip ≠ 0 := by
      rcases h with h | h
      · simp only [BLOCK_SIZE] at h1; omega
      · exact h
    simp only [if_neg h1, if_neg h2, read_from_block_fst, chunk]
    exact ⟨_, rfl, rfl, rfl, rfl⟩

theorem fread_step_remaining (s : FS) (descriptor : OPEN_FILE_DESCRIPTOR) (ip : Int) (ib : Int → Int)
    (l l' : RLocals) (h : fread_step s descriptor ip ib l = some l') :
    l'.remaining = l.remaining - chunk l.read_ptr_loc l.remaining := by
  unfold fread_step at h
  split_ifs at h
  · injection h with h; subst h; simp only [read_from_block_fst, chunk]
  · injection h with h; subst h; simp only [read_from_block_fst, chunk]

theorem fread_loop_done (s : FS) (fileID : Int) (descriptor : OPEN_FILE_DESCRIPTOR) (ip : Int)
    (ib : Int → Int) (fuel : Nat) (l : RLocals) (h : ¬ l.remaining > 0) :
    fread_loop s fileID descriptor ip ib fuel l =
      (l.bytes_read, l.out,
        { s with open_file_descriptor_table :=
                  Function.update s.open_file_descriptor_table fileID
                    { s.open_file_descriptor_table fileID with read_pointer := l.read_ptr_loc } }) := by
  cases fuel with
  | zero => rfl
  | succ n => simp only [fread_loop, if_neg h]

theorem fread_loop_some (s : FS) (fileID : Int) (descriptor : OPEN_FILE_DESCRIPTOR) (ip : Int)
    (ib : Int → Int) (fuel : Nat) (l l' : RLocals) (h : l.remaining > 0)
    (hs : fread_step s descriptor ip ib l = some l') :
    fread_loop s fileID descriptor ip ib (fuel + 1) l = fread_loop s fileID descriptor ip ib fuel l' := by
  simp only [fread_loop, if_pos h, hs]

theorem fread_loop_none (s : FS) (fileID : Int) (descriptor : OPEN_FILE_DESCRIPTOR) (ip : Int)
    (ib : Int → Int) (fuel : Nat) (l : RLocals) (h : l.remaining > 0)
    (hs : fread_step s descriptor ip ib l = none) :
    fread_loop s fileID descriptor ip ib (fuel + 1) l = (-1, l.out, s) := by
  simp only [fread_loop, if_pos h, hs]

/-- The read loop does not depend on the fuel once there is at least
`remaining` of it: every iteration moves at least one byte. -/
theorem fread_loop_fuel (s : FS) (fileID : Int) (descriptor : OPEN_FILE_DESCRIPTOR) (ip : Int)
    (ib : Int → Int) (f1 : Nat) :
    ∀ (f2 : Nat) (l : RLocals), l.remaining.toNat ≤ f1 → l.remaining.toNat ≤ f2 →
      fread_loop s fileID descriptor ip ib f1 l = fread_loop s fileID descriptor ip ib f2 l := by
  induction f1 with
  | zero =>
    intro f2 l h1 _
    have hr : ¬ l.remaining > 0 := by omega
    rw [fread_loop_done _ _ _ _ _ _ _ hr, fread_loop_done _ _ _ _ _ _ _ hr]
  | succ n ih =>
    intro f2 l h1 h2
    by_cases hr : l.remaining > 0
    · cases f2 with
      | zero => omega
      | succ m =>
        rcases hstep : fread_step s descriptor ip ib l with _ | l'
        · rw [fread_loop_none _ _ _ _ _ _ _ hr hstep, fread_loop_none _ _ _ _ _ _ _ hr hstep]
        · rw [fread_loop_some _ _ _ _ _ _ _ _ hr hstep, fread_loop_some _ _ _ _ _ _ _ _ hr hstep]
          have hf := fread_step_remaining s descriptor ip ib l l' hstep
          have hc := chunk_bounds l.read_ptr_loc l.remaining hr
          exact ih m l' (by omega) (by omega)
    · rw [fread_loop_done _ _ _ _ _ _ _ hr, fread_loop_done _ _ _ _ _ _ _ hr]

/-- A read loop that stays inside the direct region, or runs on a file with
an indirect block, reads everything that remains and stores the final
cursor. -/
theorem fread_loop_count (s : FS) (fileID : Int) (descriptor : OPEN_FILE_DESCRIPTOR) (ip : Int)
    (ib : Int → Int) (fuel : Nat) :
    ∀ (l : RLocals), l.remaining.toNat ≤ fuel → 0 ≤ l.remaining → 0 ≤ l.read_ptr_loc →
      l.read_ptr_loc + l.remaining < 2147483648 → (12288 < l.read_ptr_loc + l.remaining → ip ≠ 0) →
      (fread_loop s fileID descriptor ip ib fuel l).1 = l.bytes_read + l.remaining ∧
      (fread_loop s fileID descriptor ip ib fuel l).2.2 =
        { s with open_file_descriptor_table :=
                  Function.update s.open_file_descriptor_table fileID
                    { s.open_file_descriptor_table fileID with
                      read_pointer := l.read_ptr_loc + l.remaining } } := by
  induction fuel with
  | zero =>
    intro l h1 h2 _ _ _
    have hr : l.remaining = 0 := by omega
    rw [fread_loop_done _ _ _ _ _ _ _ (by omega)]
    simp [hr]
  | succ n ih =>
    intro l h1 h2 h3 h4 h5
    by_cases hr : l.remaining > 0
    · obtain ⟨l', hs, g1, g2, g3⟩ := fread_step_some s descriptor ip ib l (by
        by_cases hlt : l.read_ptr_loc < 12288
        · exact Or.inl hlt
        · exact Or.inr (h5 (by omega)))
      have hc := chunk_bounds l.read_ptr_loc l.remaining hr
      rw [wrap32_of_range (by omega) (by omega)] at g3
      rw [fread_loop_some _ _ _ _ _ _ _ _ hr hs]
      obtain ⟨i1, i2⟩ := ih l' (by omega) (by omega) (by omega) (by omega)
        (fun h => h5 (by omega))
      rw [i1, i2, g1, g2, g3]
      refine ⟨by omega, ?_⟩
      rw [show l.read_ptr_loc + chunk l.read_ptr_loc l.remaining +
        (l.remaining - chunk l.read_ptr_loc l.remaining) = l.read_ptr_loc + l.remaining by omega]
    · have hr0 : l.remaining = 0 := by omega
      rw [fread_loop_done _ _ _ _ _ _ _ hr]
      simp [hr0]

/-- EOF clamping when `r + length` is representable as an `int`: for an open
handle with `0 <= r <= size`, a length `>= 0`, and an indirect block present
whenever the file extends beyond the direct region, `sfs_fread` returns
min(length, size - r) and moves the read cursor by as much. -/
theorem sfs_fread_clamp (s : FS) (stack : Int → Int) (h : Int) (length : Int)
    (hopen : (s.open_file_descriptor_table h).inode_pointer ≠ 0)
    (hr1 : 0 ≤ (s.open_file_descriptor_table h).read_pointer)
    (hr2 : (s.open_file_descriptor_table h).read_pointer ≤
      (s.inode_table (s.open_file_descriptor_table h).inode_pointer).size)
    (hlen : 0 ≤ length)
    (hrep : (s.open_file_descriptor_table h).read_pointer + length < 2147483648)
    (hsz : (s.inode_table (s.open_file_descriptor_table h).inode_pointer).size < 2147483648)
    (hind : 12288 < (s.inode_table (s.open_file_descriptor_table h).inode_pointer).size →
      (s.inode_table (s.open_file_descriptor_table h).inode_pointer).indirect_pointer ≠ 0) :
    (sfs_fread s stack h length).1 =
      min length ((s.inode_table (s.open_file_descriptor_table h).inode_pointer).size -
        (s.open_file_descriptor_table h).read_pointer) ∧
    ((sfs_fread s stack h length).2.2.open_file_descriptor_table h).read_pointer =
      (s.open_file_descriptor_table h).read_pointer +
        min length ((s.inode_table (s.open_file_descriptor_table h).inode_pointer).size -
          (s.open_file_descriptor_table h).read_pointer) := by
  unfold sfs_fread
  simp only [if_neg hopen]
  rw [wrap32_of_range (by omega) (by omega)]
  have hmin : (if length + (s.open_file_descriptor_table h).read_pointer >
        (s.inode_table (s.open_file_descriptor_table h).inode_pointer).size then
      (s.inode_table (s.open_file_descriptor_table h).inode_pointer).size -
        (s.open_file_descriptor_table h).read_pointer else length) =
      min length ((s.inode_table (s.open_file_descriptor_table h).inode_pointer).size -
        (s.open_file_descriptor_table h).read_pointer) := by
    simp only [min_def]; split_ifs <;> omega
  rw [hmin]
  have hm : 0 ≤ min length ((s.inode_table (s.open_file_descriptor_table h).inode_pointer).size -
        (s.open_file_descriptor_table h).read_pointer) ∧
      min length ((s.inode_table (s.open_file_descriptor_table h).inode_pointer).size -
        (s.open_file_descriptor_table h).read_pointer) ≤
        (s.inode_table (s.open_file_descriptor_table h).inode_pointer).size -
        (s.open_file_descriptor_table h).read_pointer := by
    simp only [min_def]; split_ifs <;> omega
  obtain ⟨h1, h2⟩ := fread_loop_count s h (s.open_file_descriptor_table h)
    (s.inode_table (s.open_file_descriptor_table h).inode_pointer).indirect_pointer
    (if (s.inode_table (s.open_file_descriptor_table h).inode_pointer).indirect_pointer ≠ 0 then
      read_indirect s.disk (s.inode_table (s.open_file_descriptor_table h).inode_pointer).indirect_pointer stack
     else stack)
    _ { remaining := min length ((s.inode_table (s.open_file_descriptor_table h).inode_pointer).size -
          (s.open_file_descriptor_table h).read_pointer),
        bytes_read := 0, read_ptr_loc := (s.open_file_descriptor_table h).read_pointer, out := [] }
    (le_refl _) hm.1 hr1 (by simp only; omega) (fun hgt => hind (by simp only at hgt; omega))
  rw [h1, h2]
  simp

/-- C9: the clamp of `sfs_fread` is lost when `length + read cursor` leaves
the range of an `int`.  On the 5-byte file "hello" with the read cursor at 1,
a read of 2147483647 bytes returns -1 where min(length, size - r) is 4. -/
theorem sfs_fread_overflow :
    (hello_at_1.open_file_descriptor_table 1).inode_pointer = 1 ∧
    (hello_at_1.open_file_descriptor_table 1).read_pointer = 1 ∧
    (hello_at_1.inode_table 1).size = 5 ∧
    ((hello_at_1.inode_table 1).pointers 0 = 23) ∧
    (sfs_fread hello_at_1 stack0 1 2147483647).1 = -1 ∧
    (sfs_fread hello_at_1 stack0 1 2147483646).1 = 4 := by
  decide

/-! ## Appending to a file -/

/-- An `int` written to an indirect block is read back unchanged. -/
theorem block_int_ints_to_block (ib : Int → Int) (k : Nat)
    (h1 : -2147483648 ≤ ib k) (h2 : ib k < 2147483648) :
    block_int (ints_to_block ib) k = ib k := by
  have e0 : (4 * k) / 4 = k ∧ (4 * k) % 4 = 0 := by omega
  have e1 : (4 * k + 1) / 4 = k ∧ (4 * k + 1) % 4 = 1 := by omega
  have e2 : (4 * k + 2) / 4 = k ∧ (4 * k + 2) % 4 = 2 := by omega
  have e3 : (4 * k + 3) / 4 = k ∧ (4 * k + 3) % 4 = 3 := by omega
  simp only [block_int, ints_to_block, int_byte, e0, e1, e2, e3, wrap32]
  generalize ib k = v at h1 h2
  have hu : (((v % 4294967296).toNat : Nat) : Int) = v % 4294967296 := by omega
  generalize (v % 4294967296).toNat = u at hu
  norm_num
  omega

/-- With the data bits set exactly below `N`, the first free data bit is `N`. -/
theorem find_free_bit_prefix (s : FS) (N : Int) (h0 : 0 ≤ N) (h1 : N < 1024)
    (hb : ∀ b : Int, 0 ≤ b → b < 1024 → s.data_block_bitmap b = if b < N then 1 else 0) :
    find_free_bit s "data" = N := by
  simp only [find_free_bit, show ("data" : String) ≠ "inode" by decide, if_false, if_true]
  apply scan_eq_of_first _ _ _ _ h0 (by simp; omega)
  · rw [hb N h0 h1]; simp
  · intro j hj1 hj2
    rw [hb j hj1 (by omega), if_pos hj2]; decide

/-- With every data bit set, no data bit is free. -/
theorem find_free_bit_full (s : FS)
    (hb : ∀ b : Int, 0 ≤ b → b < 1024 → s.data_block_bitmap b = 1) :
    find_free_bit s "data" = -1 := by
  simp only [find_free_bit, show ("data" : String) ≠ "inode" by decide, if_false, if_true]
  rw [scan_eq_neg_one_iff _ _ _ (by decide)]
  intro j h1 h2
  rw [hb j h1 (by simpa using h2)]; decide

theorem set_bit_data_bitmap (s : FS) (N : Int) :
    (set_bit_1 s "data" N).data_block_bitmap = Function.update s.data_block_bitmap N 1 := by
  simp only [set_bit_1, show ("data" : String) ≠ "inode" by decide, if_false, if_true]

theorem nblocks_facts (L : Int) (h : 0 ≤ L) :
    (L % 1024 = 0 → nblocks L = L / 1024) ∧ (L % 1024 ≠ 0 → nblocks L = L / 1024 + 1) := by
  unfold nblocks; constructor <;> intro _ <;> omega

theorem write_to_block_blocks (d : DISK) (bp : Int) (buffer : List Nat) (length offset : Int)
    (h1 : 0 ≤ bp) (h2 : bp < 1024) :
    (write_to_block d bp buffer length offset).2.blocks =
      Function.update d.blocks bp
        (memcpy_to (if offset ≠ 0 then d.blocks bp else fun _ => 0) offset buffer
          (min (BLOCK_SIZE - offset) length)) := by
  unfold write_to_block
  by_cases h : offset = 0
  · subst h
    simp only [ne_eq, not_true_eq_false, if_false, write_block, if_pos (And.intro h1 h2), sub_zero]
  · simp only [ne_eq, h, not_false_eq_true, if_true, write_block, read_block, if_pos (And.intro h1 h2)]

theorem flush_transfer_inode_table (s1 : FS) (fileID inode : Int) (l1 : WLocals) (bp off : Int) :
    (fwrite_flush (fwrite_transfer s1 inode l1 bp off).1 fileID
        (fwrite_transfer s1 inode l1 bp off).2).inode_table =
      Function.update s1.inode_table inode
        { s1.inode_table inode with
          size := max (wrap32 (l1.write_ptr_loc + min (BLOCK_SIZE - off) l1.remaining))
                    (s1.inode_table inode).size } := by
  simp only [fwrite_flush, fwrite_transfer, set_size, write_to_block_fst]
  split_ifs <;> rfl

theorem flush_transfer_bitmap (s1 : FS) (fileID inode : Int) (l1 : WLocals) (bp off : Int) :
    (fwrite_flush (fwrite_transfer s1 inode l1 bp off).1 fileID
        (fwrite_transfer s1 inode l1 bp off).2).data_block_bitmap = s1.data_block_bitmap := by
  simp only [fwrite_flush, fwrite_transfer, set_size]
  split_ifs <;> rfl

theorem flush_transfer_blocks (s1 : FS) (fileID inode : Int) (l1 : WLocals) (bp off : Int) :
    (fwrite_flush (fwrite_transfer s1 inode l1 bp off).1 fileID
        (fwrite_transfer s1 inode l1 bp off).2).disk.blocks =
      if l1.indirect_pointer ≠ 0 ∧ 0 ≤ l1.indirect_pointer ∧ l1.indirect_pointer < 1024 then
        Function.update (write_to_block s1.disk bp l1.buffer l1.remaining off).2.blocks
          l1.indirect_pointer (ints_to_block l1.indirect_buffer)
      else (write_to_block s1.disk bp l1.buffer l1.remaining off).2.blocks := by
  simp only [fwrite_flush, fwrite_transfer, set_size, write_block]
  by_cases h : l1.indirect_pointer ≠ 0
  · by_cases h2 : 0 ≤ l1.indirect_pointer ∧ l1.indirect_pointer < 1024
    · simp only [if_pos h, if_pos h2, if_pos (And.intro h h2)]
    · simp only [if_pos h, if_neg h2, if_neg (fun hh : _ ∧ _ => h2 hh.2)]
  · simp only [if_neg h, if_neg (fun hh : _ ∧ _ => h hh.1)]

theorem flush_transfer_locals (s1 : FS) (inode : Int) (l1 : WLocals) (bp off : Int) :
    (fwrite_transfer s1 inode l1 bp off).2.indirect_pointer = l1.indirect_pointer ∧
    (fwrite_transfer s1 inode l1 bp off).2.indirect_buffer = l1.indirect_buffer := by
  simp only [fwrite_transfer, and_self]



theorem blk_eq_iff (N0 p q : Int) (hp : 0 ≤ p) (hq : 0 ≤ q) :
    blk N0 p = blk N0 q ↔ p / 1024 = q / 1024 := by
  unfold blk; split_ifs <;> constructor <;> intro h <;> omega

theorem blk_ne_indirect (N0 p : Int) (hp : 0 ≤ p) : blk N0 p ≠ N0 + 12 := by
  unfold blk; split_ifs <;> omega

theorem used_le (nb : Int) : nb ≤ used nb ∧ used nb ≤ nb + 1 ∧ (12 < nb → used nb = nb + 1) ∧
    (nb ≤ 12 → used nb = nb) := by
  unfold used; split_ifs <;> omega

theorem chunk_le_block (L rem : Int) (hL : 0 ≤ L) : chunk L rem ≤ 1024 - L % 1024 := by
  rw [chunk, cmod_nonneg_eq hL, min_def]
  simp only [BLOCK_SIZE]
  split_ifs <;> omega

/-- The transfer and the flush of one iteration of an appending write, once
the bookkeeping has brought pointers, bitmap and indirect buffer to the shape
of the longer file. -/
theorem transfer_inv (s1 : FS) (fileID i N0 L : Int) (l1 : WLocals) (data : List Nat) (c : Int)
    (hlen : (data.length : Int) = L)
    (hc : c = chunk L l1.remaining)
    (hN0 : 0 < N0) (hroom : N0 + used (nblocks (L + c)) ≤ 1024)
    (hrem : 0 < l1.remaining) (hbuf : l1.remaining ≤ l1.buffer.length)
    (hwp : l1.write_ptr_loc = L)
    (hsize : (s1.inode_table i).size = L)
    (hdirect : ∀ j : Int, 0 ≤ j → j < 12 →
      (s1.inode_table i).pointers j = if j < nblocks (L + c) then N0 + j else 0)
    (hind : (s1.inode_table i).indirect_pointer = if 12 < nblocks (L + c) then N0 + 12 else 0)
    (hbi : BufInv l1 N0 (L + c))
    (hbitmap : ∀ b : Int, 0 ≤ b → b < 1024 →
      s1.data_block_bitmap b = if b < N0 + used (nblocks (L + c)) then 1 else 0)
    (hcontent : ∀ p : Int, 0 ≤ p → p < L →
      s1.disk.blocks (blk N0 p) (p % 1024).toNat = data.getD p.toNat 0) :
    FileInv (fwrite_flush
        (fwrite_transfer s1 i l1 (blk N0 L) (cmod L BLOCK_SIZE)).1 fileID
        (fwrite_transfer s1 i l1 (blk N0 L) (cmod L BLOCK_SIZE)).2)
      i N0 (L + c) (data ++ l1.buffer.take c.toNat) ∧
    BufInv (fwrite_transfer s1 i l1 (blk N0 L) (cmod L BLOCK_SIZE)).2 N0 (L + c) := by
  have hL0 : (0 : Int) ≤ L := by rw [← hlen]; exact Int.natCast_nonneg _
  have hoff : cmod L BLOCK_SIZE = L % 1024 := cmod_nonneg_eq hL0
  have hcb := chunk_bounds L l1.remaining hrem
  rw [← hc] at hcb
  have hc3 : c ≤ 1024 - L % 1024 := by rw [hc]; exact chunk_le_block L l1.remaining hL0
  have hmin : min (BLOCK_SIZE - L % 1024) l1.remaining = c := by
    rw [hc, chunk, hoff]
  have hlen' : ((data ++ l1.buffer.take c.toNat).length : Int) = L + c := by
    rw [List.length_append, List.length_take]
    have : Nat.min c.toNat l1.buffer.length = c.toNat := by
      apply Nat.min_eq_left; omega
    push_cast
    omega
  have hu := used_le (nblocks (L + c))
  have hnb : nblocks (L + c) = (L + c + 1023) / 1024 := rfl
  have hbp : 0 ≤ blk N0 L ∧ blk N0 L < 1024 := by
    unfold blk; split_ifs <;> constructor <;> omega
  obtain ⟨hip, hib⟩ := hbi
  refine ⟨⟨hlen', hN0, hroom, ?_, ?_, ?_, ?_, ?_, ?_⟩, ⟨?_, ?_⟩⟩
  · rw [flush_transfer_inode_table, Function.update_same, hoff, hmin, hwp, hsize,
      wrap32_of_range (by omega) (by omega), max_def]
    simp only; split_ifs <;> omega
  · intro j h1 h2
    rw [flush_transfer_inode_table, Function.update_same]
    exact hdirect j h1 h2
  · rw [flush_transfer_inode_table, Function.update_same]
    exact hind
  · intro h12 k hk1 hk2
    rw [flush_transfer_blocks, hip, if_pos h12, if_pos ⟨by omega, by omega, by omega⟩,
      Function.update_same]
    have hv := hib h12 k hk1 hk2
    have hk : ((k.toNat : Nat) : Int) = k := by omega
    rw [block_int_ints_to_block _ _ (by rw [hk, hv]; split_ifs <;> omega)
      (by rw [hk, hv]; split_ifs <;> omega), hk]
    exact hv
  · intro b h1 h2
    rw [flush_transfer_bitmap]
    exact hbitmap b h1 h2
  · intro p hp0 hp
    have hblocks : (fwrite_flush
        (fwrite_transfer s1 i l1 (blk N0 L) (cmod L BLOCK_SIZE)).1 fileID
        (fwrite_transfer s1 i l1 (blk N0 L) (cmod L BLOCK_SIZE)).2).disk.blocks
          (blk N0 p) =
        (write_to_block s1.disk (blk N0 L) l1.buffer l1.remaining
          (cmod L BLOCK_SIZE)).2.blocks (blk N0 p) := by
      rw [flush_transfer_blocks]
      split_ifs
      · rw [Function.update_noteq]
        rw [hip]; split_ifs
        · exact blk_ne_indirect N0 p hp0
        · have := hbp.1
          unfold blk; split_ifs <;> omega
      · rfl
    rw [hblocks, write_to_block_blocks _ _ _ _ _ hbp.1 hbp.2, hoff, hmin]
    have hpm : (((p % 1024).toNat : Nat) : Int) = p % 1024 := by omega
    by_cases hpL : p < L
    · rw [List.getD_append _ _ _ _ (by omega)]
      by_cases hsame : blk N0 p = blk N0 L
      · rw [hsame, Function.update_same]
        have hdiv := (blk_eq_iff N0 p L hp0 hL0).1 hsame
        have hoffne : L % 1024 ≠ 0 := by omega
        simp only [memcpy_to, ne_eq, hoffne, not_false_eq_true, if_true]
        rw [if_neg (by rw [hpm]; omega), ← hsame]
        exact hcontent p hp0 hpL
      · rw [Function.update_noteq hsame]
        exact hcontent p hp0 hpL
    · have hsame : blk N0 p = blk N0 L :=
        (blk_eq_iff N0 p L hp0 hL0).2 (by omega)
      rw [hsame, Function.update_same]
      simp only [memcpy_to]
      rw [if_pos (by rw [hpm]; omega)]
      rw [List.getD_append_right _ _ _ _ (by omega)]
      have hidx : (((p % 1024).toNat : Int) - L % 1024).toNat = p.toNat - data.length := by
        rw [hpm]; omega
      rw [hidx]
      simp only [List.getD_eq_getElem?_getD]
      rw [List.getElem?_take_of_lt (by omega)]
  · rw [(flush_transfer_locals _ _ _ _ _).1]; exact hip
  · rw [(flush_transfer_locals _ _ _ _ _).2]; exact hib

theorem set_pointer_fields (s : FS) (inode idx v : Int) :
    (set_pointer s inode idx v).data_block_bitmap = s.data_block_bitmap ∧
    (set_pointer s inode idx v).disk = s.disk ∧
    ((set_pointer s inode idx v).inode_table inode).size = (s.inode_table inode).size ∧
    ((set_pointer s inode idx v).inode_table inode).indirect_pointer =
      (s.inode_table inode).indirect_pointer ∧
    ((set_pointer s inode idx v).inode_table inode).pointers =
      Function.update (s.inode_table inode).pointers idx v := by
  simp only [set_pointer, Function.update_same, and_self]

theorem set_indirect_fields (s : FS) (inode v : Int) :
    (set_indirect s inode v).data_block_bitmap = s.data_block_bitmap ∧
    (set_indirect s inode v).disk = s.disk ∧
    ((set_indirect s inode v).inode_table inode).size = (s.inode_table inode).size ∧
    ((set_indirect s inode v).inode_table inode).indirect_pointer = v ∧
    ((set_indirect s inode v).inode_table inode).pointers = (s.inode_table inode).pointers := by
  simp only [set_indirect, Function.update_same, and_self]

theorem set_bit_data_fields (s : FS) (N : Int) :
    (set_bit_1 s "data" N).inode_table = s.inode_table ∧ (set_bit_1 s "data" N).disk = s.disk := by
  simp only [set_bit_1, show ("data" : String) ≠ "inode" by decide, if_false, if_true, and_self]

/-- Block counts around one transfer of `c` bytes at the end of a file of `L`
bytes, in terms of `L / 1024`. -/
theorem append_arith (L c : Int) (hL : 0 ≤ L) (hc1 : 1 ≤ c) (hc3 : c ≤ 1024 - L % 1024) :
    (L % 1024 = 0 → nblocks L = L / 1024 ∧ nblocks (L + c) = L / 1024 + 1) ∧
    (L % 1024 ≠ 0 → nblocks L = L / 1024 + 1 ∧ nblocks (L + c) = L / 1024 + 1) ∧
    (L < 12288 → L / 1024 ≤ 11) ∧ (12288 ≤ L → 12 ≤ L / 1024) ∧ 0 ≤ L / 1024 ∧
    (L < 274432 → L / 1024 ≤ 267) ∧ (L / 1024 ≤ 12 → L % 1024 = 0 → L ≤ 12288) := by
  unfold nblocks
  refine ⟨fun h => ⟨by omega, by omega⟩, fun h => ⟨by omega, by omega⟩, fun h => by omega,
    fun h => by omega, by omega, fun h => by omega, fun h1 h2 => by omega⟩

theorem used_small (nb : Int) (h : nb ≤ 12) : used nb = nb := (used_le nb).2.2.2 h

theorem used_big (nb : Int) (h : 12 < nb) : used nb = nb + 1 := (used_le nb).2.2.1 h

/-- One iteration of the write loop at the end of a file built by appending:
direct region. -/
theorem fwrite_step_append_direct (s : FS) (fileID i N0 L : Int) (descriptor : OPEN_FILE_DESCRIPTOR)
    (l : WLocals) (data : List Nat)
    (hdesc : descriptor.inode_pointer = i) (hinv : FileInv s i N0 L data)
    (hbi : BufInv l N0 L) (hwp : l.write_ptr_loc = L)
    (hrem : 0 < l.remaining) (hbuf : l.remaining ≤ l.buffer.length)
    (hroom : N0 + used (nblocks (L + chunk L l.remaining)) ≤ 1024)
    (hlt : L < 12288) :
    ∃ s' l', fwrite_step s fileID descriptor l = .ok (s', l') ∧
      FileInv s' i N0 (L + chunk L l.remaining) (data ++ l.buffer.take (chunk L l.remaining).toNat) ∧
      BufInv l' N0 (L + chunk L l.remaining) := by
  have hlt' : L < 12 * BLOCK_SIZE := hlt
  have hL0 : (0 : Int) ≤ L := by rw [← hinv.len_eq]; exact Int.natCast_nonneg _
  have hcb := chunk_bounds L l.remaining hrem
  have hc3 := chunk_le_block L l.remaining hL0
  generalize hcdef : chunk L l.remaining = c at *
  obtain ⟨a1, a2, a3, -, a5, -, -⟩ := append_arith L c hL0 hcb.1 hc3
  have hq := a3 hlt
  have hblk : blk N0 L = N0 + L / 1024 := by
    unfold blk; rw [if_pos hlt]
  have hN0 := hinv.first_pos
  have hdirect := hinv.direct
  have hindirect := hinv.indirect
  have hbitmap := hinv.bitmap
  have hbp := hbi.pointer_eq
  clear hc3 hlt
  unfold fwrite_step
  dsimp only
  rw [hwp, hdesc, if_pos hlt', cdiv_nonneg_eq hL0]
  clear hlt'
  by_cases h0 : L % 1024 = 0
  · -- a new block is taken from the bitmap
    obtain ⟨e1, e2⟩ := a1 h0
    clear a1 a2 a3 h0
    rw [e1] at hdirect hindirect hbitmap hbp
    rw [e2] at hroom
    rw [used_small _ (by omega)] at hroom hbitmap
    have hptr : (s.inode_table i).pointers (L / 1024) = 0 := by
      rw [hdirect _ a5 (by omega), if_neg (by omega)]
    have hff : find_free_bit s "data" = blk N0 L := by
      rw [hblk]
      exact find_free_bit_prefix s _ (by omega) (by omega) hbitmap
    rw [hptr, if_pos rfl, hff, if_neg (by rw [hblk]; omega)]
    refine ⟨_, _, rfl, ?_⟩
    have hsp := set_pointer_fields (set_bit_1 s "data" (blk N0 L)) i (L / 1024) (blk N0 L)
    have hsb := set_bit_data_fields s (blk N0 L)
    apply transfer_inv _ fileID i N0 L l data c hinv.len_eq hcdef.symm hN0
      (by rw [e2, used_small _ (by omega)]; exact hroom) hrem hbuf hwp
    · rw [hsp.2.2.1, hsb.1]; exact hinv.size_eq
    · intro j hj1 hj2
      rw [hsp.2.2.2.2, hsb.1, e2]
      by_cases hj : j = L / 1024
      · rw [hj, Function.update_same, if_pos (by omega), hblk]
      · rw [Function.update_noteq hj, hdirect j hj1 hj2]
        by_cases hjn : j < L / 1024
        · rw [if_pos hjn, if_pos (by omega)]
        · rw [if_neg hjn, if_neg (by omega)]
    · rw [hsp.2.2.2.1, hsb.1, hindirect, e2, if_neg (by omega), if_neg (by omega)]
    · exact ⟨by rw [hbp, e2, if_neg (by omega), if_neg (by omega)], fun h => by rw [e2] at h; omega⟩
    · intro b hb1 hb2
      rw [hsp.1, set_bit_data_bitmap, e2, used_small _ (by omega)]
      by_cases hb : b = blk N0 L
      · rw [hb, Function.update_same, if_pos (by rw [hblk]; omega)]
      · rw [Function.update_noteq hb, hbitmap b hb1 hb2]
        rw [hblk] at hb
        by_cases hbn : b < N0 + L / 1024
        · rw [if_pos hbn, if_pos (by omega)]
        · rw [if_neg hbn, if_neg (by omega)]
    · rw [hsp.2.1, hsb.2]; exact hinv.content
  · -- the last block of the file is completed
    obtain ⟨e1, e2⟩ := a2 h0
    have heq : nblocks (L + c) = nblocks L := by rw [e1, e2]
    have hptr : (s.inode_table i).pointers (L / 1024) = blk N0 L := by
      rw [hdirect _ a5 (by omega), e1, if_pos (by omega), hblk]
    rw [hptr, if_neg (by rw [hblk]; omega)]
    refine ⟨_, _, rfl, ?_⟩
    apply transfer_inv s fileID i N0 L l data c hinv.len_eq hcdef.symm hN0 hroom hrem hbuf hwp
      hinv.size_eq
    · rw [heq]; exact hinv.direct
    · rw [heq]; exact hinv.indirect
    · exact ⟨by rw [heq]; exact hbi.pointer_eq, by rw [heq]; exact hbi.buffer_eq⟩
    · rw [heq]; exact hinv.bitmap
    · exact hinv.content

/-- One iteration of the write loop at the end of a file built by appending:
indirect region. -/
theorem fwrite_step_append_indirect (s : FS) (fileID i N0 L : Int) (descriptor : OPEN_FILE_DESCRIPTOR)
    (l : WLocals) (data : List Nat)
    (hdesc : descriptor.inode_pointer = i) (hinv : FileInv s i N0 L data)
    (hbi : BufInv l N0 L) (hwp : l.write_ptr_loc = L)
    (hrem : 0 < l.remaining) (hbuf : l.remaining ≤ l.buffer.length)
    (hmax : L + l.remaining ≤ 274432)
    (hroom : N0 + used (nblocks (L + chunk L l.remaining)) ≤ 1024)
    (hge : 12288 ≤ L) :
    ∃ s' l', fwrite_step s fileID descriptor l = .ok (s', l') ∧
      FileInv s' i N0 (L + chunk L l.remaining) (data ++ l.buffer.take (chunk L l.remaining).toNat) ∧
      BufInv l' N0 (L + chunk L l.remaining) := by
  have hge' : ¬ L < 12 * BLOCK_SIZE := not_lt.2 hge
  have hL0 : (0 : Int) ≤ L := by rw [← hinv.len_eq]; exact Int.natCast_nonneg _
  have hcb := chunk_bounds L l.remaining hrem
  have hc3 := chunk_le_block L l.remaining hL0
  generalize hcdef : chunk L l.remaining = c at *
  obtain ⟨a1, a2, -, a4, a5, a6, a7⟩ := append_arith L c hL0 hcb.1 hc3
  have hq := a4 hge
  have hq2 := a6 (by omega)
  have hblk : blk N0 L = N0 + 1 + L / 1024 := by
    unfold blk; rw [if_neg (not_lt.2 hge)]
  have hN0 := hinv.first_pos
  have hdirect := hinv.direct
  have hindirect := hinv.indirect
  have hbitmap := hinv.bitmap
  have hbp := hbi.pointer_eq
  have hbb := hbi.buffer_eq
  clear hc3 hmax a4 a6
  unfold fwrite_step
  dsimp only
  rw [hwp, hdesc, if_neg hge', cdiv_nonneg_eq hL0]
  clear hge'
  by_cases hnb : 12 < nblocks L
  · -- the file already has its indirect block
    have hipne : ¬ l.indirect_pointer = 0 := by rw [hbp, if_pos hnb]; omega
    have hidx : ¬ (L / 1024 - 12 > ((INDIRECT_ENTRIES : Nat) : Int)) := by
      show ¬ (L / 1024 - 12 > ((256 : Nat) : Int))
      omega
    rw [if_neg hipne, if_neg hidx]
    have hentry := hbb hnb (L / 1024 - 12) (by omega) (by omega)
    by_cases h0 : L % 1024 = 0
    · -- a new data block is taken and listed in the indirect block
      obtain ⟨e1, e2⟩ := a1 h0
      clear a1 a2 a7 h0 hidx
      rw [e1] at hdirect hindirect hbitmap hbp hbb hentry hnb
      rw [e2] at hroom
      rw [used_big _ (by omega)] at hroom hbitmap
      have hptr : l.indirect_buffer (L / 1024 - 12) = 0 := by
        rw [hentry, if_neg (by omega)]
      have hff : find_free_bit s "data" = blk N0 L := by
        rw [hblk]
        exact find_free_bit_prefix s _ (by omega) (by omega)
          (fun b h1 h2 => by rw [hbitmap b h1 h2]; congr 1; apply propext; constructor <;> intro h <;> omega)
      have hscan : scan (fun i => l.indirect_buffer i == 0) INDIRECT_ENTRIES 0 = L / 1024 - 12 := by
        apply scan_eq_of_first _ _ _ _ (by omega)
          (by show L / 1024 - 12 < 0 + ((256 : Nat) : Int); omega)
        · simp only [hptr, beq_self_eq_true]
        · intro j hj1 hj2
          rw [hbb hnb j hj1 (by omega), if_pos (by omega)]
          simp only [beq_eq_false_iff_ne, ne_eq]
          omega
      rw [hptr, if_pos rfl, hff, if_neg (by rw [hblk]; omega), hscan, if_pos (by omega)]
      dsimp only
      refine ⟨_, _, rfl, ?_⟩
      have hsb := set_bit_data_fields s (blk N0 L)
      apply transfer_inv (set_bit_1 s "data" (blk N0 L)) fileID i N0 L
        { remaining := l.remaining, bytes_wrote := l.bytes_wrote, write_ptr_loc := L,
          buffer := l.buffer, indirect_pointer := l.indirect_pointer,
          indirect_buffer := Function.update l.indirect_buffer (L / 1024 - 12) (blk N0 L) }
        data c hinv.len_eq hcdef.symm hN0
        (by rw [e2, used_big _ (by omega)]; exact hroom) hrem hbuf rfl
      · rw [hsb.1]; exact hinv.size_eq
      · intro j hj1 hj2
        rw [hsb.1, e2, hdirect j hj1 hj2, if_pos (by omega), if_pos (by omega)]
      · rw [hsb.1, hindirect, e2, if_pos (by omega), if_pos (by omega)]
      · refine ⟨by show l.indirect_pointer = _; rw [hbp, e2, if_pos (by omega), if_pos (by omega)], ?_⟩
        intro _ k hk1 hk2
        show Function.update l.indirect_buffer (L / 1024 - 12) (blk N0 L) k = _
        rw [e2]
        by_cases hk : k = L / 1024 - 12
        · rw [hk, Function.update_same, if_pos (by omega), hblk]; omega
        · rw [Function.update_noteq hk, hbb hnb k hk1 hk2]
          by_cases hkn : k < L / 1024 - 12
          · rw [if_pos hkn, if_pos (by omega)]
          · rw [if_neg hkn, if_neg (by omega)]
      · intro b hb1 hb2
        rw [set_bit_data_bitmap, e2, used_big _ (by omega)]
        by_cases hb : b = blk N0 L
        · rw [hb, Function.update_same, if_pos (by rw [hblk]; omega)]
        · rw [Function.update_noteq hb, hbitmap b hb1 hb2]
          rw [hblk] at hb
          by_cases hbn : b < N0 + (L / 1024 + 1)
          · rw [if_pos hbn, if_pos (by omega)]
          · rw [if_neg hbn, if_neg (by omega)]
      · rw [hsb.2]; exact hinv.content
    · -- the last block of the file is completed
      obtain ⟨e1, e2⟩ := a2 h0
      have heq : nblocks (L + c) = nblocks L := by rw [e1, e2]
      have hptr : l.indirect_buffer (L / 1024 - 12) = blk N0 L := by
        rw [hentry, e1, if_pos (by omega), hblk]; omega
      rw [hptr, if_neg (by rw [hblk]; omega)]
      refine ⟨_, _, rfl, ?_⟩
      apply transfer_inv s fileID i N0 L l data c hinv.len_eq hcdef.symm hN0 hroom hrem hbuf hwp
        hinv.size_eq
      · rw [heq]; exact hinv.direct
      · rw [heq]; exact hinv.indirect
      · exact ⟨by rw [heq]; exact hbi.pointer_eq, by rw [heq]; exact hbi.buffer_eq⟩
      · rw [heq]; exact hinv.bitmap
      · exact hinv.content
  · -- the indirect block is allocated together with its first data block
    have hL : L = 12288 := by
      have h1 : L / 1024 ≤ 12 := by
        rcases Classical.em (L % 1024 = 0) with h | h
        · rw [(a1 h).1] at hnb; omega
        · rw [(a2 h).1] at hnb; omega
      have h2 : L % 1024 = 0 := by
        rcases Classical.em (L % 1024 = 0) with h | h
        · exact h
        · rw [(a2 h).1] at hnb; omega
      have := a7 h1 h2
      omega
    subst hL
    have e1 : nblocks 12288 = 12 := by decide
    have e2 : nblocks (12288 + c) = 13 := by
      have := (a1 (by decide)).2
      rw [this]; decide
    clear a1 a2 a7 hq hq2 a5 hnb hge hL0
    rw [e1] at hdirect hindirect hbitmap hbp
    rw [e2] at hroom
    rw [used_small _ (by decide)] at hbitmap
    rw [used_big _ (by decide)] at hroom
    have hblk' : blk N0 12288 = N0 + 13 := by rw [hblk]; norm_num; omega
    have hip0 : l.indirect_pointer = 0 := by rw [hbp, if_neg (by decide)]
    have hff1 : find_free_bit s "data" = N0 + 12 :=
      find_free_bit_prefix s _ (by omega) (by omega) hbitmap
    have hff2 : find_free_bit (set_indirect (set_bit_1 s "data" (N0 + 12)) i (N0 + 12)) "data" =
        blk N0 12288 := by
      rw [hblk']
      apply find_free_bit_prefix _ _ (by omega) (by omega)
      intro b hb1 hb2
      rw [(set_indirect_fields _ _ _).1, set_bit_data_bitmap]
      by_cases hb : b = N0 + 12
      · rw [hb, Function.update_same, if_pos (by omega)]
      · rw [Function.update_noteq hb, hbitmap b hb1 hb2]
        by_cases hbn : b < N0 + 12
        · rw [if_pos hbn, if_pos (by omega)]
        · rw [if_neg hbn, if_neg (by omega)]
    rw [if_pos hip0, hff1, if_neg (by omega), hff2, if_neg (by rw [hblk']; omega)]
    refine ⟨_, _, rfl, ?_⟩
    have hsi := set_indirect_fields (set_bit_1 s "data" (N0 + 12)) i (N0 + 12)
    have hsb1 := set_bit_data_fields s (N0 + 12)
    have hsb2 := set_bit_data_fields (set_indirect (set_bit_1 s "data" (N0 + 12)) i (N0 + 12))
      (blk N0 12288)
    apply transfer_inv
      (set_bit_1 (set_indirect (set_bit_1 s "data" (N0 + 12)) i (N0 + 12)) "data" (blk N0 12288))
      fileID i N0 12288
      { remaining := l.remaining, bytes_wrote := l.bytes_wrote, write_ptr_loc := 12288,
        buffer := l.buffer, indirect_pointer := N0 + 12,
        indirect_buffer := Function.update (fun i => if 0 ≤ i ∧ i < ((INDIRECT_ENTRIES : Nat) : Int) then 0
          else l.indirect_buffer i) 0 (blk N0 12288) }
      data c hinv.len_eq hcdef.symm hN0
      (by rw [e2, used_big _ (by decide)]; exact hroom) hrem hbuf rfl
    · rw [hsb2.1, hsi.2.2.1, hsb1.1]; exact hinv.size_eq
    · intro j hj1 hj2
      rw [hsb2.1, hsi.2.2.2.2, hsb1.1, e2, hdirect j hj1 hj2, if_pos hj2, if_pos (by omega)]
    · rw [hsb2.1, hsi.2.2.2.1, e2, if_pos (by decide)]
    · refine ⟨by show N0 + 12 = _; rw [e2, if_pos (by decide)], ?_⟩
      intro _ k hk1 hk2
      show Function.update (fun i => if 0 ≤ i ∧ i < ((INDIRECT_ENTRIES : Nat) : Int) then 0
        else l.indirect_buffer i) 0 (blk N0 12288) k = _
      rw [e2]
      by_cases hk : k = 0
      · rw [hk, Function.update_same, if_pos (by decide), hblk']; omega
      · rw [Function.update_noteq hk]
        show (if 0 ≤ k ∧ k < ((256 : Nat) : Int) then (0 : Int) else l.indirect_buffer k) = _
        rw [if_pos ⟨hk1, by omega⟩, if_neg (by omega)]
    · intro b hb1 hb2
      rw [set_bit_data_bitmap, (set_indirect_fields _ _ _).1, set_bit_data_bitmap, e2,
        used_big _ (by decide)]
      by_cases hb : b = blk N0 12288
      · rw [hb, Function.update_same, if_pos (by rw [hblk']; omega)]
      · rw [Function.update_noteq hb]
        rw [hblk'] at hb
        by_cases hb' : b = N0 + 12
        · rw [hb', Function.update_same, if_pos (by omega)]
        · rw [Function.update_noteq hb', hbitmap b hb1 hb2]
          by_cases hbn : b < N0 + 12
          · rw [if_pos hbn, if_pos (by omega)]
          · rw [if_neg hbn, if_neg (by omega)]
    · rw [hsb2.2, hsi.2.1, hsb1.2]; exact hinv.content

theorem used_nblocks_mono (a b : Int) (h : a ≤ b) :
    used (nblocks a) ≤ used (nblocks b) := by
  have h1 : nblocks a ≤ nblocks b := by unfold nblocks; omega
  unfold used; split_ifs <;> omega

/-- One iteration of the write loop at the end of a file built by appending. -/
theorem fwrite_step_append (s : FS) (fileID i N0 L : Int) (descriptor : OPEN_FILE_DESCRIPTOR)
    (l : WLocals) (data : List Nat)
    (hdesc : descriptor.inode_pointer = i) (hinv : FileInv s i N0 L data)
    (hbi : BufInv l N0 L) (hwp : l.write_ptr_loc = L)
    (hrem : 0 < l.remaining) (hbuf : l.remaining ≤ l.buffer.length)
    (hmax : L + l.remaining ≤ 274432)
    (hroom : N0 + used (nblocks (L + chunk L l.remaining)) ≤ 1024) :
    ∃ s' l', fwrite_step s fileID descriptor l = .ok (s', l') ∧
      FileInv s' i N0 (L + chunk L l.remaining) (data ++ l.buffer.take (chunk L l.remaining).toNat) ∧
      BufInv l' N0 (L + chunk L l.remaining) := by
  by_cases hlt : L < 12288
  · exact fwrite_step_append_direct s fileID i N0 L descriptor l data hdesc hinv hbi hwp hrem hbuf
      hroom hlt
  · exact fwrite_step_append_indirect s fileID i N0 L descriptor l data hdesc hinv hbi hwp hrem hbuf
      hmax hroom (not_lt.1 hlt)

theorem take_append_take_drop (buf : List Nat) (c r : Nat) (h : c ≤ r) :
    buf.take c ++ (buf.drop c).take (r - c) = buf.take r := by
  have : r = c + (r - c) := by omega
  conv_rhs => rw [this, List.take_add]

/-- The write loop at the end of a file built by appending: everything that
remains is written, the file keeps its layout and holds the old contents
followed by the bytes written, and the handle holds the new cursor. -/
theorem fwrite_loop_append (fileID i N0 : Int) (descriptor : OPEN_FILE_DESCRIPTOR)
    (hdesc : descriptor.inode_pointer = i) (fuel : Nat) :
    ∀ (s : FS) (l : WLocals) (L : Int) (data : List Nat),
      FileInv s i N0 L data → BufInv l N0 L → l.write_ptr_loc = L →
      0 ≤ l.remaining → l.remaining ≤ l.buffer.length → l.remaining.toNat ≤ fuel →
      L + l.remaining ≤ 274432 → N0 + used (nblocks (L + l.remaining)) ≤ 1024 →
      (s.open_file_descriptor_table fileID).write_pointer = L →
      (fwrite_loop fileID descriptor fuel s l).1 = l.bytes_wrote + l.remaining ∧
      FileInv (fwrite_loop fileID descriptor fuel s l).2 i N0 (L + l.remaining)
        (data ++ l.buffer.take l.remaining.toNat) ∧
      ((fwrite_loop fileID descriptor fuel s l).2.open_file_descriptor_table fileID) =
        { s.open_file_descriptor_table fileID with write_pointer := L + l.remaining } := by
  induction fuel with
  | zero =>
    intro s l L data hinv _ _ h0 _ hf _ _ hw
    have hr : l.remaining = 0 := by omega
    rw [fwrite_loop_done _ _ _ _ _ (by omega), hr]
    refine ⟨by simp, by simpa using hinv, ?_⟩
    simp only [add_zero, ← hw]
  | succ n ih =>
    intro s l L data hinv hbi hwp h0 hbuf hf hmax hroom hw
    have hL0 : (0 : Int) ≤ L := by rw [← hinv.len_eq]; exact Int.natCast_nonneg _
    by_cases hr : l.remaining > 0
    · have hcb := chunk_bounds L l.remaining hr
      obtain ⟨s', l', hstep, hF, hB⟩ := fwrite_step_append s fileID i N0 L descriptor l data hdesc
        hinv hbi hwp hr hbuf hmax
        (le_trans (by
          have := used_nblocks_mono (L + chunk L l.remaining) (L + l.remaining) (by omega)
          omega) hroom)
      obtain ⟨g1, g2, g3, g4, -, -, -, g8, -⟩ := fwrite_step_ok s fileID descriptor l s' l' hstep
      rw [hwp] at g1 g2 g3 g4 g8
      rw [wrap32_of_range (by omega) (by omega)] at g3 g8
      have hlen : (chunk L l.remaining).toNat ≤ l.buffer.length := by omega
      obtain ⟨i1, i2, i3⟩ := ih s' l' (L + chunk L l.remaining) _ hF hB g3 (by omega)
        (by rw [g1, g4, List.length_drop]; omega) (by omega) (by rw [g1]; omega)
        (by rw [g1]
            rw [show L + chunk L l.remaining + (l.remaining - chunk L l.remaining) = L + l.remaining
              by omega]
            exact hroom)
        (by rw [g8, Function.update_same])
      rw [fwrite_loop_ok _ _ _ _ _ _ _ hr hstep, i1, i3]
      refine ⟨by rw [g1, g2]; omega, ?_, ?_⟩
      · have hd : data ++ List.take (chunk L l.remaining).toNat l.buffer ++
            List.take l'.remaining.toNat l'.buffer = data ++ List.take l.remaining.toNat l.buffer := by
          rw [List.append_assoc, g4, g1,
            show (l.remaining - chunk L l.remaining).toNat =
              l.remaining.toNat - (chunk L l.remaining).toNat by omega,
            take_append_take_drop _ _ _ (by omega)]
        rw [← hd, show L + l.remaining = L + chunk L l.remaining + l'.remaining by rw [g1]; omega]
        exact i2
      · rw [g8, Function.update_same, g1]
        simp only
        rw [show L + chunk L l.remaining + (l.remaining - chunk L l.remaining) = L + l.remaining
              by omega]
    · have hr0 : l.remaining = 0 := by omega
      rw [fwrite_loop_done _ _ _ _ _ hr, hr0]
      refine ⟨by simp, by simpa using hinv, ?_⟩
      simp only [add_zero, ← hw]

/-- The local indirect buffer `sfs_fwrite` and `sfs_fread` start from agrees
with the indirect block of the file. -/
theorem initial_buffer (s : FS) (stack : Int → Int) (i N0 L : Int) (data : List Nat)
    (hinv : FileInv s i N0 L data) (h12 : 12 < nblocks L) (k : Int) (hk1 : 0 ≤ k) (hk2 : k < 256) :
    (if (s.inode_table i).indirect_pointer ≠ 0 then
        read_indirect s.disk (s.inode_table i).indirect_pointer stack else stack) k =
      if k < nblocks L - 12 then N0 + 13 + k else 0 := by
  have hroom := hinv.room
  have hN0 := hinv.first_pos
  rw [used_big _ h12] at hroom
  rw [hinv.indirect, if_pos h12, if_pos (by omega)]
  unfold read_indirect
  rw [if_pos ⟨by omega, by omega⟩]
  show (if 0 ≤ k ∧ k < ((256 : Nat) : Int) then block_int (s.disk.blocks (N0 + 12)) k.toNat
    else stack k) = _
  rw [if_pos ⟨hk1, by omega⟩]
  exact hinv.entries h12 k hk1 hk2

/-- Appending a whole buffer with `sfs_fwrite` to a file built by appending. -/
theorem sfs_fwrite_append (s : FS) (stack : Int → Int) (h i N0 L : Int) (data buf : List Nat)
    (hinv : FileInv s i N0 L data) (hi : i ≠ 0)
    (hh : (s.open_file_descriptor_table h).inode_pointer = i)
    (hw : (s.open_file_descriptor_table h).write_pointer = L)
    (hmax : L + buf.length ≤ 274432)
    (hroom : N0 + used (nblocks (L + buf.length)) ≤ 1024) :
    (sfs_fwrite s stack h buf buf.length).1 = buf.length ∧
    FileInv (sfs_fwrite s stack h buf buf.length).2 i N0 (L + buf.length) (data ++ buf) ∧
    (sfs_fwrite s stack h buf buf.length).2.open_file_descriptor_table h =
      { s.open_file_descriptor_table h with write_pointer := L + buf.length } := by
  unfold sfs_fwrite
  simp only [if_neg (show ¬ (s.open_file_descriptor_table h).inode_pointer = 0 by rw [hh]; exact hi)]
  have hbi : BufInv
      { remaining := (buf.length : Int), bytes_wrote := 0,
        write_ptr_loc := (s.open_file_descriptor_table h).write_pointer, buffer := buf,
        indirect_pointer := (s.inode_table (s.open_file_descriptor_table h).inode_pointer).indirect_pointer,
        indirect_buffer :=
          if (s.inode_table (s.open_file_descriptor_table h).inode_pointer).indirect_pointer ≠ 0 then
            read_indirect s.disk
              (s.inode_table (s.open_file_descriptor_table h).inode_pointer).indirect_pointer stack
          else stack } N0 L := by
    refine ⟨?_, ?_⟩
    · show (s.inode_table (s.open_file_descriptor_table h).inode_pointer).indirect_pointer = _
      rw [hh]; exact hinv.indirect
    · intro h12 k hk1 hk2
      show (if (s.inode_table (s.open_file_descriptor_table h).inode_pointer).indirect_pointer ≠ 0 then
        read_indirect s.disk
          (s.inode_table (s.open_file_descriptor_table h).inode_pointer).indirect_pointer stack
        else stack) k = _
      rw [hh]
      exact initial_buffer s stack i N0 L data hinv h12 k hk1 hk2
  obtain ⟨h1, h2, h3⟩ := fwrite_loop_append h i N0 (s.open_file_descriptor_table h) hh
    ((buf.length : Int)).toNat s _ L data hinv hbi hw (Int.natCast_nonneg _) (le_refl _)
    (le_refl _) hmax hroom hw
  refine ⟨by simpa using h1, ?_, h3⟩
  have ht : List.take ((buf.length : Int)).toNat buf = buf := by
    rw [Int.toNat_ofNat, List.take_length]
  simpa only [ht] using h2

theorem write_frame_refl (s : FS) (fileID inode : Int) : WriteFrame s s fileID inode :=
  ⟨rfl, rfl, rfl, fun _ _ => rfl, rfl, fun _ _ => rfl, rfl, rfl, rfl, rfl⟩

theorem write_frame_trans {s s1 s2 : FS} {fileID inode : Int}
    (h1 : WriteFrame s s1 fileID inode) (h2 : WriteFrame s1 s2 fileID inode) :
    WriteFrame s s2 fileID inode := by
  obtain ⟨a1, a2, a3, a4, a5, a6, a7, a8, a9, a10⟩ := h1
  obtain ⟨b1, b2, b3, b4, b5, b6, b7, b8, b9, b10⟩ := h2
  exact ⟨b1.trans a1, b2.trans a2, b3.trans a3, fun j hj => (b4 j hj).trans (a4 j hj), b5.trans a5,
    fun k hk => (b6 k hk).trans (a6 k hk), b7.trans a7, b8.trans a8, b9.trans a9, b10.trans a10⟩

theorem write_frame_of_prep {s s1 : FS} (fileID : Int) {inode : Int} (h : Prep s s1 inode) :
    WriteFrame s s1 fileID inode := by
  obtain ⟨p1, p2, p3, p4, p5, p6, -, p8⟩ := h
  exact ⟨p1, p3, p4, p6, p8, fun k _ => by rw [p2], by rw [p2], by rw [p2], by rw [p5], by rw [p5]⟩

theorem write_frame_of_step {s s' : FS} {fileID : Int} {descriptor : OPEN_FILE_DESCRIPTOR}
    {l l' : WLocals} (h : StepFacts s fileID descriptor l s' l') :
    WriteFrame s s' fileID descriptor.inode_pointer := by
  obtain ⟨-, -, -, -, -, g6, g7, g8, g9, g10, g11, -, g13, g14⟩ := h
  refine ⟨g9, g10, g11, g7, g6, fun k hk => ?_, ?_, ?_, g13, g14⟩
  · rw [g8, Function.update_noteq hk]
  · rw [g8, Function.update_same]
  · rw [g8, Function.update_same]

/-- An early return of one iteration of the write loop happens on a state
reached by bookkeeping only. -/
theorem fwrite_step_error (s : FS) (fileID : Int) (descriptor : OPEN_FILE_DESCRIPTOR) (l : WLocals) :
    ∀ s1 : FS, fwrite_step s fileID descriptor l = .error s1 → Prep s s1 descriptor.inode_pointer := by
  apply fwrite_step_cases s fileID descriptor l
    (fun r => ∀ s1 : FS, r = .error s1 → Prep s s1 descriptor.inode_pointer)
  · intro s1 hp s2 h
    injection h with h
    rw [← h]; exact hp
  · intro s1 l1 bp _ _ _ _ _ s2 h
    cases h

/-- What the write loop leaves alone, and the flush it ends with when it does
not return -1. -/
theorem fwrite_loop_frame (fileID : Int) (descriptor : OPEN_FILE_DESCRIPTOR) (fuel : Nat) :
    ∀ (s : FS) (l : WLocals),
      WriteFrame s (fwrite_loop fileID descriptor fuel s l).2 fileID descriptor.inode_pointer ∧
      (Synced s → (fwrite_loop fileID descriptor fuel s l).1 ≠ -1 → 0 ≤ l.bytes_wrote →
        Synced (fwrite_loop fileID descriptor fuel s l).2) := by
  induction fuel with
  | zero =>
    intro s l
    exact ⟨write_frame_refl _ _ _, fun h _ _ => h⟩
  | succ n ih =>
    intro s l
    by_cases hr : l.remaining > 0
    · rcases hstep : fwrite_step s fileID descriptor l with s1 | ⟨s', l'⟩
      · rw [fwrite_loop_err _ _ _ _ _ _ hr hstep]
        exact ⟨write_frame_of_prep fileID (fwrite_step_error s fileID descriptor l s1 hstep),
          fun _ h _ => absurd rfl h⟩
      · rw [fwrite_loop_ok _ _ _ _ _ _ _ hr hstep]
        have hf := fwrite_step_ok s fileID descriptor l s' l' hstep
        obtain ⟨i1, i2⟩ := ih s' l'
        refine ⟨write_frame_trans (write_frame_of_step hf) i1, fun hs hne hb => ?_⟩
        have hcb := chunk_bounds l.write_ptr_loc l.remaining hr
        obtain ⟨-, g2, -, -, -, -, -, -, g9, -, -, g12, g13, -⟩ := hf
        exact i2 ⟨g12, by rw [g13, g9]; exact hs.2⟩ hne (by rw [g2]; omega)
    · rw [fwrite_loop_done _ _ _ _ _ hr]
      exact ⟨write_frame_refl _ _ _, fun h _ _ => h⟩

/-- What `sfs_fwrite` leaves alone, and the flush it ends with when it does
not return -1. -/
theorem sfs_fwrite_frame (s : FS) (stack : Int → Int) (h : Int) (buf : List Nat) (n : Int) :
    WriteFrame s (sfs_fwrite s stack h buf n).2 h (s.open_file_descriptor_table h).inode_pointer ∧
    (Synced s → (sfs_fwrite s stack h buf n).1 ≠ -1 → Synced (sfs_fwrite s stack h buf n).2) := by
  unfold sfs_fwrite
  by_cases hp : (s.open_file_descriptor_table h).inode_pointer = 0
  · simp only [if_pos hp]
    exact ⟨write_frame_refl _ _ _, fun _ hne => absurd rfl hne⟩
  · simp only [if_neg hp]
    obtain ⟨h1, h2⟩ := fwrite_loop_frame h (s.open_file_descriptor_table h) n.toNat s
      { remaining := n, bytes_wrote := 0,
        write_ptr_loc := (s.open_file_descriptor_table h).write_pointer, buffer := buf,
        indirect_pointer := (s.inode_table (s.open_file_descriptor_table h).inode_pointer).indirect_pointer,
        indirect_buffer :=
          if (s.inode_table (s.open_file_descriptor_table h).inode_pointer).indirect_pointer ≠ 0 then
            read_indirect s.disk
              (s.inode_table (s.open_file_descriptor_table h).inode_pointer).indirect_pointer stack
          else stack }
    exact ⟨h1, fun hs hne => h2 hs hne (le_refl _)⟩

/-- A run of appending writes: every call returns the length of its buffer
and the file holds the old contents followed by the buffers in order. -/
theorem write_all_append (h i N0 : Int) (hi : i ≠ 0) (calls : List ((Int → Int) × List Nat)) :
    ∀ (s : FS) (L : Int) (data : List Nat), FileInv s i N0 L data →
      (s.open_file_descriptor_table h).inode_pointer = i →
      (s.open_file_descriptor_table h).write_pointer = L →
      L + ((calls.map Prod.snd).flatten.length : Int) ≤ 274432 →
      N0 + used (nblocks (L + ((calls.map Prod.snd).flatten.length : Int))) ≤ 1024 →
      (write_all s h calls).1 = calls.map (fun c => (c.2.length : Int)) ∧
      FileInv (write_all s h calls).2 i N0 (L + ((calls.map Prod.snd).flatten.length : Int))
        (data ++ (calls.map Prod.snd).flatten) ∧
      ((write_all s h calls).2.open_file_descriptor_table h).inode_pointer = i := by
  induction calls with
  | nil =>
    intro s L data hinv hh _ _ _
    simp only [write_all, List.map_nil, List.flatten_nil, List.length_nil, Int.natCast_zero, add_zero,
      List.append_nil]
    exact ⟨trivial, hinv, hh⟩
  | cons c cs ih =>
    intro s L data hinv hh hw hmax hroom
    have hlen : (((List.map Prod.snd (c :: cs)).flatten.length : Nat) : Int) =
        (c.2.length : Int) + ((cs.map Prod.snd).flatten.length : Int) := by
      simp only [List.map_cons, List.flatten_cons, List.length_append]
      push_cast; rfl
    rw [hlen] at hmax hroom ⊢
    obtain ⟨h1, h2, h3⟩ := sfs_fwrite_append s c.1 h i N0 L data c.2 hinv hi hh hw
      (by have := Int.natCast_nonneg (cs.map Prod.snd).flatten.length; omega)
      (le_trans (by
        have := used_nblocks_mono (L + c.2.length)
          (L + ((c.2.length : Int) + ((cs.map Prod.snd).flatten.length : Int)))
          (by have := Int.natCast_nonneg (cs.map Prod.snd).flatten.length; omega)
        omega) hroom)
    obtain ⟨i1, i2, i3⟩ := ih (sfs_fwrite s c.1 h c.2 c.2.length).2 (L + c.2.length) (data ++ c.2) h2
      (by rw [h3]; exact hh) (by rw [h3])
      (by omega) (by rw [show L + (c.2.length : Int) + ((cs.map Prod.snd).flatten.length : Int) =
        L + ((c.2.length : Int) + ((cs.map Prod.snd).flatten.length : Int)) by omega]; exact hroom)
    refine ⟨?_, ?_, ?_⟩
    · simp only [write_all, List.map_cons, h1, i1]
    · simp only [write_all, List.map_cons, List.flatten_cons]
      rw [← List.append_assoc, ← add_assoc]
      exact i2
    · simp only [write_all]; exact i3



theorem read_from_block_snd (d : DISK) (bp : Int) (length offset : Int)
    (h1 : 0 ≤ bp) (h2 : bp < 1024) :
    (read_from_block d bp length offset).2 =
      memcpy_from (d.blocks bp) offset (min (BLOCK_SIZE - offset) length) := by
  unfold read_from_block
  by_cases h : offset = 0
  · subst h
    simp only [ne_eq, not_true_eq_false, if_false, read_block, if_pos (And.intro h1 h2), sub_zero]
  · simp only [ne_eq, h, not_false_eq_true, if_true, read_block, if_pos (And.intro h1 h2)]

/-- Positions of the blocks around a read at offset `r` of a file of `L` bytes. -/
theorem read_arith (L r c : Int) (hr0 : 0 ≤ r) (hr : r < L) (hmax : L ≤ 274432)
    (hc1 : 1 ≤ c) (hc2 : c ≤ L - r) (hc3 : c ≤ 1024 - r % 1024) :
    r / 1024 < nblocks L ∧ 0 ≤ r / 1024 ∧ (r < 12288 → r / 1024 < 12) ∧
    (12288 ≤ r → 12 < nblocks L ∧ 0 ≤ r / 1024 - 12 ∧ r / 1024 - 12 < 256 ∧
      r / 1024 - 12 < nblocks L - 12) ∧
    (∀ j : Int, 0 ≤ j → j < c → (r + j) / 1024 = r / 1024 ∧ (r + j) % 1024 = r % 1024 + j) := by
  unfold nblocks
  refine ⟨by omega, by omega, fun h => by omega, fun h => ⟨by omega, by omega, by omega, by omega⟩,
    fun j h1 h2 => ⟨by omega, by omega⟩⟩

/-- The bytes one iteration of the read loop copies out of the block that
holds offset `r`. -/
theorem read_chunk (s : FS) (i N0 L : Int) (data : List Nat) (hinv : FileInv s i N0 L data)
    (r c : Int) (hr0 : 0 ≤ r) (hc1 : 1 ≤ c) (hc2 : c ≤ L - r) (hc3 : c ≤ 1024 - r % 1024) :
    memcpy_from (s.disk.blocks (blk N0 r)) (r % 1024) c = (data.drop r.toNat).take c.toNat := by
  have hlen := hinv.len_eq
  have hcontent := hinv.content
  have hsame : ∀ j : Int, 0 ≤ j → j < c → (r + j) / 1024 = r / 1024 ∧ (r + j) % 1024 = r % 1024 + j :=
    fun j h1 h2 => ⟨by omega, by omega⟩
  unfold memcpy_from
  apply List.ext_getElem
  · rw [List.length_map, List.length_range, List.length_take, List.length_drop]
    omega
  · intro n h1 h2
    rw [List.length_map, List.length_range] at h1
    obtain ⟨e1, e2⟩ := hsame n (by omega) (by omega)
    have hb : blk N0 (r + n) = blk N0 r := (blk_eq_iff N0 (r + n) r (by omega) hr0).2 e1
    have hc := hcontent (r + n) (by omega) (by omega)
    rw [hb, e2] at hc
    have hidx : (r + (n : Int)).toNat = r.toNat + n := by omega
    rw [hidx, List.getD_eq_getElem _ _ (by omega)] at hc
    simp only [List.getElem_map, List.getElem_range, List.getElem_take, List.getElem_drop]
    rw [show (r % 1024).toNat + n = (r % 1024 + (n : Int)).toNat by omega, hc]

/-- One iteration of the read loop inside a file built by appending: the
bytes at offsets `r .. r + chunk - 1` are added to the output. -/
theorem fread_step_file (s : FS) (stack : Int → Int) (i N0 L : Int) (data : List Nat)
    (descriptor : OPEN_FILE_DESCRIPTOR) (hdesc : descriptor.inode_pointer = i)
    (hinv : FileInv s i N0 L data) (hmax : L ≤ 274432) (l : RLocals)
    (hr0 : 0 ≤ l.read_ptr_loc) (hrem : 0 < l.remaining) (hsum : l.read_ptr_loc + l.remaining = L) :
    fread_step s descriptor (s.inode_table i).indirect_pointer
        (if (s.inode_table i).indirect_pointer ≠ 0 then
          read_indirect s.disk (s.inode_table i).indirect_pointer stack else stack) l =
      some { remaining := l.remaining - chunk l.read_ptr_loc l.remaining,
             bytes_read := l.bytes_read + chunk l.read_ptr_loc l.remaining,
             read_ptr_loc := l.read_ptr_loc + chunk l.read_ptr_loc l.remaining,
             out := l.out ++ (data.drop l.read_ptr_loc.toNat).take
               (chunk l.read_ptr_loc l.remaining).toNat } := by
  have hcb := chunk_bounds l.read_ptr_loc l.remaining hrem
  have hc3 := chunk_le_block l.read_ptr_loc l.remaining hr0
  have hoff : cmod l.read_ptr_loc BLOCK_SIZE = l.read_ptr_loc % 1024 := cmod_nonneg_eq hr0
  have hmin : min (BLOCK_SIZE - l.read_ptr_loc % 1024) l.remaining =
      chunk l.read_ptr_loc l.remaining := by rw [chunk, hoff]
  have hchunk := read_chunk s i N0 L data hinv l.read_ptr_loc (chunk l.read_ptr_loc l.remaining)
    hr0 hcb.1 (by omega) hc3
  obtain ⟨a1, a2, a3, a4, -⟩ := read_arith L l.read_ptr_loc (chunk l.read_ptr_loc l.remaining)
    hr0 (by omega) hmax hcb.1 (by omega) hc3
  have hroom := hinv.room
  have hN0 := hinv.first_pos
  have hu := used_le (nblocks L)
  have hw : wrap32 (l.read_ptr_loc + chunk l.read_ptr_loc l.remaining) =
      l.read_ptr_loc + chunk l.read_ptr_loc l.remaining := wrap32_of_range (by omega) (by omega)
  generalize hcdef : chunk l.read_ptr_loc l.remaining = c at *
  generalize hrdef : l.read_ptr_loc = r at *
  clear hc3 hsum hmax
  unfold fread_step
  dsimp only
  rw [hrdef, hdesc, hoff, cdiv_nonneg_eq hr0]
  by_cases hlt : r < 12288
  · have hlt' : r < 12 * BLOCK_SIZE := hlt
    have hblk : blk N0 r = N0 + r / 1024 := by unfold blk; rw [if_pos hlt]
    have hptr : (s.inode_table i).pointers (r / 1024) = blk N0 r := by
      rw [hinv.direct _ a2 (a3 hlt), if_pos a1, hblk]
    rw [if_pos hlt', hptr, read_from_block_fst, hmin, hw,
      read_from_block_snd _ _ _ _ (by rw [hblk]; omega) (by rw [hblk]; omega), hmin, hchunk]
  · have hge : 12288 ≤ r := not_lt.1 hlt
    have hge' : ¬ r < 12 * BLOCK_SIZE := hlt
    obtain ⟨b1, b2, b3, b4⟩ := a4 hge
    have hblk : blk N0 r = N0 + 1 + r / 1024 := by unfold blk; rw [if_neg hlt]
    have hip : ¬ (s.inode_table i).indirect_pointer = 0 := by
      rw [hinv.indirect, if_pos b1]; omega
    have hentry : (if (s.inode_table i).indirect_pointer ≠ 0 then
        read_indirect s.disk (s.inode_table i).indirect_pointer stack else stack) (r / 1024 - 12) =
        blk N0 r := by
      rw [initial_buffer s stack i N0 L data hinv b1 _ b2 b3, if_pos b4, hblk]; omega
    rw [if_neg hge', if_neg hip, hentry, read_from_block_fst, hmin, hw,
      read_from_block_snd _ _ _ _ (by rw [hblk]; omega) (by rw [hblk]; omega), hmin, hchunk]

theorem take_append_take_drop_take (data : List Nat) (r c : Nat) :
    data.take r ++ (data.drop r).take c = data.take (r + c) := by
  rw [List.take_add]

/-- The read loop over the rest of a file built by appending returns the
number of bytes of the file and its contents, and stores the final cursor. -/
theorem fread_loop_file (s : FS) (stack : Int → Int) (fileID i N0 L : Int) (data : List Nat)
    (descriptor : OPEN_FILE_DESCRIPTOR) (hdesc : descriptor.inode_pointer = i)
    (hinv : FileInv s i N0 L data) (hmax : L ≤ 274432) (fuel : Nat) :
    ∀ l : RLocals, 0 ≤ l.read_ptr_loc → 0 ≤ l.remaining → l.read_ptr_loc + l.remaining = L →
      l.remaining.toNat ≤ fuel → l.bytes_read = l.read_ptr_loc →
      l.out = data.take l.read_ptr_loc.toNat →
      fread_loop s fileID descriptor (s.inode_table i).indirect_pointer
          (if (s.inode_table i).indirect_pointer ≠ 0 then
            read_indirect s.disk (s.inode_table i).indirect_pointer stack else stack) fuel l =
        (L, data,
          { s with open_file_descriptor_table :=
                    Function.update s.open_file_descriptor_table fileID
                      { s.open_file_descriptor_table fileID with read_pointer := L } }) := by
  induction fuel with
  | zero =>
    intro l h0 h1 h2 h3 h4 h5
    have hr : l.remaining = 0 := by omega
    have hrp : l.read_ptr_loc = L := by omega
    rw [fread_loop_done _ _ _ _ _ _ _ (by omega), h4, h5, hrp, ← hinv.len_eq, Int.toNat_ofNat,
      List.take_length]
  | succ n ih =>
    intro l h0 h1 h2 h3 h4 h5
    by_cases hr : l.remaining > 0
    · have hcb := chunk_bounds l.read_ptr_loc l.remaining hr
      rw [fread_loop_some _ _ _ _ _ _ _ _ hr
        (fread_step_file s stack i N0 L data descriptor hdesc hinv hmax l h0 hr h2)]
      apply ih
      · show 0 ≤ l.read_ptr_loc + chunk l.read_ptr_loc l.remaining
        omega
      · show 0 ≤ l.remaining - chunk l.read_ptr_loc l.remaining
        omega
      · show l.read_ptr_loc + chunk l.read_ptr_loc l.remaining +
          (l.remaining - chunk l.read_ptr_loc l.remaining) = L
        omega
      · show (l.remaining - chunk l.read_ptr_loc l.remaining).toNat ≤ n
        omega
      · show l.bytes_read + chunk l.read_ptr_loc l.remaining =
          l.read_ptr_loc + chunk l.read_ptr_loc l.remaining
        omega
      · show l.out ++ (data.drop l.read_ptr_loc.toNat).take (chunk l.read_ptr_loc l.remaining).toNat =
          data.take (l.read_ptr_loc + chunk l.read_ptr_loc l.remaining).toNat
        rw [h5, take_append_take_drop_take]
        congr 1
        omega
    · have hr0 : l.remaining = 0 := by omega
      have hrp : l.read_ptr_loc = L := by omega
      rw [fread_loop_done _ _ _ _ _ _ _ hr, h4, h5, hrp, ← hinv.len_eq, Int.toNat_ofNat,
        List.take_length]

/-- Reading a file built by appending from offset 0 to its size returns the
size and the contents. -/
theorem sfs_fread_file (s : FS) (stack : Int → Int) (h i N0 L : Int) (data : List Nat)
    (hinv : FileInv s i N0 L data) (hmax : L ≤ 274432) (hi : i ≠ 0)
    (hh : (s.open_file_descriptor_table h).inode_pointer = i)
    (hr : (s.open_file_descriptor_table h).read_pointer = 0) :
    (sfs_fread s stack h L).1 = L ∧ (sfs_fread s stack h L).2.1 = data := by
  have hL0 : (0 : Int) ≤ L := by rw [← hinv.len_eq]; exact Int.natCast_nonneg _
  unfold sfs_fread
  simp only [if_neg (show ¬ (s.open_file_descriptor_table h).inode_pointer = 0 by rw [hh]; exact hi)]
  rw [hh, hr, hinv.size_eq, add_zero, wrap32_of_range (by omega) (by omega),
    if_neg (lt_irrefl _)]
  rw [fread_loop_file s stack h i N0 L data (s.open_file_descriptor_table h) hh hinv hmax
    L.toNat { remaining := L, bytes_read := 0, read_ptr_loc := 0, out := [] }
    (le_refl _) hL0 (zero_add _) (le_refl _) rfl rfl]
  exact ⟨rfl, rfl⟩

/-- `FileInv` only looks at the inode table, the data bitmap and the device. -/
theorem file_inv_congr {s s' : FS} {i N0 L : Int} {data : List Nat} (h : FileInv s i N0 L data)
    (h1 : s'.inode_table = s.inode_table) (h2 : s'.data_block_bitmap = s.data_block_bitmap)
    (h3 : s'.disk = s.disk) : FileInv s' i N0 L data := by
  obtain ⟨a1, a2, a3, a4, a5, a6, a7, a8, a9⟩ := h
  exact ⟨a1, a2, a3, by rw [h1]; exact a4, by rw [h1]; exact a5, by rw [h1]; exact a6,
    by rw [h3]; exact a7, by rw [h2]; exact a8, by rw [h3]; exact a9⟩

/-- The first file created on a freshly formatted file system: handle 1,
inode 1, empty, first block 23. -/
theorem first_file (s0 : FS) (name : List Char) (hlen : name.length ≤ 32)
    (hnew : ∀ k : Int, 1 ≤ k → k < 128 → ((mksfs s0 1).directory_table k).full_filename ≠ name) :
    (sfs_fopen (mksfs s0 1) name).1 = 1 ∧
    FileInv (sfs_fopen (mksfs s0 1) name).2 1 23 0 [] ∧
    (sfs_fopen (mksfs s0 1) name).2.open_file_descriptor_table 1 = ⟨1, 0, 0⟩ := by
  obtain ⟨-, h2, h3, h4, -, -, -, -, -, h10⟩ := mksfs_fresh_fields s0
  have hdir : ∀ k : Int, k ≠ 0 → ((mksfs s0 1).directory_table k).full_filename = [] := by
    intro k hk; rw [h4, Function.update_noteq hk]; rfl
  have hdir0 : ((mksfs s0 1).directory_table 0).full_filename = "root".toList := by
    rw [h4, Function.update_same]
  have hmode : ∀ k : Int, ((mksfs s0 1).inode_table k).mode = 0 := by
    intro k; rw [h3]; rfl
  have hc := sfs_fopen_create_eq (mksfs s0 1) name 1 1 hlen
    (fun k h1 _ => by rw [hdir k (by omega)]; decide) hnew
    (by decide) (by decide) (hdir 1 (by decide))
    (fun j h1 h2 => by
      have : j = 0 := by omega
      subst this; rw [hdir0]; decide)
    (by decide) (by decide) (hmode 1) (fun j h1 h2 => by omega)
  rw [hc]
  have e0 : nblocks 0 = 0 := by decide
  have e1 : used 0 = 0 := by decide
  refine ⟨rfl, ⟨rfl, by decide, by rw [e0, e1]; decide, ?_, ?_, ?_, ?_, ?_, ?_⟩, ?_⟩
  · simp only [created_state, Function.update_same]
  · intro j hj1 _
    simp only [created_state, Function.update_same]
    rw [e0, if_neg (by omega)]
  · simp only [created_state, Function.update_same]
    rw [e0, if_neg (by decide)]
  · intro h; rw [e0] at h; exact absurd h (by decide)
  · intro b hb1 hb2
    simp only [created_state]
    rw [h2, e0, e1]
    show (if 0 ≤ b ∧ b < 23 then (1 : Int) else 0) = _
    split_ifs <;> first | rfl | omega
  · intro p hp1 hp2; omega
  · simp only [created_state, Function.update_same]

theorem used_nblocks_max (T : Int) (h : T ≤ 274432) : used (nblocks T) ≤ 269 := by
  have h1 : nblocks T ≤ 268 := by unfold nblocks; omega
  unfold used; split_ifs <;> omega

/-- `sfs_fseek` on an open handle returns 1 and sets both cursors only. -/
theorem sfs_fseek_open (s : FS) (h loc : Int)
    (hopen : (s.open_file_descriptor_table h).inode_pointer ≠ 0) :
    (sfs_fseek s h loc).1 = 1 ∧
    (sfs_fseek s h loc).2.inode_table = s.inode_table ∧
    (sfs_fseek s h loc).2.data_block_bitmap = s.data_block_bitmap ∧
    (sfs_fseek s h loc).2.disk = s.disk ∧
    (sfs_fseek s h loc).2.open_file_descriptor_table h =
      ⟨(s.open_file_descriptor_table h).inode_pointer, loc, loc⟩ := by
  unfold sfs_fseek
  rw [if_neg hopen]
  simp only [Function.update_same, and_self]

/-- C1: after `mksfs(1)` and `h = sfs_fopen(name)` for a name of at most 32
bytes that no directory slot holds, for every list of buffers whose total
length `T` is at most the maximum file size 274432 (they always fit in the
1001 free data blocks), writing the buffers in order with `sfs_fwrite` returns
the length of each buffer, `sfs_fseek(h, 0)` returns 1, and `sfs_fread` of `T`
bytes returns `T` and the concatenation of the buffers. -/
theorem append_round_trip (s0 : FS) (name : List Char) (calls : List ((Int → Int) × List Nat))
    (stack : Int → Int) (hlen : name.length ≤ 32)
    (hnew : ∀ k : Int, 1 ≤ k → k < 128 → ((mksfs s0 1).directory_table k).full_filename ≠ name)
    (hT : ((calls.map Prod.snd).flatten.length : Int) ≤ 274432) :
    (write_all (sfs_fopen (mksfs s0 1) name).2 (sfs_fopen (mksfs s0 1) name).1 calls).1 =
      calls.map (fun c => (c.2.length : Int)) ∧
    (sfs_fseek (write_all (sfs_fopen (mksfs s0 1) name).2 (sfs_fopen (mksfs s0 1) name).1 calls).2
      (sfs_fopen (mksfs s0 1) name).1 0).1 = 1 ∧
    (sfs_fread
      (sfs_fseek (write_all (sfs_fopen (mksfs s0 1) name).2 (sfs_fopen (mksfs s0 1) name).1 calls).2
        (sfs_fopen (mksfs s0 1) name).1 0).2
      stack (sfs_fopen (mksfs s0 1) name).1 ((calls.map Prod.snd).flatten.length : Int)).1 =
        ((calls.map Prod.snd).flatten.length : Int) ∧
    (sfs_fread
      (sfs_fseek (write_all (sfs_fopen (mksfs s0 1) name).2 (sfs_fopen (mksfs s0 1) name).1 calls).2
        (sfs_fopen (mksfs s0 1) name).1 0).2
      stack (sfs_fopen (mksfs s0 1) name).1 ((calls.map Prod.snd).flatten.length : Int)).2.1 =
        (calls.map Prod.snd).flatten := by
  obtain ⟨f1, f2, f3⟩ := first_file s0 name hlen hnew
  rw [f1]
  have hT0 := Int.natCast_nonneg (calls.map Prod.snd).flatten.length
  obtain ⟨w1, w2, w3⟩ := write_all_append 1 1 23 (by decide) calls (sfs_fopen (mksfs s0 1) name).2 0 []
    f2 (by rw [f3]) (by rw [f3]) (by omega)
    (by have := used_nblocks_max (0 + ((calls.map Prod.snd).flatten.length : Int)) (by omega); omega)
  rw [zero_add, List.nil_append] at w2
  generalize write_all (sfs_fopen (mksfs s0 1) name).2 1 calls = r at w1 w2 w3 ⊢
  obtain ⟨k1, k2, k3, k4, k5⟩ := sfs_fseek_open r.2 1 0 (by rw [w3]; decide)
  have hinv := file_inv_congr w2 k2 k3 k4
  obtain ⟨r1, r2⟩ := sfs_fread_file _ stack 1 1 23 _ _ hinv hT (by decide)
    (by rw [k5]; exact w3) (by rw [k5])
  exact ⟨w1, k1, r1, r2⟩

/-- Writing "hello" to a new file "a" on a fresh file system returns 5, and
reading 5 bytes from offset 0 returns 5 and "hello". -/
theorem append_round_trip_witness :
    (write_all (sfs_fopen (mksfs boot 1) "a".toList).2 (sfs_fopen (mksfs boot 1) "a".toList).1
      [(stack0, hello)]).1 = [5] ∧
    (sfs_fread
      (sfs_fseek (write_all (sfs_fopen (mksfs boot 1) "a".toList).2
        (sfs_fopen (mksfs boot 1) "a".toList).1 [(stack0, hello)]).2
        (sfs_fopen (mksfs boot 1) "a".toList).1 0).2
      stack0 (sfs_fopen (mksfs boot 1) "a".toList).1 5).1 = 5 ∧
    (sfs_fread
      (sfs_fseek (write_all (sfs_fopen (mksfs boot 1) "a".toList).2
        (sfs_fopen (mksfs boot 1) "a".toList).1 [(stack0, hello)]).2
        (sfs_fopen (mksfs boot 1) "a".toList).1 0).2
      stack0 (sfs_fopen (mksfs boot 1) "a".toList).1 5).2.1 = hello := by
  have h := append_round_trip boot "a".toList [(stack0, hello)] stack0 (by decide)
    (fun k h1 _ => by
      rw [(mksfs_fresh_fields boot).2.2.2.1, Function.update_noteq (by omega)]
      decide)
    (by decide)
  exact ⟨h.1, h.2.2.1, h.2.2.2⟩

/-! ## Persistence across `mksfs(0)` -/

theorem synced_fresh (s : FS) : Synced (mksfs s 1) := by
  obtain ⟨-, -, -, -, -, h6, -, -, h9, -⟩ := mksfs_fresh_fields s
  exact ⟨h6, h9⟩

theorem synced_fopen (s : FS) (name : List Char) (h : Synced s) : Synced (sfs_fopen s name).2 := by
  unfold sfs_fopen
  dsimp only
  split_ifs
  · exact h
  · exact h
  · exact h
  · exact h
  · exact ⟨rfl, rfl⟩

theorem synced_fclose (s : FS) (fileID : Int) (h : Synced s) : Synced (sfs_fclose s fileID).2 := by
  unfold sfs_fclose
  dsimp only
  split_ifs <;> exact h

/-- Calls of `sfs_fopen`, `sfs_fclose` and `sfs_fwrite` that does not return
-1 keep the device copies of the inode table and the directory table equal
to the tables in memory. -/
theorem synced_run (calls : List Call) :
    ∀ s : FS, Synced s → writes_succeed s calls → Synced (run s calls) := by
  induction calls with
  | nil => intro s h _; exact h
  | cons c cs ih =>
    intro s h hw
    cases c with
    | fopen name => exact ih _ (synced_fopen s name h) hw
    | fwrite stack fileID buf length =>
      exact ih _ ((sfs_fwrite_frame s stack fileID buf length).2 h hw.1) hw.2
    | fclose fileID => exact ih _ (synced_fclose s fileID h) hw

/-- The state `mksfs(0)` leaves: only the four tables are loaded from the
device. -/
theorem mksfs_remount_fields (s : FS) :
    (mksfs s 0).inode_table = s.disk.inode_table ∧
    (mksfs s 0).directory_table = s.disk.directory_table ∧
    (mksfs s 0).inode_bitmap = s.disk.inode_bitmap ∧
    (mksfs s 0).data_block_bitmap = s.disk.data_block_bitmap ∧
    (mksfs s 0).open_file_descriptor_table = s.open_file_descriptor_table ∧
    (mksfs s 0).disk = s.disk := by
  simp only [mksfs, init_old_base_blocks, show ¬ ((0 : Int) = 1) by decide, if_false, and_self]

/-- The read loop only looks at the inode table and the device. -/
theorem fread_loop_congr (s t : FS) (fileID : Int) (descriptor : OPEN_FILE_DESCRIPTOR) (ip : Int)
    (ib : Int → Int) (h1 : t.inode_table = s.inode_table) (h2 : t.disk = s.disk) (fuel : Nat) :
    ∀ l : RLocals,
      (fread_loop t fileID descriptor ip ib fuel l).1 = (fread_loop s fileID descriptor ip ib fuel l).1 ∧
      (fread_loop t fileID descriptor ip ib fuel l).2.1 =
        (fread_loop s fileID descriptor ip ib fuel l).2.1 := by
  have hstep : ∀ l, fread_step t descriptor ip ib l = fread_step s descriptor ip ib l := by
    intro l; unfold fread_step; rw [h1, h2]
  induction fuel with
  | zero => intro l; exact ⟨rfl, rfl⟩
  | succ n ih =>
    intro l
    by_cases hr : l.remaining > 0
    · rcases hs : fread_step s descriptor ip ib l with _ | l'
      · rw [fread_loop_none _ _ _ _ _ _ _ hr hs, fread_loop_none _ _ _ _ _ _ _ hr ((hstep l).trans hs)]
        exact ⟨rfl, rfl⟩
      · rw [fread_loop_some _ _ _ _ _ _ _ _ hr hs,
          fread_loop_some _ _ _ _ _ _ _ _ hr ((hstep l).trans hs)]
        exact ih l'
    · rw [fread_loop_done _ _ _ _ _ _ _ hr, fread_loop_done _ _ _ _ _ _ _ hr]
      exact ⟨rfl, rfl⟩

/-- `sfs_fread` returns the same value and the same bytes on two states with
the same inode table, open-file table and device. -/
theorem sfs_fread_congr (s t : FS) (stack : Int → Int) (fileID length : Int)
    (h1 : t.inode_table = s.inode_table)
    (h2 : t.open_file_descriptor_table = s.open_file_descriptor_table) (h3 : t.disk = s.disk) :
    (sfs_fread t stack fileID length).1 = (sfs_fread s stack fileID length).1 ∧
    (sfs_fread t stack fileID length).2.1 = (sfs_fread s stack fileID length).2.1 := by
  unfold sfs_fread
  rw [h1, h2, h3]
  dsimp only
  split_ifs
  · exact ⟨rfl, rfl⟩
  all_goals exact fread_loop_congr s t fileID _ _ _ h1 h3 _ _

/-- Persistence when no write fails: after `mksfs(1)` and a sequence of
`sfs_fopen`, `sfs_fwrite` and `sfs_fclose` calls in which no `sfs_fwrite`
returns -1, `mksfs(0)` leaves the inode table and the directory table as they
were, and every read returns the same value and bytes as before the remount. -/
theorem remount_after_successful_writes (s0 : FS) (calls : List Call)
    (hw : writes_succeed (mksfs s0 1) calls) :
    (mksfs (run (mksfs s0 1) calls) 0).inode_table = (run (mksfs s0 1) calls).inode_table ∧
    (mksfs (run (mksfs s0 1) calls) 0).directory_table = (run (mksfs s0 1) calls).directory_table ∧
    ∀ (stack : Int → Int) (fileID length : Int),
      (sfs_fread (mksfs (run (mksfs s0 1) calls) 0) stack fileID length).1 =
        (sfs_fread (run (mksfs s0 1) calls) stack fileID length).1 ∧
      (sfs_fread (mksfs (run (mksfs s0 1) calls) 0) stack fileID length).2.1 =
        (sfs_fread (run (mksfs s0 1) calls) stack fileID length).2.1 := by
  have hs := synced_run calls (mksfs s0 1) (synced_fresh s0) hw
  obtain ⟨m1, m2, -, -, m5, m6⟩ := mksfs_remount_fields (run (mksfs s0 1) calls)
  refine ⟨m1.trans hs.1, m2.trans hs.2, fun stack fileID length => ?_⟩
  exact sfs_fread_congr _ _ stack fileID length (m1.trans hs.1) m5 m6



/-! ## A write that fails between its two allocations -/

theorem filled_of_frame {s s' : FS} {fileID inode : Int} {created : List (List Char)}
    (hF : Filled s created) (hW : WriteFrame s s' fileID inode) : Filled s' created := by
  obtain ⟨f0, f1, f2, f3, f4⟩ := hF
  obtain ⟨w1, -, -, w4, w5, -⟩ := hW
  have hmode : ∀ k : Int, (s'.inode_table k).mode = (s.inode_table k).mode := by
    intro k
    by_cases hk : k = inode
    · rw [hk]; exact w5
    · rw [w4 k hk]
  exact ⟨by rw [w1]; exact f0, fun j hj => by rw [w1]; exact f1 j hj,
    fun k h1 h2 => by rw [w1]; exact f2 k h1 h2,
    fun k h1 h2 => by rw [hmode]; exact f3 k h1 h2,
    fun k h1 h2 => by rw [hmode]; exact f4 k h1 h2⟩

/-- Creating one more file on a file system of shape `Filled`, as a
whole-state equation. -/
theorem filled_step_eq (s : FS) (created : List (List Char)) (n : List Char)
    (hF : Filled s created) (hroom : created.length < 127)
    (hvalid : ∀ m ∈ created, m ≠ [] ∧ m.length ≤ 32)
    (hn1 : n ≠ []) (hn2 : n.length ≤ 32) (hn3 : n ∉ created) :
    sfs_fopen s n = ((created.length : Int) + 1,
      created_state s n ((created.length : Int) + 1) ((created.length : Int) + 1)) := by
  obtain ⟨f0, f1, f2, f3, f4⟩ := hF
  have hstored : ∀ k : Int, 1 ≤ k → k ≤ (created.length : Int) →
      (s.directory_table k).full_filename ∈ created := by
    intro k h1 h2
    have hj : (k - 1).toNat < created.length := by omega
    have := f1 (k - 1).toNat hj
    rw [show (((k - 1).toNat : Nat) : Int) + 1 = k by omega] at this
    rw [this, List.getD_eq_getElem _ _ hj]
    exact List.getElem_mem _
  have hwf : ∀ k : Int, 1 ≤ k → k < 128 → (s.directory_table k).full_filename.length ≤ 32 := by
    intro k h1 h2
    by_cases hk : k ≤ (created.length : Int)
    · exact (hvalid _ (hstored k h1 hk)).2
    · rw [f2 k (by omega) h2]; simp
  have hnew : ∀ k : Int, 1 ≤ k → k < 128 → (s.directory_table k).full_filename ≠ n := by
    intro k h1 h2
    by_cases hk : k ≤ (created.length : Int)
    · intro h; exact hn3 (h ▸ hstored k h1 hk)
    · rw [f2 k (by omega) h2]; exact fun h => hn1 h.symm
  have hd4 : ∀ j : Int, 0 ≤ j → j < (created.length : Int) + 1 →
      (s.directory_table j).full_filename ≠ [] := by
    intro j h1 h2
    by_cases hj : j = 0
    · subst hj; rw [f0]; decide
    · exact (hvalid _ (hstored j (by omega) (by omega))).1
  exact sfs_fopen_create_eq s n ((created.length : Int) + 1) ((created.length : Int) + 1)
    hn2 hwf hnew (by omega) (by omega) (f2 _ (by omega) (by omega)) hd4 (by omega) (by omega)
    (f4 _ (by omega) (by omega)) (fun j h1 h2 => f3 j h1 (by omega))

/-- Creating the next file on a file system without holes in its data bitmap
and filling it with one write. -/
theorem next_file (s : FS) (created : List (List Char)) (name : List Char) (stack : Int → Int)
    (buf : List Nat) (n N : Int)
    (hF : Filled s created) (hfiles : created.length < 127)
    (hvalid : ∀ m ∈ created, m ≠ [] ∧ m.length ≤ 32)
    (hn1 : name ≠ []) (hn2 : name.length ≤ 32) (hn3 : name ∉ created)
    (hB : BitmapPrefix s N) (hN : 0 < N) (hS : Synced s)
    (hlen : (buf.length : Int) = n) (hmax : n ≤ 274432) (hroom : N + used (nblocks n) ≤ 1024) :
    (sfs_fopen s name).1 = (created.length : Int) + 1 ∧
    (sfs_fwrite (sfs_fopen s name).2 stack ((created.length : Int) + 1) buf n).1 = n ∧
    Filled (sfs_fwrite (sfs_fopen s name).2 stack ((created.length : Int) + 1) buf n).2
      (created ++ [name]) ∧
    BitmapPrefix (sfs_fwrite (sfs_fopen s name).2 stack ((created.length : Int) + 1) buf n).2
      (N + used (nblocks n)) ∧
    Synced (sfs_fwrite (sfs_fopen s name).2 stack ((created.length : Int) + 1) buf n).2 ∧
    FileInv (sfs_fwrite (sfs_fopen s name).2 stack ((created.length : Int) + 1) buf n).2
      ((created.length : Int) + 1) N n buf ∧
    (sfs_fwrite (sfs_fopen s name).2 stack ((created.length : Int) + 1) buf n).2.open_file_descriptor_table
      ((created.length : Int) + 1) = ⟨(created.length : Int) + 1, 0, n⟩ := by
  have hn0 : 0 ≤ n := by rw [← hlen]; exact Int.natCast_nonneg _
  have hk0 := Int.natCast_nonneg created.length
  have hF' := (filled_step s created name hF hfiles hvalid hn1 hn2 hn3).2
  have hS' := synced_fopen s name hS
  have heq := filled_step_eq s created name hF hfiles hvalid hn1 hn2 hn3
  rw [heq] at hF' hS' ⊢
  have hk1 : 1 ≤ (created.length : Int) + 1 := by omega
  generalize (created.length : Int) + 1 = k at *
  have e0 : nblocks 0 = 0 := by decide
  have e1 : used 0 = 0 := by decide
  have hu := used_le (nblocks n)
  have hnb : 0 ≤ nblocks n := by unfold nblocks; omega
  have hinv : FileInv (created_state s name k k) k N 0 [] := by
    refine ⟨rfl, hN, by rw [e0, e1]; omega, ?_, ?_, ?_, ?_, ?_, ?_⟩
    · simp only [created_state, Function.update_same]
    · intro j hj1 _
      simp only [created_state, Function.update_same]
      rw [e0, if_neg (by omega)]
    · simp only [created_state, Function.update_same]
      rw [e0, if_neg (by decide)]
    · intro h; rw [e0] at h; exact absurd h (by decide)
    · intro b hb1 hb2
      rw [e0, e1, add_zero]
      exact hB b hb1 hb2
    · intro p hp1 hp2; omega
  have hoft : (created_state s name k k).open_file_descriptor_table k = ⟨k, 0, 0⟩ := by
    simp only [created_state, Function.update_same]
  subst hlen
  obtain ⟨a1, a2, a3⟩ := sfs_fwrite_append (created_state s name k k) stack k k N 0 [] buf hinv
    (by omega) (by rw [hoft]) (by rw [hoft]) (by omega) (by rw [zero_add]; exact hroom)
  rw [zero_add, List.nil_append] at a2
  rw [zero_add, hoft] at a3
  obtain ⟨w1, w2⟩ := sfs_fwrite_frame (created_state s name k k) stack k buf buf.length
  exact ⟨rfl, a1, filled_of_frame hF' w1, a2.bitmap, w2 hS' (by rw [a1]; omega), a2, a3⟩

/-- A write at the end of the direct region that finds exactly one free data
block takes it for the indirect block, finds none for the data, and returns -1
with the indirect pointer stored in memory but not on the device: `mksfs(0)`
then loads an inode without it. -/
theorem write_fails_after_indirect_alloc (s : FS) (stack : Int → Int) (h i N0 : Int)
    (data buf : List Nat) (n : Int) (hinv : FileInv s i N0 12288 data) (hfull : N0 + 12 = 1023)
    (hi : i ≠ 0) (hh : (s.open_file_descriptor_table h).inode_pointer = i)
    (hw : (s.open_file_descriptor_table h).write_pointer = 12288) (hn : 0 < n) (hS : Synced s) :
    (sfs_fwrite s stack h buf n).1 = -1 ∧
    ((sfs_fwrite s stack h buf n).2.inode_table i).indirect_pointer = 1023 ∧
    ((mksfs (sfs_fwrite s stack h buf n).2 0).inode_table i).indirect_pointer = 0 := by
  have e1 : nblocks 12288 = 12 := by decide
  have hind := hinv.indirect
  have hbit := hinv.bitmap
  rw [e1, if_neg (by decide)] at hind
  rw [e1, used_small _ (by decide), hfull] at hbit
  have hff1 : find_free_bit s "data" = 1023 :=
    find_free_bit_prefix s _ (by decide) (by decide) hbit
  have hff2 : find_free_bit (set_indirect (set_bit_1 s "data" 1023) i 1023) "data" = -1 := by
    apply find_free_bit_full
    intro b hb1 hb2
    rw [(set_indirect_fields _ _ _).1, set_bit_data_bitmap]
    by_cases hb : b = 1023
    · rw [hb, Function.update_same]
    · rw [Function.update_noteq hb, hbit b hb1 hb2, if_pos (by omega)]
  have hstep : ∀ l : WLocals, l.write_ptr_loc = 12288 → l.indirect_pointer = 0 →
      fwrite_step s h (s.open_file_descriptor_table h) l =
        .error (set_indirect (set_bit_1 s "data" 1023) i 1023) := by
    intro l hl1 hl2
    unfold fwrite_step
    dsimp only
    rw [hl1, hh, if_neg (show ¬ ((12288 : Int) < 12 * BLOCK_SIZE) by decide), if_pos hl2, hff1,
      if_neg (by decide), hff2, if_pos rfl]
  have hres : sfs_fwrite s stack h buf n = (-1, set_indirect (set_bit_1 s "data" 1023) i 1023) := by
    unfold sfs_fwrite
    simp only [if_neg (show ¬ (s.open_file_descriptor_table h).inode_pointer = 0 by rw [hh]; exact hi)]
    obtain ⟨m, hm⟩ : ∃ m : Nat, n.toNat = m + 1 := ⟨n.toNat - 1, by omega⟩
    rw [hm]
    have hip : (s.inode_table (s.open_file_descriptor_table h).inode_pointer).indirect_pointer = 0 := by
      rw [hh]; exact hind
    exact fwrite_loop_err _ _ _ _ _ _ hn (hstep _ hw hip)
  rw [hres]
  refine ⟨rfl, (set_indirect_fields _ _ _).2.2.2.1, ?_⟩
  rw [(mksfs_remount_fields _).1, (set_indirect_fields _ _ _).2.1, (set_bit_data_fields _ _).2,
    hS.1, hind]

theorem zeros_length_int (n : Nat) : ((zeros n).length : Int) = n := by
  unfold zeros; rw [List.length_replicate]

theorem run_append (a b : List Call) : ∀ s : FS, run s (a ++ b) = run (run s a) b := by
  induction a with
  | nil => intro s; rfl
  | cons c cs ih => intro s; exact ih _

theorem bitmap_prefix_fresh (s : FS) : BitmapPrefix (mksfs s 1) 23 := by
  intro b hb1 _
  rw [(mksfs_fresh_fields s).2.1]
  show (if 0 ≤ b ∧ b < 23 then (1 : Int) else 0) = _
  split_ifs <;> first | rfl | omega

theorem writes_succeed_append (a b : List Call) :
    ∀ s : FS, writes_succeed s a → writes_succeed (run s a) b → writes_succeed s (a ++ b) := by
  induction a with
  | nil => intro s _ h; exact h
  | cons c cs ih =>
    intro s h1 h2
    cases c with
    | fopen name => exact ih _ h1 h2
    | fwrite stack fileID buf length => exact ⟨h1.1, ih _ h1.2 h2⟩
    | fclose fileID => exact ih _ h1 h2

/-- One `sfs_fopen` of a new name followed by one `sfs_fwrite` of the whole
file, as a step of `run`. -/
theorem next_file_run (s : FS) (created : List (List Char)) (name : List Char) (stack : Int → Int)
    (buf : List Nat) (n N k N' : Int)
    (hF : Filled s created) (hfiles : created.length < 127)
    (hvalid : ∀ m ∈ created, m ≠ [] ∧ m.length ≤ 32)
    (hn1 : name ≠ []) (hn2 : name.length ≤ 32) (hn3 : name ∉ created)
    (hB : BitmapPrefix s N) (hN : 0 < N) (hS : Synced s)
    (hlen : (buf.length : Int) = n) (hmax : n ≤ 274432) (hroom : N + used (nblocks n) ≤ 1024)
    (hk : (created.length : Int) + 1 = k) (hN' : N + used (nblocks n) = N') (hpos : 0 < n) :
    Filled (run s [.fopen name, .fwrite stack k buf n]) (created ++ [name]) ∧
    BitmapPrefix (run s [.fopen name, .fwrite stack k buf n]) N' ∧
    Synced (run s [.fopen name, .fwrite stack k buf n]) ∧
    FileInv (run s [.fopen name, .fwrite stack k buf n]) k N n buf ∧
    (run s [.fopen name, .fwrite stack k buf n]).open_file_descriptor_table k = ⟨k, 0, n⟩ ∧
    writes_succeed s [.fopen name, .fwrite stack k buf n] := by
  obtain ⟨-, h2, h3, h4, h5, h6, h7⟩ := next_file s created name stack buf n N hF hfiles hvalid
    hn1 hn2 hn3 hB hN hS hlen hmax hroom
  rw [hk] at h2 h3 h4 h5 h6 h7
  rw [hN'] at h4
  refine ⟨h3, h4, h5, h6, h7, ?_, trivial⟩
  show (sfs_fwrite (sfs_fopen s name).2 stack k buf n).1 ≠ -1
  rw [h2]; omega

theorem run_fwrite (s : FS) (stack : Int → Int) (fileID : Int) (buf : List Nat) (length : Int) :
    run s [.fwrite stack fileID buf length] = (sfs_fwrite s stack fileID buf length).2 := rfl

theorem run_call_fwrite (s : FS) (stack : Int → Int) (fileID : Int) (buf : List Nat)
    (length : Int) :
    run_call s (.fwrite stack fileID buf length) = sfs_fwrite s stack fileID buf length := rfl

theorem fill_calls_split : fill_calls =
    [.fopen "a".toList, .fwrite stack0 1 (zeros 274432) 274432] ++
    ([.fopen "b".toList, .fwrite stack0 2 (zeros 274432) 274432] ++
    ([.fopen "c".toList, .fwrite stack0 3 (zeros 274432) 274432] ++
    ([.fopen "d".toList, .fwrite stack0 4 (zeros 184320) 184320] ++
    [.fopen "e".toList, .fwrite stack0 5 (zeros 12288) 12288]))) := rfl

/-- The state `nearly_full`: five files, the fifth with handle 5, inode 5 and
twelve full direct blocks, and block 1023 as the only free data block. -/
theorem nearly_full_shape :
    FileInv nearly_full 5 1011 12288 (zeros 12288) ∧
    nearly_full.open_file_descriptor_table 5 = ⟨5, 0, 12288⟩ ∧ Synced nearly_full ∧
    writes_succeed (mksfs boot 1) fill_calls := by
  have u1 : (23 : Int) + used (nblocks 274432) = 292 := by decide
  have u2 : (292 : Int) + used (nblocks 274432) = 561 := by decide
  have u3 : (561 : Int) + used (nblocks 274432) = 830 := by decide
  have u4 : (830 : Int) + used (nblocks 184320) = 1011 := by decide
  have u5 : (1011 : Int) + used (nblocks 12288) = 1023 := by decide
  obtain ⟨aF, aB, aS, -, -, aW⟩ := next_file_run (mksfs boot 1) [] "a".toList stack0
    (zeros 274432) 274432 23 1 292 (filled_fresh boot) (by decide) (by decide) (by decide)
    (by decide) (by decide) (bitmap_prefix_fresh boot) (by decide) (synced_fresh boot)
    (zeros_length_int _) (by decide) (by rw [u1]; decide) rfl u1 (by decide)
  obtain ⟨bF, bB, bS, -, -, bW⟩ := next_file_run _ _ "b".toList stack0
    (zeros 274432) 274432 292 2 561 aF (by decide) (by decide) (by decide)
    (by decide) (by decide) aB (by decide) aS
    (zeros_length_int _) (by decide) (by rw [u2]; decide) rfl u2 (by decide)
  obtain ⟨cF, cB, cS, -, -, cW⟩ := next_file_run _ _ "c".toList stack0
    (zeros 274432) 274432 561 3 830 bF (by decide) (by decide) (by decide)
    (by decide) (by decide) bB (by decide) bS
    (zeros_length_int _) (by decide) (by rw [u3]; decide) rfl u3 (by decide)
  obtain ⟨dF, dB, dS, -, -, dW⟩ := next_file_run _ _ "d".toList stack0
    (zeros 184320) 184320 830 4 1011 cF (by decide) (by decide) (by decide)
    (by decide) (by decide) cB (by decide) cS
    (zeros_length_int _) (by decide) (by rw [u4]; decide) rfl u4 (by decide)
  obtain ⟨-, -, eS, eI, eO, eW⟩ := next_file_run _ _ "e".toList stack0
    (zeros 12288) 12288 1011 5 1023 dF (by decide) (by decide) (by decide)
    (by decide) (by decide) dB (by decide) dS
    (zeros_length_int _) (by decide) (by rw [u5]; decide) rfl u5 (by decide)
  rw [nearly_full, fill_calls_split, run_append, run_append, run_append, run_append]
  exact ⟨eI, eO, eS, writes_succeed_append _ _ _ aW (writes_succeed_append _ _ _ bW
    (writes_succeed_append _ _ _ cW (writes_succeed_append _ _ _ dW eW)))⟩

/-- C2: persistence fails after a write that runs out of data blocks between
its two allocations.  After `mksfs(1)` and `fill_calls` (five files that
leave block 1023 as the only free data block, the fifth file ending at offset
12288), writing one more byte to the fifth file returns -1 with indirect
pointer 1023 stored in inode 5 in memory but not on the device, and `mksfs(0)`
loads inode 5 with indirect pointer 0. -/
theorem remount_loses_indirect_pointer :
    (run_call nearly_full (.fwrite stack0 5 [0] 1)).1 = -1 ∧
    ((run (mksfs boot 1) (fill_calls ++ [.fwrite stack0 5 [0] 1])).inode_table 5).indirect_pointer
      = 1023 ∧
    ((mksfs (run (mksfs boot 1) (fill_calls ++ [.fwrite stack0 5 [0] 1])) 0).inode_table
      5).indirect_pointer = 0 := by
  obtain ⟨h1, h2, h3, -⟩ := nearly_full_shape
  have h := write_fails_after_indirect_alloc nearly_full stack0 5 5 1011 _ [0] 1 h1 (by decide)
    (by decide) (by rw [h2]) (by rw [h2]) (by decide) h3
  have e : run (mksfs boot 1) fill_calls = nearly_full := rfl
  rw [run_append, e, run_fwrite, run_call_fwrite]
  exact h

/-! ## Maximum file size -/

/-- With an indirect block present, a write whose cursor is at or beyond
offset 275456 (one block past the capacity) returns -1 and leaves the state as
it was. -/
theorem sfs_fwrite_beyond_capacity (s : FS) (stack : Int → Int) (h : Int) (buf : List Nat) (n : Int)
    (hopen : (s.open_file_descriptor_table h).inode_pointer ≠ 0)
    (hind : (s.inode_table (s.open_file_descriptor_table h).inode_pointer).indirect_pointer ≠ 0)
    (hp : 275456 ≤ (s.open_file_descriptor_table h).write_pointer) (hn : 0 < n) :
    sfs_fwrite s stack h buf n = (-1, s) := by
  unfold sfs_fwrite
  simp only [if_neg hopen]
  obtain ⟨m, hm⟩ : ∃ m : Nat, n.toNat = m + 1 := ⟨n.toNat - 1, by omega⟩
  rw [hm]
  apply fwrite_loop_err _ _ _ _ _ _ hn
  unfold fwrite_step
  dsimp only
  have h1 : ¬ (s.open_file_descriptor_table h).write_pointer < 12 * BLOCK_SIZE := by
    show ¬ _ < (12 : Int) * 1024
    omega
  have h2 : cdiv (s.open_file_descriptor_table h).write_pointer BLOCK_SIZE - 12 > INDIRECT_ENTRIES := by
    rw [cdiv_nonneg_eq (by omega)]
    show ((256 : Nat) : Int) < _ / (1024 : Int) - 12
    have : 269 ≤ (s.open_file_descriptor_table h).write_pointer / 1024 :=
      Int.le_ediv_of_mul_le (by decide) (by omega)
    omega
  rw [if_neg h1, if_neg hind, if_pos h2]

set_option maxRecDepth 100000 in
/-- C11 (fails): a write of one byte with the write cursor at 274432, the
maximum file size, returns 1 and allocates and writes a data block.  On a file
without an indirect block (`empty_at_max`) the branch that sets the indirect
block up has no size test: blocks 23 and 24 are taken and the byte lands in
block 24.  On a file with an indirect block (`indirect_at_max`) the block
index is 256, the test `block_index > 256` lets it through, block 25 is taken
and the byte lands there. -/
theorem sfs_fwrite_past_max_size :
    (empty_at_max.open_file_descriptor_table 1).write_pointer = 274432 ∧
    (sfs_fwrite empty_at_max stack0 1 [120] 1).1 = 1 ∧
    empty_at_max.data_block_bitmap 24 = 0 ∧
    (sfs_fwrite empty_at_max stack0 1 [120] 1).2.data_block_bitmap 24 = 1 ∧
    (sfs_fwrite empty_at_max stack0 1 [120] 1).2.disk.blocks 24 0 = 120 ∧
    (indirect_at_max.open_file_descriptor_table 1).write_pointer = 274432 ∧
    (indirect_at_max.inode_table 1).indirect_pointer = 23 ∧
    (sfs_fwrite indirect_at_max stack0 1 [121] 1).1 = 1 ∧
    indirect_at_max.data_block_bitmap 25 = 0 ∧
    (sfs_fwrite indirect_at_max stack0 1 [121] 1).2.data_block_bitmap 25 = 1 ∧
    (sfs_fwrite indirect_at_max stack0 1 [121] 1).2.disk.blocks 25 0 = 121 := by
  decide

/-! ## Removal -/

/-- The slot `sfs_remove` works on is 0 when no slot in 1..127 matches. -/
theorem remove_index_missing (s : FS) (file : List Char)
    (h : ∀ k : Int, 1 ≤ k → k < 128 → strncmp_eq (s.directory_table k).full_filename file = false) :
    remove_index s file = 0 := by
  have key : ∀ F : Int, (F = -1 ∨ (0 ≤ F ∧ F < 128 ∧
      strncmp_eq (s.directory_table F).full_filename file = true)) →
      (if F = -1 then 0 else F) = 0 := by
    intro F hF
    rcases hF with h1 | ⟨h1, h2, h3⟩
    · rw [if_pos h1]
    · by_cases h0 : F = 0
      · rw [h0]; rfl
      · rw [h F (by omega) h2] at h3
        exact absurd h3 (by simp)
  exact key (scan (fun i => strncmp_eq (s.directory_table i).full_filename file) MAX_INODES 0)
    (by
      rcases scan_spec (fun i => strncmp_eq (s.directory_table i).full_filename file) MAX_INODES 0
        with ⟨h1, -⟩ | ⟨h1, h2, h3, -⟩
      · exact Or.inl h1
      · exact Or.inr ⟨h1, by simpa using h2, h3⟩)

/-- The slot `sfs_remove` works on is the first slot that matches, when that
is not slot 0. -/
theorem remove_index_found (s : FS) (file : List Char) (k : Int) (hk1 : 1 ≤ k) (hk2 : k < 128)
    (hk : strncmp_eq (s.directory_table k).full_filename file = true)
    (h : ∀ j : Int, 0 ≤ j → j < k → strncmp_eq (s.directory_table j).full_filename file = false) :
    remove_index s file = k := by
  unfold remove_index
  dsimp only
  rw [scan_eq_of_first _ _ _ k (by omega) (by simpa using hk2) hk h, if_neg (by omega)]

/-- Removing a name that no slot in 1..127 holds returns -1 and changes
nothing. -/
theorem sfs_remove_missing (s : FS) (stack : Int → Int) (file : List Char)
    (h : ∀ k : Int, 1 ≤ k → k < 128 → strncmp_eq (s.directory_table k).full_filename file = false) :
    sfs_remove s stack file = (-1, s) := by
  unfold sfs_remove
  dsimp only
  rw [if_pos (remove_index_missing s file h)]

/-- Removing a name whose first match is slot `k` in 1..127 returns 0 and
works on slot `k`. -/
theorem sfs_remove_found (s : FS) (stack : Int → Int) (file : List Char) (k : Int)
    (hk1 : 1 ≤ k) (hk2 : k < 128)
    (hk : strncmp_eq (s.directory_table k).full_filename file = true)
    (h : ∀ j : Int, 0 ≤ j → j < k → strncmp_eq (s.directory_table j).full_filename file = false) :
    sfs_remove s stack file = (0, remove_entry s stack k) := by
  unfold sfs_remove
  dsimp only
  rw [remove_index_found s file k hk1 hk2 hk h, if_neg (by omega)]

set_option maxRecDepth 100000 in
/-- C12 (fails for the empty string): right after `mksfs(1)`, whatever the
state before, `sfs_remove("")` returns 0: the empty string matches the name of
the first free directory slot.  With files "a" and "b" created (`two_files`)
it returns 0 as well and writes the inode bitmap to the device, whose bit 2
changes from 0 to 1. -/
theorem sfs_remove_empty_name (s : FS) (stack : Int → Int) :
    (sfs_remove (mksfs s 1) stack []).1 = 0 ∧
    (sfs_remove two_files stack0 []).1 = 0 ∧
    two_files.disk.inode_bitmap 2 = 0 ∧
    (sfs_remove two_files stack0 []).2.disk.inode_bitmap 2 = 1 := by
  refine ⟨?_, by decide, by decide, by decide⟩
  rw [sfs_remove_found (mksfs s 1) stack [] 1 (by decide) (by decide)]
  · rw [(mksfs_fresh_fields s).2.2.2.1]; rfl
  · intro j h1 h2
    have : j = 0 := by omega
    subst this
    rw [(mksfs_fresh_fields s).2.2.2.1]; rfl

theorem erase_block_fields (s : FS) (p : Int) :
    (erase_block s p).inode_table = s.inode_table ∧
    (erase_block s p).directory_table = s.directory_table ∧
    (erase_block s p).open_file_descriptor_table = s.open_file_descriptor_table ∧
    (erase_block s p).current_directory = s.current_directory ∧
    (erase_block s p).inode_bitmap = s.inode_bitmap ∧
    (erase_block s p).data_block_bitmap = Function.update s.data_block_bitmap p 0 ∧
    (erase_block s p).disk = write_block s.disk p eraser := by
  simp only [erase_block, set_bit_0, show ("data" : String) ≠ "inode" by decide, if_false, if_true,
    and_self]

theorem erase_frame_refl (s : FS) : EraseFrame s s :=
  ⟨rfl, rfl, rfl, rfl, fun _ => Or.inl rfl, fun _ h => h, rfl, rfl, rfl, rfl, rfl,
    fun _ => Or.inl rfl, fun _ h => h⟩

theorem erase_frame_trans {a b c : FS} (h1 : EraseFrame a b) (h2 : EraseFrame b c) :
    EraseFrame a c where
  directory_table := h2.directory_table.trans h1.directory_table
  open_table := h2.open_table.trans h1.open_table
  cursor := h2.cursor.trans h1.cursor
  inode_bitmap := h2.inode_bitmap.trans h1.inode_bitmap
  bits := fun b => by
    rcases h2.bits b with h | h
    · rw [h]; exact h1.bits b
    · exact Or.inr h
  zero_bits := fun b h => h2.zero_bits b (h1.zero_bits b h)
  disk_super := h2.disk_super.trans h1.disk_super
  disk_inode_table := h2.disk_inode_table.trans h1.disk_inode_table
  disk_inode_bitmap := h2.disk_inode_bitmap.trans h1.disk_inode_bitmap
  disk_data_bitmap := h2.disk_data_bitmap.trans h1.disk_data_bitmap
  disk_directory := h2.disk_directory.trans h1.disk_directory
  blocks := fun b => by
    rcases h2.blocks b with h | h
    · rw [h]; exact h1.blocks b
    · exact Or.inr h
  zero_blocks := fun b h => h2.zero_blocks b (h1.zero_blocks b h)

theorem write_block_blocks (d : DISK) (p : Int) (buf : Block) (b : Int) :
    (write_block d p buf).blocks b = if b = p ∧ 0 ≤ p ∧ p < 1024 then buf else d.blocks b := by
  unfold write_block
  by_cases hp : 0 ≤ p ∧ p < 1024
  · rw [if_pos hp]
    by_cases hb : b = p
    · rw [if_pos ⟨hb, hp⟩, hb]; exact Function.update_same _ _ _
    · rw [if_neg (fun h => hb h.1)]; exact Function.update_noteq hb _ _
  · rw [if_neg hp, if_neg (fun h => hp h.2)]

theorem erase_block_frame (s : FS) (p : Int) : EraseFrame s (erase_block s p) := by
  obtain ⟨h1, h2, h3, h4, h5, h6, h7⟩ := erase_block_fields s p
  have hw := write_block_fields s.disk p eraser
  refine ⟨h2, h3, h4, h5, fun b => ?_, fun b hb => ?_, ?_, ?_, ?_, ?_, ?_, fun b => ?_,
    fun b hb => ?_⟩
  · rw [h6]
    by_cases hb : b = p
    · right; rw [hb, Function.update_same]
    · left; rw [Function.update_noteq hb]
  · rw [h6]
    by_cases hbp : b = p
    · rw [hbp, Function.update_same]
    · rw [Function.update_noteq hbp]; exact hb
  · rw [h7]; exact hw.1
  · rw [h7]; exact hw.2.1
  · rw [h7]; exact hw.2.2.1
  · rw [h7]; exact hw.2.2.2.1
  · rw [h7]; exact hw.2.2.2.2
  · rw [h7, write_block_blocks]
    split_ifs
    · exact Or.inr rfl
    · exact Or.inl rfl
  · rw [h7, write_block_blocks]
    split_ifs
    · rfl
    · exact hb

/-- The block `p` is erased and its bit cleared by `erase_block`. -/
theorem erase_block_at (s : FS) (p : Int) :
    (erase_block s p).data_block_bitmap p = 0 ∧
    (0 ≤ p → p < 1024 → (erase_block s p).disk.blocks p = eraser) := by
  obtain ⟨-, -, -, -, -, h6, h7⟩ := erase_block_fields s p
  refine ⟨by rw [h6, Function.update_same], fun h1 h2 => ?_⟩
  rw [h7, write_block_blocks, if_pos ⟨rfl, h1, h2⟩]

/-- The loop over the indirect entries: every non-zero entry among the first
`n` has its bit cleared and, when it is a block of the device, its block
erased. -/
theorem erase_indirect_upto (buf : Int → Int) (n : Nat) (s : FS) :
    EraseFrame s ((List.range n).foldl (fun (s : FS) (i : Nat) =>
      if buf (i : Int) ≠ 0 then erase_block s (buf (i : Int)) else s) s) ∧
    ∀ e : Nat, e < n → buf e ≠ 0 →
      ((List.range n).foldl (fun (s : FS) (i : Nat) =>
        if buf (i : Int) ≠ 0 then erase_block s (buf (i : Int)) else s) s).data_block_bitmap (buf e) = 0 ∧
      (0 ≤ buf e → buf e < 1024 →
        ((List.range n).foldl (fun (s : FS) (i : Nat) =>
          if buf (i : Int) ≠ 0 then erase_block s (buf (i : Int)) else s) s).disk.blocks (buf e)
          = eraser) := by
  induction n with
  | zero => exact ⟨erase_frame_refl s, fun e he => absurd he (Nat.not_lt_zero e)⟩
  | succ n ih =>
    rw [List.range_succ, List.foldl_append]
    simp only [List.foldl_cons, List.foldl_nil]
    obtain ⟨ih1, ih2⟩ := ih
    generalize (List.range n).foldl (fun (s : FS) (i : Nat) =>
      if buf (i : Int) ≠ 0 then erase_block s (buf (i : Int)) else s) s = t at ih1 ih2 ⊢
    by_cases hn : buf (n : Int) ≠ 0
    · rw [if_pos hn]
      have hf := erase_block_frame t (buf n)
      refine ⟨erase_frame_trans ih1 hf, fun e he hne => ?_⟩
      by_cases hen : e = n
      · rw [hen]; exact erase_block_at t (buf n)
      · obtain ⟨g1, g2⟩ := ih2 e (by omega) hne
        exact ⟨hf.zero_bits _ g1, fun h1 h2 => hf.zero_blocks _ (g2 h1 h2)⟩
    · rw [if_neg hn]
      refine ⟨ih1, fun e he hne => ?_⟩
      by_cases hen : e = n
      · rw [hen] at hne; exact absurd hne hn
      · exact ih2 e (by omega) hne

theorem erase_indirect_inode_table (buf : Int → Int) (n : Nat) (s : FS) :
    ((List.range n).foldl (fun (s : FS) (i : Nat) =>
      if buf (i : Int) ≠ 0 then erase_block s (buf (i : Int)) else s) s).inode_table
      = s.inode_table := by
  induction n with
  | zero => rfl
  | succ n ih =>
    rw [List.range_succ, List.foldl_append]
    simp only [List.foldl_cons, List.foldl_nil]
    split_ifs
    · rw [(erase_block_fields _ _).1, ih]
    · exact ih

theorem erase_indirect_spec (s : FS) (buf : Int → Int) :
    EraseFrame s (erase_indirect s buf) ∧ (erase_indirect s buf).inode_table = s.inode_table ∧
    ∀ e : Nat, e < 256 → buf e ≠ 0 →
      (erase_indirect s buf).data_block_bitmap (buf e) = 0 ∧
      (0 ≤ buf e → buf e < 1024 → (erase_indirect s buf).disk.blocks (buf e) = eraser) :=
  ⟨(erase_indirect_upto buf 256 s).1, erase_indirect_inode_table buf 256 s,
    (erase_indirect_upto buf 256 s).2⟩

theorem set_pointer_frame (s : FS) (inode idx v : Int) : EraseFrame s (set_pointer s inode idx v) :=
  ⟨rfl, rfl, rfl, rfl, fun _ => Or.inl rfl, fun _ h => h, rfl, rfl, rfl, rfl, rfl,
    fun _ => Or.inl rfl, fun _ h => h⟩

/-- The loop over the direct pointers after `n` rounds. -/
theorem erase_direct_upto (i : Int) (s : FS) (n : Nat) :
    EraseFrame s ((List.range n).foldl (fun (s : FS) (k : Nat) =>
      if (s.inode_table i).pointers (k : Int) ≠ 0 then
        set_pointer (erase_block s ((s.inode_table i).pointers (k : Int))) i (k : Int) 0
      else s) s) ∧
    (∀ j : Int, j ≠ i → ((List.range n).foldl (fun (s : FS) (k : Nat) =>
      if (s.inode_table i).pointers (k : Int) ≠ 0 then
        set_pointer (erase_block s ((s.inode_table i).pointers (k : Int))) i (k : Int) 0
      else s) s).inode_table j = s.inode_table j) ∧
    ((List.range n).foldl (fun (s : FS) (k : Nat) =>
      if (s.inode_table i).pointers (k : Int) ≠ 0 then
        set_pointer (erase_block s ((s.inode_table i).pointers (k : Int))) i (k : Int) 0
      else s) s).inode_table i =
      { (s.inode_table i) with
        pointers := fun m => if 0 ≤ m ∧ m < n then 0 else (s.inode_table i).pointers m } ∧
    ∀ m : Nat, m < n → (s.inode_table i).pointers m ≠ 0 →
      ((List.range n).foldl (fun (s : FS) (k : Nat) =>
        if (s.inode_table i).pointers (k : Int) ≠ 0 then
          set_pointer (erase_block s ((s.inode_table i).pointers (k : Int))) i (k : Int) 0
        else s) s).data_block_bitmap ((s.inode_table i).pointers m) = 0 ∧
      (0 ≤ (s.inode_table i).pointers m → (s.inode_table i).pointers m < 1024 →
        ((List.range n).foldl (fun (s : FS) (k : Nat) =>
          if (s.inode_table i).pointers (k : Int) ≠ 0 then
            set_pointer (erase_block s ((s.inode_table i).pointers (k : Int))) i (k : Int) 0
          else s) s).disk.blocks ((s.inode_table i).pointers m) = eraser) := by
  induction n with
  | zero =>
    refine ⟨erase_frame_refl s, fun _ _ => rfl, ?_, fun e he => absurd he (Nat.not_lt_zero e)⟩
    show s.inode_table i = _
    have : (fun m : Int => if 0 ≤ m ∧ m < ((0 : Nat) : Int) then 0 else (s.inode_table i).pointers m)
        = (s.inode_table i).pointers := by
      funext m
      rw [if_neg (by simp)]
    rw [this]
  | succ n ih =>
    rw [List.range_succ, List.foldl_append]
    simp only [List.foldl_cons, List.foldl_nil]
    obtain ⟨ih1, ih2, ih3, ih4⟩ := ih
    generalize (List.range n).foldl (fun (s : FS) (k : Nat) =>
      if (s.inode_table i).pointers (k : Int) ≠ 0 then
        set_pointer (erase_block s ((s.inode_table i).pointers (k : Int))) i (k : Int) 0
      else s) s = t at ih1 ih2 ih3 ih4 ⊢
    have hp : (t.inode_table i).pointers (n : Int) = (s.inode_table i).pointers n := by
      rw [ih3]
      show (if 0 ≤ (n : Int) ∧ (n : Int) < (n : Int) then 0 else (s.inode_table i).pointers n) = _
      rw [if_neg (by omega)]
    rw [hp]
    have hfun : (fun m : Int => if 0 ≤ m ∧ m < ((n + 1 : Nat) : Int) then 0
        else (s.inode_table i).pointers m) =
        Function.update (fun m : Int => if 0 ≤ m ∧ m < (n : Int) then 0
          else (s.inode_table i).pointers m) n 0 := by
      funext m
      by_cases hm : m = n
      · rw [hm, Function.update_same, if_pos (by push_cast; omega)]
      · rw [Function.update_noteq hm]
        by_cases h : 0 ≤ m ∧ m < (n : Int)
        · rw [if_pos h, if_pos (by push_cast; omega)]
        · rw [if_neg h, if_neg (by push_cast; omega)]
    by_cases hn : (s.inode_table i).pointers (n : Int) ≠ 0
    · rw [if_pos hn]
      have hf := erase_block_frame t ((s.inode_table i).pointers n)
      have hf2 := set_pointer_frame (erase_block t ((s.inode_table i).pointers n)) i n 0
      have hb := erase_block_at t ((s.inode_table i).pointers n)
      have hit := (erase_block_fields t ((s.inode_table i).pointers n)).1
      refine ⟨erase_frame_trans ih1 (erase_frame_trans hf hf2), fun j hj => ?_, ?_,
        fun e he hne => ?_⟩
      · show Function.update _ _ _ j = _
        rw [Function.update_noteq hj, hit]; exact ih2 j hj
      · show Function.update _ _ _ i = _
        rw [Function.update_same, hit, ih3, hfun]
      · by_cases hen : e = n
        · rw [hen]
          exact ⟨hf2.zero_bits _ hb.1, fun h1 h2 => hf2.zero_blocks _ (hb.2 h1 h2)⟩
        · obtain ⟨g1, g2⟩ := ih4 e (by omega) hne
          exact ⟨hf2.zero_bits _ (hf.zero_bits _ g1),
            fun h1 h2 => hf2.zero_blocks _ (hf.zero_blocks _ (g2 h1 h2))⟩
    · rw [if_neg hn]
      have hn0 : (s.inode_table i).pointers (n : Int) = 0 := not_not.mp hn
      refine ⟨ih1, ih2, ?_, fun e he hne => ?_⟩
      · rw [ih3, hfun]
        have : Function.update (fun m : Int => if 0 ≤ m ∧ m < (n : Int) then 0
            else (s.inode_table i).pointers m) n 0 =
            (fun m : Int => if 0 ≤ m ∧ m < (n : Int) then 0 else (s.inode_table i).pointers m) := by
          funext m
          by_cases hm : m = n
          · rw [hm, Function.update_same, if_neg (by omega), hn0]
          · rw [Function.update_noteq hm]
        rw [this]
      · by_cases hen : e = n
        · rw [hen] at hne; exact absurd hne hn
        · exact ih4 e (by omega) hne

theorem remove_unlink_fields (s : FS) (k : Int) :
    (remove_unlink s k).directory_table =
      Function.update s.directory_table k { full_filename := [], inode_pointer := 0 } ∧
    (remove_unlink s k).open_file_descriptor_table =
      (if (s.open_file_descriptor_table k).inode_pointer = (s.directory_table k).inode_pointer then
        Function.update s.open_file_descriptor_table k
          { inode_pointer := 0, read_pointer := 0, write_pointer := 0 }
      else s.open_file_descriptor_table) ∧
    (remove_unlink s k).inode_table =
      Function.update s.inode_table (s.directory_table k).inode_pointer
        { (s.inode_table (s.directory_table k).inode_pointer) with gid := 0 } ∧
    (remove_unlink s k).inode_bitmap = s.inode_bitmap ∧
    (remove_unlink s k).data_block_bitmap = s.data_block_bitmap ∧
    (remove_unlink s k).current_directory = s.current_directory ∧
    (remove_unlink s k).disk = s.disk := by
  unfold remove_unlink
  dsimp only
  refine ⟨?_, ?_, ?_, ?_, ?_, ?_, ?_⟩
  · split_ifs <;> simp only [Function.update_same, Function.update_idem]
  · split_ifs <;> rfl
  · split_ifs <;> rfl
  · split_ifs <;> rfl
  · split_ifs <;> rfl
  · split_ifs <;> rfl
  · split_ifs <;> rfl

theorem set_bit_0_data_frame (s : FS) (p : Int) :
    EraseFrame s (set_bit_0 s "data" p) ∧ (set_bit_0 s "data" p).data_block_bitmap p = 0 ∧
    (set_bit_0 s "data" p).inode_table = s.inode_table ∧ (set_bit_0 s "data" p).disk = s.disk := by
  have e : set_bit_0 s "data" p =
      { s with data_block_bitmap := Function.update s.data_block_bitmap p 0 } := by
    simp only [set_bit_0, show ("data" : String) ≠ "inode" by decide, if_false, if_true]
  rw [e]
  refine ⟨⟨rfl, rfl, rfl, rfl, fun b => ?_, fun b hb => ?_, rfl, rfl, rfl, rfl, rfl,
    fun _ => Or.inl rfl, fun _ h => h⟩, Function.update_same _ _ _, rfl, rfl⟩
  · show Function.update _ _ _ b = _ ∨ Function.update _ _ _ b = _
    by_cases hb : b = p
    · right; rw [hb, Function.update_same]
    · left; rw [Function.update_noteq hb]
  · show Function.update _ _ _ b = _
    by_cases hbp : b = p
    · rw [hbp, Function.update_same]
    · rw [Function.update_noteq hbp]; exact hb

/-- The indirect part of `sfs_remove`. -/
theorem remove_indirect_spec (s : FS) (stack : Int → Int) (i : Int) :
    EraseFrame s (remove_indirect s stack i) ∧
    (∀ j : Int, j ≠ i → (remove_indirect s stack i).inode_table j = s.inode_table j) ∧
    (remove_indirect s stack i).inode_table i =
      { (s.inode_table i) with indirect_pointer := 0, link_cnt := 0, mode := 0 } ∧
    ((s.inode_table i).indirect_pointer ≠ 0 →
      (remove_indirect s stack i).data_block_bitmap (s.inode_table i).indirect_pointer = 0 ∧
      ∀ e : Nat, e < 256 → read_indirect s.disk (s.inode_table i).indirect_pointer stack e ≠ 0 →
        (remove_indirect s stack i).data_block_bitmap
          (read_indirect s.disk (s.inode_table i).indirect_pointer stack e) = 0 ∧
        (0 ≤ read_indirect s.disk (s.inode_table i).indirect_pointer stack e →
          read_indirect s.disk (s.inode_table i).indirect_pointer stack e < 1024 →
          (remove_indirect s stack i).disk.blocks
            (read_indirect s.disk (s.inode_table i).indirect_pointer stack e) = eraser)) := by
  unfold remove_indirect
  dsimp only
  by_cases hip : (s.inode_table i).indirect_pointer ≠ 0
  · simp only [if_pos hip]
    obtain ⟨f1, f2, f3⟩ := erase_indirect_spec s
      (read_indirect s.disk (s.inode_table i).indirect_pointer stack)
    obtain ⟨g1, g2, g3, g4⟩ := set_bit_0_data_frame
      (erase_indirect s (read_indirect s.disk (s.inode_table i).indirect_pointer stack))
      (s.inode_table i).indirect_pointer
    have hf := erase_frame_trans f1 g1
    refine ⟨⟨hf.directory_table, hf.open_table, hf.cursor, hf.inode_bitmap, hf.bits, hf.zero_bits,
      hf.disk_super, hf.disk_inode_table, hf.disk_inode_bitmap, hf.disk_data_bitmap,
      hf.disk_directory, hf.blocks, hf.zero_blocks⟩, fun j hj => ?_, ?_, fun _ => ⟨g2, fun e he hne => ?_⟩⟩
    · show Function.update _ _ _ j = _
      rw [Function.update_noteq hj, g3, f2]
    · show Function.update _ _ _ i = _
      rw [Function.update_same, g3, f2]
    · obtain ⟨k1, k2⟩ := f3 e he hne
      refine ⟨g1.zero_bits _ k1, fun h1 h2 => ?_⟩
      show (set_bit_0 _ _ _).disk.blocks _ = _
      rw [g4]; exact k2 h1 h2
  · simp only [if_neg hip]
    refine ⟨⟨rfl, rfl, rfl, rfl, fun _ => Or.inl rfl, fun _ h => h, rfl, rfl, rfl, rfl, rfl,
      fun _ => Or.inl rfl, fun _ h => h⟩, fun j hj => ?_, ?_, fun h => absurd h hip⟩
    · show Function.update _ _ _ j = _
      rw [Function.update_noteq hj]
    · show Function.update _ _ _ i = _
      rw [Function.update_same]

theorem erase_direct_spec (s : FS) (i : Int) :
    EraseFrame s (erase_direct s i) ∧
    (∀ j : Int, j ≠ i → (erase_direct s i).inode_table j = s.inode_table j) ∧
    (erase_direct s i).inode_table i =
      { (s.inode_table i) with
        pointers := fun m => if 0 ≤ m ∧ m < 12 then 0 else (s.inode_table i).pointers m } ∧
    ∀ m : Nat, m < 12 → (s.inode_table i).pointers m ≠ 0 →
      (erase_direct s i).data_block_bitmap ((s.inode_table i).pointers m) = 0 ∧
      (0 ≤ (s.inode_table i).pointers m → (s.inode_table i).pointers m < 1024 →
        (erase_direct s i).disk.blocks ((s.inode_table i).pointers m) = eraser) :=
  erase_direct_upto i s 12

/-- The direct part of `sfs_remove`. -/
theorem remove_direct_spec (s : FS) (i : Int) :
    (remove_direct s i).directory_table = s.directory_table ∧
    (remove_direct s i).open_file_descriptor_table = s.open_file_descriptor_table ∧
    (remove_direct s i).current_directory = s.current_directory ∧
    (remove_direct s i).inode_bitmap = Function.update s.inode_bitmap i 0 ∧
    (remove_direct s i).data_block_bitmap = (erase_direct s i).data_block_bitmap ∧
    (remove_direct s i).disk = (erase_direct s i).disk ∧
    (∀ j : Int, j ≠ i → (remove_direct s i).inode_table j = s.inode_table j) ∧
    (remove_direct s i).inode_table i =
      { (s.inode_table i) with
        uid := 0,
        pointers := fun m => if 0 ≤ m ∧ m < 12 then 0 else (s.inode_table i).pointers m } := by
  obtain ⟨f1, f2, f3, -⟩ := erase_direct_spec s i
  have e : remove_direct s i =
      { (erase_direct s i) with
        inode_table := Function.update (erase_direct s i).inode_table i
          { ((erase_direct s i).inode_table i) with uid := 0 },
        inode_bitmap := Function.update (erase_direct s i).inode_bitmap i 0 } := by
    simp only [remove_direct, set_bit_0, if_true]
  rw [e]
  refine ⟨f1.directory_table, f1.open_table, f1.cursor, ?_, rfl, rfl, fun j hj => ?_, ?_⟩
  · show Function.update _ _ _ = _
    rw [f1.inode_bitmap]
  · show Function.update _ _ _ j = _
    rw [Function.update_noteq hj]; exact f2 j hj
  · show Function.update _ _ _ i = _
    rw [Function.update_same, f3]

theorem remove_flush_fields (s : FS) :
    (remove_flush s).inode_table = s.inode_table ∧
    (remove_flush s).directory_table = s.directory_table ∧
    (remove_flush s).open_file_descriptor_table = s.open_file_descriptor_table ∧
    (remove_flush s).current_directory = s.current_directory ∧
    (remove_flush s).inode_bitmap = s.inode_bitmap ∧
    (remove_flush s).data_block_bitmap = s.data_block_bitmap ∧
    (remove_flush s).disk.inode_table = s.disk.inode_table ∧
    (remove_flush s).disk.inode_bitmap = s.inode_bitmap ∧
    (remove_flush s).disk.data_block_bitmap = s.data_block_bitmap ∧
    (remove_flush s).disk.directory_table = s.directory_table ∧
    (remove_flush s).disk.blocks = s.disk.blocks ∧
    (remove_flush s).disk.super_block = s.disk.super_block :=
  ⟨rfl, rfl, rfl, rfl, rfl, rfl, rfl, rfl, rfl, rfl, rfl, rfl⟩

/-- What `sfs_remove` does to slot `k` and to the inode `i` the slot names:
tables, bitmaps, and the blocks the inode referenced. -/
theorem remove_entry_spec (s : FS) (stack : Int → Int) (k : Int) :
    (remove_entry s stack k).directory_table =
      Function.update s.directory_table k { full_filename := [], inode_pointer := 0 } ∧
    (remove_entry s stack k).open_file_descriptor_table =
      (if (s.open_file_descriptor_table k).inode_pointer = (s.directory_table k).inode_pointer then
        Function.update s.open_file_descriptor_table k
          { inode_pointer := 0, read_pointer := 0, write_pointer := 0 }
      else s.open_file_descriptor_table) ∧
    (remove_entry s stack k).current_directory = s.current_directory ∧
    (remove_entry s stack k).inode_bitmap =
      Function.update s.inode_bitmap (s.directory_table k).inode_pointer 0 ∧
    (∀ j : Int, j ≠ (s.directory_table k).inode_pointer →
      (remove_entry s stack k).inode_table j = s.inode_table j) ∧
    (remove_entry s stack k).inode_table (s.directory_table k).inode_pointer =
      { mode := 0, link_cnt := 0, uid := 0, gid := 0,
        size := (s.inode_table (s.directory_table k).inode_pointer).size,
        pointers := fun m => if 0 ≤ m ∧ m < 12 then 0
          else (s.inode_table (s.directory_table k).inode_pointer).pointers m,
        indirect_pointer := 0 } ∧
    (∀ b : Int, (remove_entry s stack k).data_block_bitmap b = s.data_block_bitmap b ∨
      (remove_entry s stack k).data_block_bitmap b = 0) ∧
    (∀ b : Int, (remove_entry s stack k).disk.blocks b = s.disk.blocks b ∨
      (remove_entry s stack k).disk.blocks b = eraser) ∧
    (∀ m : Nat, m < 12 → (s.inode_table (s.directory_table k).inode_pointer).pointers m ≠ 0 →
      (remove_entry s stack k).data_block_bitmap
        ((s.inode_table (s.directory_table k).inode_pointer).pointers m) = 0 ∧
      (0 ≤ (s.inode_table (s.directory_table k).inode_pointer).pointers m →
        (s.inode_table (s.directory_table k).inode_pointer).pointers m < 1024 →
        (remove_entry s stack k).disk.blocks
          ((s.inode_table (s.directory_table k).inode_pointer).pointers m) = eraser)) ∧
    ((s.inode_table (s.directory_table k).inode_pointer).indirect_pointer ≠ 0 →
      (remove_entry s stack k).data_block_bitmap
        (s.inode_table (s.directory_table k).inode_pointer).indirect_pointer = 0 ∧
      ∀ e : Nat, e < 256 →
        read_indirect s.disk (s.inode_table (s.directory_table k).inode_pointer).indirect_pointer
          stack e ≠ 0 →
        (remove_entry s stack k).data_block_bitmap
          (read_indirect s.disk (s.inode_table (s.directory_table k).inode_pointer).indirect_pointer
            stack e) = 0 ∧
        (0 ≤ read_indirect s.disk
            (s.inode_table (s.directory_table k).inode_pointer).indirect_pointer stack e →
          read_indirect s.disk
            (s.inode_table (s.directory_table k).inode_pointer).indirect_pointer stack e < 1024 →
          (remove_entry s stack k).disk.blocks
            (read_indirect s.disk (s.inode_table (s.directory_table k).inode_pointer).indirect_pointer
              stack e) = eraser)) ∧
    (remove_entry s stack k).disk.inode_table = s.disk.inode_table ∧
    (remove_entry s stack k).disk.inode_bitmap = (remove_entry s stack k).inode_bitmap ∧
    (remove_entry s stack k).disk.data_block_bitmap = (remove_entry s stack k).data_block_bitmap ∧
    (remove_entry s stack k).disk.directory_table = (remove_entry s stack k).directory_table := by
  obtain ⟨u1, u2, u3, u4, u5, u6, u7⟩ := remove_unlink_fields s k
  generalize hi : (s.directory_table k).inode_pointer = i at *
  have hu_i : (remove_unlink s k).inode_table i = { (s.inode_table i) with gid := 0 } := by
    rw [u3, Function.update_same]
  have hu_ip : ((remove_unlink s k).inode_table i).indirect_pointer =
      (s.inode_table i).indirect_pointer := by rw [hu_i]
  have hu_pt : ((remove_unlink s k).inode_table i).pointers = (s.inode_table i).pointers := by
    rw [hu_i]
  obtain ⟨a1, a2, a3, a4⟩ := remove_indirect_spec (remove_unlink s k) stack i
  rw [hu_ip, u7] at a4
  have ha_pt : ((remove_indirect (remove_unlink s k) stack i).inode_table i).pointers =
      (s.inode_table i).pointers := by rw [a3, ← hu_pt]
  obtain ⟨d1, d2, d3, d4, d5, d6, d7, d8⟩ :=
    remove_direct_spec (remove_indirect (remove_unlink s k) stack i) i
  obtain ⟨c1, -, -, c4⟩ := erase_direct_spec (remove_indirect (remove_unlink s k) stack i) i
  rw [ha_pt] at c4
  obtain ⟨f1, f2, f3, f4, f5, f6, f7, f8, f9, f10, f11, f12⟩ :=
    remove_flush_fields (remove_direct (remove_indirect (remove_unlink s k) stack i) i)
  have e : remove_entry s stack k =
      remove_flush (remove_direct (remove_indirect (remove_unlink s k) stack i) i) := by
    unfold remove_entry; dsimp only; rw [hi]
  rw [e]
  refine ⟨?_, ?_, ?_, ?_, fun j hj => ?_, ?_, fun b => ?_, fun b => ?_, fun m hm hne => ?_,
    fun hip => ?_, ?_, ?_, ?_, ?_⟩
  · rw [f2, d1, a1.directory_table, u1]
  · rw [f3, d2, a1.open_table, u2]
  · rw [f4, d3, a1.cursor, u6]
  · rw [f5, d4, a1.inode_bitmap, u4]
  · rw [f1, d7 j hj, a2 j hj, u3, Function.update_noteq hj]
  · rw [f1, d8, a3, hu_i]
  · rw [f6, d5]
    rcases c1.bits b with h | h
    · rw [h]
      rcases a1.bits b with h' | h'
      · rw [h', u5]; exact Or.inl rfl
      · exact Or.inr h'
    · exact Or.inr h
  · rw [f11, d6]
    rcases c1.blocks b with h | h
    · rw [h]
      rcases a1.blocks b with h' | h'
      · rw [h', u7]; exact Or.inl rfl
      · exact Or.inr h'
    · exact Or.inr h
  · rw [f6, d5, f11, d6]
    exact c4 m hm hne
  · obtain ⟨g1, g2⟩ := a4 hip
    rw [f6, d5, f11, d6]
    refine ⟨c1.zero_bits _ g1, fun e he hne => ?_⟩
    obtain ⟨g3, g4⟩ := g2 e he hne
    exact ⟨c1.zero_bits _ g3, fun h1 h2 => c1.zero_blocks _ (g4 h1 h2)⟩
  · rw [f7, d6, c1.disk_inode_table, a1.disk_inode_table, u7]
  · rw [f8, f5]
  · rw [f9, f6]
  · rw [f10, f2]

theorem strncmp_eq_comm (a b : List Char) : strncmp_eq a b = strncmp_eq b a := by
  unfold strncmp_eq
  rw [Bool.eq_iff_iff]
  simp only [beq_iff_eq]
  exact eq_comm

theorem strncmp_eq_nil {a : List Char} (h : a ≠ []) : strncmp_eq a [] = false := by
  cases a with
  | nil => exact absurd rfl h
  | cons c cs => rfl

/-- No slot matches: `sfs_getfilesize` returns 0. -/
theorem sfs_getfilesize_missing (s : FS) (path : List Char)
    (h : ∀ j : Int, 0 ≤ j → j < 128 → strncmp_eq path (s.directory_table j).full_filename = false) :
    sfs_getfilesize s path = 0 := by
  unfold sfs_getfilesize
  dsimp only
  have : scan (fun i => strncmp_eq path (s.directory_table i).full_filename) MAX_INODES 0 = -1 := by
    rw [scan_eq_neg_one_iff _ _ _ (le_refl _)]
    intro j h1 h2
    exact h j h1 (by simpa using h2)
  rw [this]
  rfl

set_option maxRecDepth 100000 in
/-- Counterexample to C13 as worded: a file named "root" cannot be removed.
After `mksfs(1)` from program start, `sfs_fopen("root")` creates the file in
slot 1 with inode 1 (its search starts at slot 1); the search of
`sfs_remove("root")` starts at slot 0, finds the name of the reserved entry
there, and the call returns -1: the directory entry, the open-file slot and
inode bit 1 stay as they were. -/
theorem sfs_remove_root_file :
    (sfs_fopen (mksfs boot 1) "root".toList).1 = 1 ∧
    (root_file.directory_table 1).full_filename = "root".toList ∧
    (root_file.directory_table 1).inode_pointer = 1 ∧
    (root_file.inode_table 1).mode = 1 ∧
    root_file.inode_bitmap 1 = 1 ∧
    (root_file.open_file_descriptor_table 1).inode_pointer = 1 ∧
    (sfs_remove root_file stack0 "root".toList).1 = -1 ∧
    ((sfs_remove root_file stack0 "root".toList).2.directory_table 1).full_filename
      = "root".toList ∧
    ((sfs_remove root_file stack0 "root".toList).2.directory_table 1).inode_pointer = 1 ∧
    ((sfs_remove root_file stack0 "root".toList).2.open_file_descriptor_table 1).inode_pointer
      = 1 ∧
    (sfs_remove root_file stack0 "root".toList).2.inode_bitmap 1 = 1 := by
  decide

/-- C13 (amended): `sfs_remove` releases everything the file held, for every
file whose name is not the empty string and is not the name held by directory
slot 0 (the reserved entry "root"), that is held by slot `k` in 1..127 and by
no other slot in 1..127, with inode `i`, and whose open-file slot `k` is either
empty or names inode `i`: `sfs_remove(name)` returns 0; afterwards directory
slot `k` has the empty name and inode pointer 0, open-file slot `k` is empty,
inode bit `i` is 0, the data bit of every non-zero direct pointer is 0, the
data bit of the indirect block and of every non-zero entry stored in it are 0,
and `sfs_getfilesize(name)` returns 0. -/
theorem sfs_remove_releases (s : FS) (stack : Int → Int) (name : List Char) (k : Int)
    (hk1 : 1 ≤ k) (hk2 : k < 128) (hname : name ≠ [])
    (hroot : strncmp_eq (s.directory_table 0).full_filename name = false)
    (hmatch : strncmp_eq (s.directory_table k).full_filename name = true)
    (huniq : ∀ j : Int, 1 ≤ j → j < 128 → j ≠ k →
      strncmp_eq (s.directory_table j).full_filename name = false)
    (hopen : (s.open_file_descriptor_table k).inode_pointer ≠ 0 →
      (s.open_file_descriptor_table k).inode_pointer = (s.directory_table k).inode_pointer) :
    (sfs_remove s stack name).1 = 0 ∧
    (sfs_remove s stack name).2.directory_table k = { full_filename := [], inode_pointer := 0 } ∧
    ((sfs_remove s stack name).2.open_file_descriptor_table k).inode_pointer = 0 ∧
    (sfs_remove s stack name).2.inode_bitmap (s.directory_table k).inode_pointer = 0 ∧
    (∀ m : Nat, m < 12 → (s.inode_table (s.directory_table k).inode_pointer).pointers m ≠ 0 →
      (sfs_remove s stack name).2.data_block_bitmap
        ((s.inode_table (s.directory_table k).inode_pointer).pointers m) = 0) ∧
    ((s.inode_table (s.directory_table k).inode_pointer).indirect_pointer ≠ 0 →
      (sfs_remove s stack name).2.data_block_bitmap
        (s.inode_table (s.directory_table k).inode_pointer).indirect_pointer = 0) ∧
    (0 < (s.inode_table (s.directory_table k).inode_pointer).indirect_pointer →
      (s.inode_table (s.directory_table k).inode_pointer).indirect_pointer < 1024 →
      ∀ e : Nat, e < 256 →
        block_int (s.disk.blocks (s.inode_table (s.directory_table k).inode_pointer).indirect_pointer)
          e ≠ 0 →
        (sfs_remove s stack name).2.data_block_bitmap
          (block_int
            (s.disk.blocks (s.inode_table (s.directory_table k).inode_pointer).indirect_pointer) e)
          = 0) ∧
    sfs_getfilesize (sfs_remove s stack name).2 name = 0 := by
  have hall : ∀ j : Int, 0 ≤ j → j < 128 → j ≠ k →
      strncmp_eq (s.directory_table j).full_filename name = false := by
    intro j h1 h2 hj
    by_cases h0 : j = 0
    · rw [h0]; exact hroot
    · exact huniq j (by omega) h2 hj
  rw [sfs_remove_found s stack name k hk1 hk2 hmatch
    (fun j h1 h2 => hall j h1 (by omega) (by omega))]
  obtain ⟨r1, r2, -, r4, -, -, -, -, r9, r10, -⟩ := remove_entry_spec s stack k
  refine ⟨rfl, ?_, ?_, ?_, fun m hm hne => (r9 m hm hne).1, fun hip => (r10 hip).1,
    fun hip1 hip2 e he hne => ?_, ?_⟩
  · show (remove_entry s stack k).directory_table k = _
    rw [r1, Function.update_same]
  · show ((remove_entry s stack k).open_file_descriptor_table k).inode_pointer = 0
    rw [r2]
    by_cases h : (s.open_file_descriptor_table k).inode_pointer = (s.directory_table k).inode_pointer
    · rw [if_pos h, Function.update_same]
    · rw [if_neg h]
      by_contra h0
      exact h (hopen h0)
  · show (remove_entry s stack k).inode_bitmap _ = 0
    rw [r4, Function.update_same]
  · have hread : read_indirect s.disk
        (s.inode_table (s.directory_table k).inode_pointer).indirect_pointer stack e =
        block_int
          (s.disk.blocks (s.inode_table (s.directory_table k).inode_pointer).indirect_pointer) e := by
      unfold read_indirect
      rw [if_pos ⟨by omega, hip2⟩]
      show (if 0 ≤ (e : Int) ∧ (e : Int) < ((256 : Nat) : Int) then _ else _) = _
      rw [if_pos ⟨by omega, by omega⟩, Int.toNat_ofNat]
    have := ((r10 (by omega)).2 e he (by rw [hread]; exact hne)).1
    rw [hread] at this
    exact this
  · apply sfs_getfilesize_missing
    intro j h1 h2
    show strncmp_eq name ((remove_entry s stack k).directory_table j).full_filename = false
    rw [r1, strncmp_eq_comm]
    by_cases hj : j = k
    · rw [hj, Function.update_same]
      show strncmp_eq [] name = false
      rw [strncmp_eq_comm]; exact strncmp_eq_nil hname
    · rw [Function.update_noteq hj]; exact hall j h1 h2 hj

set_option maxRecDepth 100000 in
/-- Removing "a" from `sample_file` (slot 1, inode 1, direct block 23,
indirect block 24 with entry 25) returns 0, clears the directory entry, the
open-file slot, inode bit 1 and data bits 23, 24 and 25, and the size of "a"
is then reported as 0. -/
theorem sfs_remove_releases_witness :
    (sfs_remove sample_file stack0 "a".toList).1 = 0 ∧
    (sfs_remove sample_file stack0 "a".toList).2.directory_table 1 =
      { full_filename := [], inode_pointer := 0 } ∧
    ((sfs_remove sample_file stack0 "a".toList).2.open_file_descriptor_table 1).inode_pointer = 0 ∧
    (sfs_remove sample_file stack0 "a".toList).2.inode_bitmap 1 = 0 ∧
    (sfs_remove sample_file stack0 "a".toList).2.data_block_bitmap 23 = 0 ∧
    (sfs_remove sample_file stack0 "a".toList).2.data_block_bitmap 24 = 0 ∧
    (sfs_remove sample_file stack0 "a".toList).2.data_block_bitmap 25 = 0 ∧
    sfs_getfilesize (sfs_remove sample_file stack0 "a".toList).2 "a".toList = 0 := by
  have h := sfs_remove_releases sample_file stack0 "a".toList 1 (by decide) (by decide) (by decide)
    (by decide) (by decide) (by decide) (by decide)
  have e1 : (sample_file.directory_table 1).inode_pointer = 1 := by decide
  have e2 : (sample_file.inode_table 1).pointers ((0 : Nat) : Int) = 23 := by decide
  have e3 : (sample_file.inode_table 1).indirect_pointer = 24 := by decide
  have e4 : block_int (sample_file.disk.blocks 24) 0 = 25 := by decide
  rw [e1, e3] at h
  obtain ⟨h1, h2, h3, h4, h5, h6, h7, h8⟩ := h
  have h5' := h5 0 (by decide) (by rw [e2]; decide)
  rw [e2] at h5'
  have h7' := h7 (by decide) (by decide) 0 (by decide) (by rw [e4]; decide)
  rw [e4] at h7'
  exact ⟨h1, h2, h3, h4, h5', h6 (by decide), h7', h8⟩

/-! ## Divergences of `sfs_remove`, `sfs_fread` and `write_to_block` -/

/-- The inode of a removed file: every field is reset except `size`, which
keeps its value. -/
theorem sfs_remove_inode_fields (s : FS) (stack : Int → Int) (file : List Char) (k : Int)
    (hk1 : 1 ≤ k) (hk2 : k < 128)
    (hk : strncmp_eq (s.directory_table k).full_filename file = true)
    (h : ∀ j : Int, 0 ≤ j → j < k → strncmp_eq (s.directory_table j).full_filename file = false) :
    (sfs_remove s stack file).2.inode_table (s.directory_table k).inode_pointer =
      { mode := 0, link_cnt := 0, uid := 0, gid := 0,
        size := (s.inode_table (s.directory_table k).inode_pointer).size,
        pointers := fun m => if 0 ≤ m ∧ m < 12 then 0
          else (s.inode_table (s.directory_table k).inode_pointer).pointers m,
        indirect_pointer := 0 } := by
  rw [sfs_remove_found s stack file k hk1 hk2 hk h]
  exact (remove_entry_spec s stack k).2.2.2.2.2.1

set_option maxRecDepth 100000 in
/-- C14 (fails for the indirect block): removing "a" from `sample_file`, whose
inode has indirect block 24 with first entry 25, returns 0 and clears data bit
24, but block 24 is not overwritten: its first byte is still 25, the entry it
held. -/
theorem sfs_remove_keeps_indirect_block :
    (sample_file.inode_table 1).indirect_pointer = 24 ∧
    sample_file.disk.blocks 24 0 = 25 ∧
    (sfs_remove sample_file stack0 "a".toList).1 = 0 ∧
    (sfs_remove sample_file stack0 "a".toList).2.data_block_bitmap 24 = 0 ∧
    (sfs_remove sample_file stack0 "a".toList).2.disk.blocks 24 0 = 25 := by
  decide

set_option maxRecDepth 100000 in
/-- C15 (fails for `size`): removing "a" from `sample_file` (inode 1, size
12289) returns 0 and resets mode, link count, uid, gid and the indirect
pointer of inode 1, but its size is still 12289. -/
theorem sfs_remove_keeps_size :
    (sample_file.directory_table 1).inode_pointer = 1 ∧
    (sfs_remove sample_file stack0 "a".toList).1 = 0 ∧
    ((sfs_remove sample_file stack0 "a".toList).2.inode_table 1).mode = 0 ∧
    ((sfs_remove sample_file stack0 "a".toList).2.inode_table 1).link_cnt = 0 ∧
    ((sfs_remove sample_file stack0 "a".toList).2.inode_table 1).uid = 0 ∧
    ((sfs_remove sample_file stack0 "a".toList).2.inode_table 1).gid = 0 ∧
    ((sfs_remove sample_file stack0 "a".toList).2.inode_table 1).indirect_pointer = 0 ∧
    ((sfs_remove sample_file stack0 "a".toList).2.inode_table 1).size = 12289 := by
  decide

set_option maxRecDepth 100000 in
/-- C17 (fails): after `mksfs(1); sfs_fopen("a"); sfs_remove("a")` from program
start, inode bit 1 is 0; the invariant asks for 1 at index 1. -/
theorem inode_bitmap_root_bit_cleared :
    (sfs_fopen (mksfs boot 1) "a".toList).1 = 1 ∧
    one_file.inode_bitmap 1 = 1 ∧
    (sfs_remove one_file stack0 "a".toList).1 = 0 ∧
    ((sfs_remove one_file stack0 "a".toList).2.inode_table 1).mode = 0 ∧
    (sfs_remove one_file stack0 "a".toList).2.inode_bitmap 1 = 0 := by
  decide

set_option maxRecDepth 100000 in
/-- C18 (fails): after `mksfs(1); sfs_fopen("a"); sfs_fwrite(1, "hello", 5);
sfs_remove("a"); mksfs(0)` from program start, inode 1 has mode 1 and direct
pointer 23, and data bit 23 is 0: a block referenced by an inode with non-zero
mode is marked free. -/
theorem data_bitmap_stale_after_remount :
    (sfs_fwrite one_file stack0 1 hello 5).1 = 5 ∧
    (sfs_remove (sfs_fwrite one_file stack0 1 hello 5).2 stack0 "a".toList).1 = 0 ∧
    (removed_then_remounted.inode_table 1).mode = 1 ∧
    (removed_then_remounted.inode_table 1).pointers 0 = 23 ∧
    removed_then_remounted.data_block_bitmap 23 = 0 := by
  decide

set_option maxRecDepth 100000 in
/-- C19 (fails): on `removed_then_remounted`, `sfs_fopen("b")` returns 1 and
gives the file inode 2, and `sfs_fwrite(1, "x", 1)` returns 1 and takes block
23; inodes 1 and 2 then both have non-zero mode and direct pointer 23. -/
theorem block_shared_after_remount :
    (sfs_fopen removed_then_remounted "b".toList).1 = 1 ∧
    ((sfs_fopen removed_then_remounted "b".toList).2.directory_table 1).inode_pointer = 2 ∧
    (sfs_fwrite (sfs_fopen removed_then_remounted "b".toList).2 stack0 1 [120] 1).1 = 1 ∧
    ((sfs_fwrite (sfs_fopen removed_then_remounted "b".toList).2 stack0 1 [120] 1).2.inode_table
      1).mode = 1 ∧
    ((sfs_fwrite (sfs_fopen removed_then_remounted "b".toList).2 stack0 1 [120] 1).2.inode_table
      2).mode = 1 ∧
    ((sfs_fwrite (sfs_fopen removed_then_remounted "b".toList).2 stack0 1 [120] 1).2.inode_table
      1).pointers 0 = 23 ∧
    ((sfs_fwrite (sfs_fopen removed_then_remounted "b".toList).2 stack0 1 [120] 1).2.inode_table
      2).pointers 0 = 23 := by
  decide

/-- A read at or beyond offset 12288 of a file without indirect block returns
-1. -/
theorem sfs_fread_missing_indirect (s : FS) (stack : Int → Int) (h n : Int)
    (hopen : (s.open_file_descriptor_table h).inode_pointer ≠ 0)
    (hr : 12288 ≤ (s.open_file_descriptor_table h).read_pointer)
    (hsz : (s.open_file_descriptor_table h).read_pointer <
      (s.inode_table (s.open_file_descriptor_table h).inode_pointer).size)
    (hn : 0 < n) (hrep : (s.open_file_descriptor_table h).read_pointer + n < 2147483648)
    (hind : (s.inode_table (s.open_file_descriptor_table h).inode_pointer).indirect_pointer = 0) :
    (sfs_fread s stack h n).1 = -1 := by
  have hw : wrap32 (n + (s.open_file_descriptor_table h).read_pointer) =
      n + (s.open_file_descriptor_table h).read_pointer := wrap32_of_range (by omega) (by omega)
  have hstep : ∀ (ib : Int → Int) (rem : Int),
      fread_step s (s.open_file_descriptor_table h) 0 ib
        { remaining := rem, bytes_read := 0,
          read_ptr_loc := (s.open_file_descriptor_table h).read_pointer, out := [] } = none := by
    intro ib rem
    unfold fread_step
    dsimp only
    rw [if_neg (show ¬ (s.open_file_descriptor_table h).read_pointer < 12 * BLOCK_SIZE by
      show ¬ _ < (12 : Int) * 1024; omega), if_pos rfl]
  unfold sfs_fread
  dsimp only
  rw [if_neg hopen, hw, hind]
  by_cases hgt : n + (s.open_file_descriptor_table h).read_pointer >
      (s.inode_table (s.open_file_descriptor_table h).inode_pointer).size
  · rw [if_pos hgt]
    obtain ⟨m, hm⟩ : ∃ m : Nat,
        ((s.inode_table (s.open_file_descriptor_table h).inode_pointer).size -
          (s.open_file_descriptor_table h).read_pointer).toNat = m + 1 :=
      ⟨((s.inode_table (s.open_file_descriptor_table h).inode_pointer).size -
          (s.open_file_descriptor_table h).read_pointer).toNat - 1, by omega⟩
    rw [hm, fread_loop_none _ _ _ _ _ _ _ (by show _ - _ > 0; omega) (hstep _ _)]
  · rw [if_neg hgt]
    obtain ⟨m, hm⟩ : ∃ m : Nat, n.toNat = m + 1 := ⟨n.toNat - 1, by omega⟩
    rw [hm, fread_loop_none _ _ _ _ _ _ _ hn (hstep _ _)]

set_option maxRecDepth 100000 in
/-- C22 (fails for a zero pointer): `hole_file` has size 1025 and first direct
pointer 0; a read of 10 bytes at offset 0 reaches that pointer and returns 10,
not -1 (the bytes come from block 0 of the device). -/
theorem sfs_fread_zero_pointer :
    (hole_file.inode_table 1).size = 1025 ∧
    (hole_file.inode_table 1).pointers 0 = 0 ∧
    (hole_file.open_file_descriptor_table 1).inode_pointer = 1 ∧
    (hole_file.open_file_descriptor_table 1).read_pointer = 0 ∧
    (sfs_fread hole_file stack0 1 10).1 = 10 := by
  decide

/-- A read that stays inside one block of the direct region and inside the
file returns its length and the bytes of the block the direct pointer names. -/
theorem sfs_fread_in_block (s : FS) (stack : Int → Int) (h n bp : Int)
    (hopen : (s.open_file_descriptor_table h).inode_pointer ≠ 0)
    (hr0 : 0 ≤ (s.open_file_descriptor_table h).read_pointer)
    (hr : (s.open_file_descriptor_table h).read_pointer < 12288) (hn : 0 < n)
    (hfit : (s.open_file_descriptor_table h).read_pointer % 1024 + n ≤ 1024)
    (hsz : (s.open_file_descriptor_table h).read_pointer + n ≤
      (s.inode_table (s.open_file_descriptor_table h).inode_pointer).size)
    (hbp : (s.inode_table (s.open_file_descriptor_table h).inode_pointer).pointers
      ((s.open_file_descriptor_table h).read_pointer / 1024) = bp)
    (h1 : 0 ≤ bp) (h2 : bp < 1024) :
    (sfs_fread s stack h n).1 = n ∧
    (sfs_fread s stack h n).2.1 =
      memcpy_from (s.disk.blocks bp) ((s.open_file_descriptor_table h).read_pointer % 1024) n := by
  have hw : wrap32 (n + (s.open_file_descriptor_table h).read_pointer) =
      n + (s.open_file_descriptor_table h).read_pointer := wrap32_of_range (by omega) (by omega)
  have hgt : ¬ (n + (s.open_file_descriptor_table h).read_pointer >
      (s.inode_table (s.open_file_descriptor_table h).inode_pointer).size) := by omega
  obtain ⟨m, hm⟩ : ∃ m : Nat, n.toNat = m + 1 := ⟨n.toNat - 1, by omega⟩
  have hmin : min (BLOCK_SIZE - (s.open_file_descriptor_table h).read_pointer % 1024) n = n := by
    rw [min_def]
    show (if (1024 : Int) - _ > n then n else (1024 : Int) - _) = n
    split_ifs <;> omega
  have hstep : ∀ (ip : Int) (ib : Int → Int),
      fread_step s (s.open_file_descriptor_table h) ip ib
        { remaining := n, bytes_read := 0,
          read_ptr_loc := (s.open_file_descriptor_table h).read_pointer, out := [] } =
      some { bytes_read := 0 + n, remaining := n - n,
             read_ptr_loc := wrap32 ((s.open_file_descriptor_table h).read_pointer + n),
             out := [] ++ memcpy_from (s.disk.blocks bp)
               ((s.open_file_descriptor_table h).read_pointer % 1024) n } := by
    intro ip ib
    unfold fread_step
    dsimp only
    rw [if_pos (show (s.open_file_descriptor_table h).read_pointer < 12 * BLOCK_SIZE by
      show _ < (12 : Int) * 1024; omega)]
    rw [cdiv_nonneg_eq hr0, cmod_nonneg_eq hr0, hbp, read_from_block_fst,
      read_from_block_snd _ _ _ _ h1 h2, hmin]
  unfold sfs_fread
  dsimp only
  rw [if_neg hopen, hw, if_neg hgt, hm, fread_loop_some _ _ _ _ _ _ _ _ hn (hstep _ _),
    fread_loop_done _ _ _ _ _ _ _ (by simp)]
  simp

set_option maxRecDepth 100000 in
/-- C23 (fails): on a file holding "hello" with its cursors at 0
(`hello_rewound`), a write of the single byte "J" at offset 0 returns 1, the
size stays 5, and reading the five bytes back gives "J" followed by four zero
bytes: the bytes at offsets 1..4, outside the range written, are lost. -/
theorem aligned_overwrite_loses_data :
    (sfs_fread hello_rewound stack0 1 5).2.1 = hello ∧
    (sfs_fwrite hello_rewound stack0 1 [74] 1).1 = 1 ∧
    (overwritten.inode_table 1).size = 5 ∧
    (sfs_fread overwritten stack0 1 5).1 = 5 ∧
    (sfs_fread overwritten stack0 1 5).2.1 = [74, 0, 0, 0, 0] := by
  have a := sfs_fread_in_block hello_rewound stack0 1 5 23 (by decide) (by decide) (by decide)
    (by decide) (by decide) (by decide) (by decide) (by decide) (by decide)
  have b := sfs_fread_in_block overwritten stack0 1 5 23 (by decide) (by decide) (by decide)
    (by decide) (by decide) (by decide) (by decide) (by decide) (by decide)
  have ea : (hello_rewound.open_file_descriptor_table 1).read_pointer = 0 := by decide
  have eb : (overwritten.open_file_descriptor_table 1).read_pointer = 0 := by decide
  rw [ea] at a
  rw [eb] at b
  refine ⟨?_, by decide, by decide, b.1, ?_⟩
  · rw [a.2]; decide
  · rw [b.2]; decide

/-! ## Directory enumeration -/

theorem listed_zero (s : FS) (c : Int) : listed s c 0 = [] := rfl

theorem listed_succ (s : FS) (c : Int) (n : Nat) :
    listed s c (n + 1) =
      (if (s.directory_table c).inode_pointer ≠ 0 ∧
          strncmp_eq (s.directory_table c).full_filename "root".toList = false
        then [(s.directory_table c).full_filename] else []) ++ listed s (c + 1) n := by
  unfold listed
  rw [List.range_succ_eq_map, List.map_cons, List.map_map]
  have hm : ((fun (k : Nat) => c + (k : Int)) ∘ Nat.succ) = (fun (k : Nat) => c + 1 + (k : Int)) := by
    funext k
    show c + ((k + 1 : Nat) : Int) = c + 1 + (k : Int)
    push_cast; ring
  rw [hm, List.filter_cons]
  simp only [Nat.cast_zero, add_zero]
  by_cases h : (s.directory_table c).inode_pointer ≠ 0 ∧
      strncmp_eq (s.directory_table c).full_filename "root".toList = false
  · rw [if_pos h]
    have : (decide ((s.directory_table c).inode_pointer ≠ 0) &&
        !strncmp_eq (s.directory_table c).full_filename "root".toList) = true := by
      rw [Bool.and_eq_true]
      exact ⟨decide_eq_true h.1, by rw [h.2]; rfl⟩
    rw [if_pos this]
    rfl
  · rw [if_neg h]
    have : ¬ (decide ((s.directory_table c).inode_pointer ≠ 0) &&
        !strncmp_eq (s.directory_table c).full_filename "root".toList) = true := by
      intro hc
      apply h
      simp only [Bool.and_eq_true, decide_eq_true_eq, Bool.not_eq_true'] at hc
      exact hc
    rw [if_neg this]
    rfl

/-- A name shorter than 32 bytes is copied as it is. -/
theorem stored_string_short (s : FS) (n : Nat) (cur : Int)
    (h : (s.directory_table cur).full_filename.length < 32) :
    stored_string s (n + 1) cur = (s.directory_table cur).full_filename := by
  unfold stored_string
  rw [if_pos h]

/-- The loop of `sfs_getnextfilename` from cursor `c` with the `m` slots up to
127 ahead, when every name stored in slots 1..127 is shorter than 32 bytes: it
ends the pass when no slot is left to report, and otherwise reports the first
one and stops behind it. -/
theorem getnext_loop_spec (s : FS) (fname : List Char)
    (hshort : ∀ k : Int, 1 ≤ k → k < 128 → (s.directory_table k).full_filename.length < 32)
    (m : Nat) :
    ∀ c : Int, c + m = 128 → 1 ≤ c →
      (listed s c m = [] ∧ getnext_loop s fname m c = (0, fname, 1)) ∨
      (∃ (c' : Int) (n : List Char) (m' : Nat), c < c' ∧ c' + m' = 128 ∧
        listed s c m = n :: listed s c' m' ∧ getnext_loop s fname m c = (1, n, c')) := by
  induction m with
  | zero =>
    intro c hc _
    left
    refine ⟨rfl, ?_⟩
    have : c = 128 := by simpa using hc
    rw [this]; rfl
  | succ m ih =>
    intro c hc h1
    have hc' : c + 1 + (m : Int) = 128 := by push_cast at hc; omega
    have hne : c ≠ (MAX_INODES : Int) := by
      show c ≠ ((128 : Nat) : Int)
      push_cast at hc; omega
    have hw : wrap32 (c + 1) = c + 1 := wrap32_of_range (by omega) (by omega)
    have hstr : stored_string s MAX_INODES c = (s.directory_table c).full_filename :=
      stored_string_short s 127 c (hshort c h1 (by push_cast at hc; omega))
    rw [listed_succ]
    unfold getnext_loop
    rw [if_pos hne, hw, hstr]
    by_cases h : (s.directory_table c).inode_pointer ≠ 0 ∧
        strncmp_eq (s.directory_table c).full_filename "root".toList = false
    · rw [if_pos h, if_pos h]
      right
      exact ⟨c + 1, _, m, by omega, hc', rfl, rfl⟩
    · rw [if_neg h, if_neg h]
      rcases ih (c + 1) hc' (by omega) with ⟨g1, g2⟩ | ⟨c', n, m', g1, g2, g3, g4⟩
      · left; exact ⟨by rw [g1]; rfl, g2⟩
      · right; exact ⟨c', n, m', by omega, g2, by rw [g3]; rfl, g4⟩

theorem getnext_calls_succ (s : FS) (fname : List Char) (n : Nat) :
    getnext_calls s fname (n + 1) =
      (((sfs_getnextfilename s fname).1, (sfs_getnextfilename s fname).2.1) ::
        (getnext_calls (sfs_getnextfilename s fname).2.2 (sfs_getnextfilename s fname).2.1 n).1,
      (getnext_calls (sfs_getnextfilename s fname).2.2 (sfs_getnextfilename s fname).2.1 n).2) := rfl

theorem listed_congr (s t : FS) (h : t.directory_table = s.directory_table) (c : Int) (n : Nat) :
    listed t c n = listed s c n := by
  unfold listed; rw [h]

theorem getLast_cons_getD (n : List Char) (rest : List (List Char)) (fname : List Char) :
    ((n :: rest).getLast?).getD fname = (rest.getLast?).getD n := by
  cases rest with
  | nil => rfl
  | cons a as =>
    rw [List.getLast?_cons_cons]
    cases h : (a :: as).getLast? with
    | none => simp at h
    | some v => rfl

/-- One pass of `sfs_getnextfilename` from cursor `c`, when every name
stored in slots 1..127 is shorter than 32 bytes. -/
theorem getnext_calls_pass (L : List (List Char)) :
    ∀ (s : FS) (fname : List Char) (m : Nat),
      (∀ k : Int, 1 ≤ k → k < 128 → (s.directory_table k).full_filename.length < 32) →
      s.current_directory + m = 128 →
      1 ≤ s.current_directory → listed s s.current_directory m = L →
      getnext_calls s fname (L.length + 1) =
        (L.map (fun n => ((1 : Int), n)) ++ [(0, (L.getLast?).getD fname)],
          { s with current_directory := 1 }) := by
  induction L with
  | nil =>
    intro s fname m hshort hm h1 hL
    have hfuel : (((MAX_INODES : Int) - s.current_directory) % 4294967296).toNat = m := by
      show ((((128 : Nat) : Int) - s.current_directory) % 4294967296).toNat = m
      push_cast; omega
    have hcall : sfs_getnextfilename s fname = (0, fname, { s with current_directory := 1 }) := by
      unfold sfs_getnextfilename
      dsimp only
      rw [hfuel]
      rcases getnext_loop_spec s fname hshort m _ hm h1 with ⟨-, g2⟩ | ⟨c', n, m', -, -, g3, -⟩
      · rw [g2]
      · rw [hL] at g3; cases g3
    rw [getnext_calls_succ, hcall]
    rfl
  | cons n rest ih =>
    intro s fname m hshort hm h1 hL
    have hfuel : (((MAX_INODES : Int) - s.current_directory) % 4294967296).toNat = m := by
      show ((((128 : Nat) : Int) - s.current_directory) % 4294967296).toNat = m
      push_cast; omega
    rcases getnext_loop_spec s fname hshort m _ hm h1 with ⟨g1, -⟩ | ⟨c', n', m', g1, g2, g3, g4⟩
    · rw [hL] at g1; cases g1
    · rw [hL] at g3
      injection g3 with e1 e2
      subst e1
      have hcall : sfs_getnextfilename s fname = (1, n, { s with current_directory := c' }) := by
        unfold sfs_getnextfilename
        dsimp only
        rw [hfuel, g4]
      have hrec := ih { s with current_directory := c' } n m' hshort g2
        (by show 1 ≤ c'; omega) (by rw [e2]; exact listed_congr s _ rfl c' m')
      rw [List.length_cons, getnext_calls_succ, hcall]
      dsimp only
      rw [hrec]
      simp only [List.map_cons, List.cons_append, getLast_cons_getD]

/-- Directory enumeration when every name stored in slots 1..127 is shorter
than 32 bytes.  With the cursor at 1, the first calls of `sfs_getnextfilename`
return 1 and produce, in increasing slot order, the name of every slot in
1..127 whose inode pointer is not 0 and whose name is not "root"
(`listed s 1 127`), each once; the call after them returns 0, leaves `fname`
as it was and leaves the cursor at 1, so that the state is the one before the
first call and the next call starts the same pass again. -/
theorem sfs_getnextfilename_pass (s : FS) (fname : List Char) (h : s.current_directory = 1)
    (hshort : ∀ k : Nat, k < 127 →
      (s.directory_table ((k : Int) + 1)).full_filename.length < 32) :
    getnext_calls s fname ((listed s 1 127).length + 1) =
      ((listed s 1 127).map (fun n => ((1 : Int), n)) ++
        [(0, ((listed s 1 127).getLast?).getD fname)], s) := by
  have hs32 : ∀ k : Int, 1 ≤ k → k < 128 → (s.directory_table k).full_filename.length < 32 := by
    intro k h1 h2
    have := hshort (k - 1).toNat (by omega)
    rw [show (((k - 1).toNat : Nat) : Int) + 1 = k by omega] at this
    exact this
  have hp := getnext_calls_pass (listed s 1 127) s fname 127 hs32 (by rw [h]; rfl) (by rw [h])
    (by rw [h])
  rw [hp]
  have hs : ({ s with current_directory := 1 } : FS) = s := by
    cases s
    simp only at h
    subst h
    rfl
  rw [hs]

set_option maxRecDepth 100000 in
/-- For files "a", "b", "c" created in that order on a fresh file system, four
calls give "a", "b", "c" and then 0, and a fifth call gives "a" again. -/
theorem sfs_getnextfilename_pass_witness :
    (getnext_calls three_files [] 4).1 =
      [(1, "a".toList), (1, "b".toList), (1, "c".toList), (0, "c".toList)] ∧
    (sfs_getnextfilename (getnext_calls three_files [] 4).2 "c".toList).1 = 1 ∧
    (sfs_getnextfilename (getnext_calls three_files [] 4).2 "c".toList).2.1 = "a".toList := by
  have h := sfs_getnextfilename_pass three_files [] (by decide) (by decide)
  have e : listed three_files 1 127 = ["a".toList, "b".toList, "c".toList] := by decide
  rw [e] at h
  have h4 : getnext_calls three_files [] 4 =
      ([(1, "a".toList), (1, "b".toList), (1, "c".toList), (0, "c".toList)], three_files) := h
  rw [h4]
  exact ⟨rfl, by decide, by decide⟩

set_option maxRecDepth 100000 in
/-- C16 (fails for a name of 32 bytes): after `mksfs(1)` from program start,
`sfs_fopen` of a name of 32 bytes returns 1 and directory slot 1 holds the
name with inode pointer 1; the name fills the 32-byte field, which has no
terminator.  The first call of `sfs_getnextfilename` returns 1 and produces 33
bytes: the name followed by the byte 1, the first byte of `inode_pointer`.
What the call produces is not the name of the slot. -/
theorem sfs_getnextfilename_long_name :
    long_name.length = 32 ∧
    (sfs_fopen (mksfs boot 1) long_name).1 = 1 ∧
    (long_name_file.directory_table 1).full_filename = long_name ∧
    (long_name_file.directory_table 1).inode_pointer = 1 ∧
    long_name_file.current_directory = 1 ∧
    (sfs_getnextfilename long_name_file []).1 = 1 ∧
    (sfs_getnextfilename long_name_file []).2.1 = long_name ++ [Char.ofNat 1] ∧
    (sfs_getnextfilename long_name_file []).2.1.length = 33 ∧
    (sfs_getnextfilename long_name_file []).2.1 ≠ long_name := by
  decide

/-! ## Parallel indexing of the open-file table and the directory -/

theorem parallel_index_fopen (s : FS) (name : List Char) (h : ParallelIndex s) :
    ParallelIndex (sfs_fopen s name).2 := by
  unfold sfs_fopen
  dsimp only
  split_ifs with h1 h2 h3 h4
  · exact h
  · exact h
  · intro k hk
    show (s.directory_table k).inode_pointer = _
    by_cases hki : k = dir_find s name
    · rw [hki]
      show _ = (Function.update s.open_file_descriptor_table (dir_find s name) _
        (dir_find s name)).inode_pointer
      rw [Function.update_same]
    · have e : (Function.update s.open_file_descriptor_table (dir_find s name)
          { inode_pointer := (s.directory_table (dir_find s name)).inode_pointer, read_pointer := 0,
            write_pointer := (s.inode_table (s.directory_table (dir_find s name)).inode_pointer).size }
          k) = s.open_file_descriptor_table k := Function.update_noteq hki _ _
      have hk' : (s.open_file_descriptor_table k).inode_pointer ≠ 0 := by
        rw [← e]; exact hk
      show _ = (Function.update s.open_file_descriptor_table (dir_find s name) _ k).inode_pointer
      rw [e]; exact h k hk'
  · exact h
  · intro k hk
    simp only [set_bit_1, if_true] at hk ⊢
    by_cases hki : k = find_free_entry s "directory_table"
    · rw [hki, Function.update_same, Function.update_same]
    · rw [Function.update_noteq hki] at hk ⊢
      rw [Function.update_noteq hki]
      exact h k hk

theorem parallel_index_fclose (s : FS) (fileID : Int) (h : ParallelIndex s) :
    ParallelIndex (sfs_fclose s fileID).2 := by
  unfold sfs_fclose
  dsimp only
  split_ifs
  · exact h
  · intro k hk
    show (s.directory_table k).inode_pointer = _
    by_cases hki : k = fileID
    · rw [hki] at hk
      exact absurd (by
        show (Function.update s.open_file_descriptor_table fileID _ fileID).inode_pointer = 0
        rw [Function.update_same]) hk
    · have e : (Function.update s.open_file_descriptor_table fileID
          { inode_pointer := 0, read_pointer := 0, write_pointer := 0 } k) =
          s.open_file_descriptor_table k := Function.update_noteq hki _ _
      have hk' : (s.open_file_descriptor_table k).inode_pointer ≠ 0 := by rw [← e]; exact hk
      show _ = (Function.update s.open_file_descriptor_table fileID _ k).inode_pointer
      rw [e]; exact h k hk'
  · exact h

theorem parallel_index_fseek (s : FS) (fileID loc : Int) (h : ParallelIndex s) :
    ParallelIndex (sfs_fseek s fileID loc).2 := by
  unfold sfs_fseek
  dsimp only
  split_ifs with h1
  · exact h
  · intro k hk
    show (s.directory_table k).inode_pointer = _
    by_cases hki : k = fileID
    · rw [hki]
      show _ = (Function.update s.open_file_descriptor_table fileID _ fileID).inode_pointer
      rw [Function.update_same]
      exact h fileID h1
    · have e : (Function.update s.open_file_descriptor_table fileID
          { s.open_file_descriptor_table fileID with read_pointer := loc, write_pointer := loc } k) =
          s.open_file_descriptor_table k := Function.update_noteq hki _ _
      have hk' : (s.open_file_descriptor_table k).inode_pointer ≠ 0 := by rw [← e]; exact hk
      show _ = (Function.update s.open_file_descriptor_table fileID _ k).inode_pointer
      rw [e]; exact h k hk'

theorem parallel_index_fwrite (s : FS) (stack : Int → Int) (fileID : Int) (buf : List Nat)
    (length : Int) (h : ParallelIndex s) : ParallelIndex (sfs_fwrite s stack fileID buf length).2 := by
  obtain ⟨f1, -, -, -, -, f6, f7, -⟩ := (sfs_fwrite_frame s stack fileID buf length).1
  intro k hk
  rw [f1]
  by_cases hki : k = fileID
  · rw [hki] at hk ⊢
    rw [f7] at hk ⊢
    exact h fileID hk
  · rw [f6 k hki] at hk ⊢
    exact h k hk

/-- What `sfs_fread` leaves alone: everything but the read cursor of the
handle. -/
theorem fread_loop_frame (s : FS) (fileID : Int) (descriptor : OPEN_FILE_DESCRIPTOR) (ip : Int)
    (ib : Int → Int) (fuel : Nat) :
    ∀ l : RLocals,
      (fread_loop s fileID descriptor ip ib fuel l).2.2.directory_table = s.directory_table ∧
      (fread_loop s fileID descriptor ip ib fuel l).2.2.inode_table = s.inode_table ∧
      (fread_loop s fileID descriptor ip ib fuel l).2.2.inode_bitmap = s.inode_bitmap ∧
      (fread_loop s fileID descriptor ip ib fuel l).2.2.data_block_bitmap = s.data_block_bitmap ∧
      (fread_loop s fileID descriptor ip ib fuel l).2.2.current_directory = s.current_directory ∧
      (fread_loop s fileID descriptor ip ib fuel l).2.2.disk = s.disk ∧
      (∀ k : Int, k ≠ fileID →
        (fread_loop s fileID descriptor ip ib fuel l).2.2.open_file_descriptor_table k =
          s.open_file_descriptor_table k) ∧
      ((fread_loop s fileID descriptor ip ib fuel l).2.2.open_file_descriptor_table
        fileID).inode_pointer = (s.open_file_descriptor_table fileID).inode_pointer ∧
      ((fread_loop s fileID descriptor ip ib fuel l).2.2.open_file_descriptor_table
        fileID).write_pointer = (s.open_file_descriptor_table fileID).write_pointer := by
  induction fuel with
  | zero =>
    intro l
    refine ⟨rfl, rfl, rfl, rfl, rfl, rfl, fun k hk => Function.update_noteq hk _ _, ?_, ?_⟩
    · show (Function.update s.open_file_descriptor_table fileID _ fileID).inode_pointer = _
      rw [Function.update_same]
    · show (Function.update s.open_file_descriptor_table fileID _ fileID).write_pointer = _
      rw [Function.update_same]
  | succ n ih =>
    intro l
    by_cases hr : l.remaining > 0
    · rcases hstep : fread_step s descriptor ip ib l with _ | l'
      · rw [fread_loop_none _ _ _ _ _ _ _ hr hstep]
        exact ⟨rfl, rfl, rfl, rfl, rfl, rfl, fun _ _ => rfl, rfl, rfl⟩
      · rw [fread_loop_some _ _ _ _ _ _ _ _ hr hstep]; exact ih l'
    · rw [fread_loop_done _ _ _ _ _ _ _ hr]
      refine ⟨rfl, rfl, rfl, rfl, rfl, rfl, fun k hk => Function.update_noteq hk _ _, ?_, ?_⟩
      · show (Function.update s.open_file_descriptor_table fileID _ fileID).inode_pointer = _
        rw [Function.update_same]
      · show (Function.update s.open_file_descriptor_table fileID _ fileID).write_pointer = _
        rw [Function.update_same]

theorem sfs_fread_frame (s : FS) (stack : Int → Int) (fileID length : Int) :
    (sfs_fread s stack fileID length).2.2.directory_table = s.directory_table ∧
    (sfs_fread s stack fileID length).2.2.inode_table = s.inode_table ∧
    (sfs_fread s stack fileID length).2.2.inode_bitmap = s.inode_bitmap ∧
    (sfs_fread s stack fileID length).2.2.data_block_bitmap = s.data_block_bitmap ∧
    (sfs_fread s stack fileID length).2.2.current_directory = s.current_directory ∧
    (sfs_fread s stack fileID length).2.2.disk = s.disk ∧
    (∀ k : Int, k ≠ fileID →
      (sfs_fread s stack fileID length).2.2.open_file_descriptor_table k =
        s.open_file_descriptor_table k) ∧
    ((sfs_fread s stack fileID length).2.2.open_file_descriptor_table fileID).inode_pointer =
      (s.open_file_descriptor_table fileID).inode_pointer ∧
    ((sfs_fread s stack fileID length).2.2.open_file_descriptor_table fileID).write_pointer =
      (s.open_file_descriptor_table fileID).write_pointer := by
  unfold sfs_fread
  dsimp only
  by_cases h0 : (s.open_file_descriptor_table fileID).inode_pointer = 0
  · rw [if_pos h0]
    exact ⟨rfl, rfl, rfl, rfl, rfl, rfl, fun _ _ => rfl, rfl, rfl⟩
  · rw [if_neg h0]
    exact fread_loop_frame _ _ _ _ _ _ _

theorem parallel_index_fread (s : FS) (stack : Int → Int) (fileID length : Int)
    (h : ParallelIndex s) : ParallelIndex (sfs_fread s stack fileID length).2.2 := by
  obtain ⟨f1, -, -, -, -, -, f7, f8, -⟩ := sfs_fread_frame s stack fileID length
  intro k hk
  rw [f1]
  by_cases hki : k = fileID
  · rw [hki] at hk ⊢
    rw [f8] at hk ⊢
    exact h fileID hk
  · rw [f7 k hki] at hk ⊢
    exact h k hk

theorem parallel_index_remove (s : FS) (stack : Int → Int) (file : List Char)
    (h : ParallelIndex s) : ParallelIndex (sfs_remove s stack file).2 := by
  unfold sfs_remove
  dsimp only
  split_ifs
  · exact h
  · obtain ⟨r1, r2, -⟩ := remove_entry_spec s stack (remove_index s file)
    intro k hk
    show ((remove_entry s stack (remove_index s file)).directory_table k).inode_pointer =
      ((remove_entry s stack (remove_index s file)).open_file_descriptor_table k).inode_pointer
    have hk0 : ((remove_entry s stack (remove_index s file)).open_file_descriptor_table
      k).inode_pointer ≠ 0 := hk
    rw [r2] at hk0 ⊢
    rw [r1]
    by_cases hki : k = remove_index s file
    · rw [hki] at hk0 ⊢
      by_cases hm : (s.open_file_descriptor_table (remove_index s file)).inode_pointer =
          (s.directory_table (remove_index s file)).inode_pointer
      · rw [if_pos hm, Function.update_same] at hk0
        exact absurd rfl hk0
      · rw [if_neg hm] at hk0
        exact absurd (h _ hk0).symm hm
    · rw [Function.update_noteq hki]
      by_cases hm : (s.open_file_descriptor_table (remove_index s file)).inode_pointer =
          (s.directory_table (remove_index s file)).inode_pointer
      · rw [if_pos hm, Function.update_noteq hki] at hk0 ⊢
        exact h k hk0
      · rw [if_neg hm] at hk0 ⊢
        exact h k hk0

theorem parallel_index_run (ops : List Op) :
    ∀ s : FS, ParallelIndex s → ParallelIndex (run_ops s ops) := by
  induction ops with
  | nil => intro s h; exact h
  | cons c cs ih =>
    intro s h
    apply ih
    cases c with
    | fopen name => exact parallel_index_fopen s name h
    | fclose fileID => exact parallel_index_fclose s fileID h
    | fwrite stack fileID buf length => exact parallel_index_fwrite s stack fileID buf length h
    | fread stack fileID length => exact parallel_index_fread s stack fileID length h
    | fseek fileID loc => exact parallel_index_fseek s fileID loc h
    | remove stack file => exact parallel_index_remove s stack file h

/-- C20: parallel indexing.  Starting from `mksfs(1)` called with an empty
open-file table, after every sequence of `sfs_fopen`, `sfs_fclose`,
`sfs_fwrite`, `sfs_fread`, `sfs_fseek` and `sfs_remove` calls, every populated
open-file slot `k` names the inode of directory entry `k`, which is not 0. -/
theorem parallel_indexing (s0 : FS) (ops : List Op)
    (hempty : ∀ k : Int, (s0.open_file_descriptor_table k).inode_pointer = 0) (k : Int)
    (hk : ((run_ops (mksfs s0 1) ops).open_file_descriptor_table k).inode_pointer ≠ 0) :
    ((run_ops (mksfs s0 1) ops).directory_table k).inode_pointer =
      ((run_ops (mksfs s0 1) ops).open_file_descriptor_table k).inode_pointer ∧
    ((run_ops (mksfs s0 1) ops).directory_table k).inode_pointer ≠ 0 := by
  have h0 : ParallelIndex (mksfs s0 1) := by
    intro j hj
    rw [(mksfs_fresh_fields s0).2.2.2.2.1] at hj
    exact absurd (hempty j) hj
  have h := parallel_index_run ops (mksfs s0 1) h0 k hk
  exact ⟨h, by rw [h]; exact hk⟩

set_option maxRecDepth 100000 in
/-- After `sample_ops` from program start, handle 2 is open on "b": open-file
slot 2 and directory entry 2 both name inode 2. -/
theorem parallel_indexing_witness :
    ((run_ops (mksfs boot 1) sample_ops).open_file_descriptor_table 2).inode_pointer = 2 ∧
    ((run_ops (mksfs boot 1) sample_ops).directory_table 2).inode_pointer =
      ((run_ops (mksfs boot 1) sample_ops).open_file_descriptor_table 2).inode_pointer ∧
    ((run_ops (mksfs boot 1) sample_ops).directory_table 2).inode_pointer ≠ 0 :=
  ⟨by decide, parallel_indexing boot sample_ops (fun _ => rfl) 2 (by decide)⟩

/-! ## Block map of a file built by appending -/

theorem flatten_single (st : Int → Int) (b : List Nat) :
    ((([(st, b)] : List ((Int → Int) × List Nat)).map Prod.snd).flatten) = b := by
  simp

/-- Block-map shape under append when every write succeeds, for the first file
of a fresh file system with a name that no directory slot holds (so not the
empty name).  After `mksfs(1)` and
`h = sfs_fopen(name)` for a new name, appending buffers of total length
`T ≤ 274432` with `sfs_fwrite` returns the length of each buffer and leaves the
inode of the file, with `n = nblocks T` blocks, in this shape: the size is `T`;
direct pointer `j` is non-zero exactly for `j < n`; the indirect pointer is
non-zero exactly when `n > 12`; then entry `k` of the indirect block is
non-zero exactly for `k < n - 12`, and the byte at every file offset
`p ≥ 12288` is stored at offset `p mod 1024` of the block that entry
`p / 1024 - 12` names. -/
theorem append_block_map (s0 : FS) (name : List Char) (calls : List ((Int → Int) × List Nat))
    (hlen : name.length ≤ 32)
    (hnew : ∀ k : Int, 1 ≤ k → k < 128 → ((mksfs s0 1).directory_table k).full_filename ≠ name)
    (hT : ((calls.map Prod.snd).flatten.length : Int) ≤ 274432) :
    (write_all (sfs_fopen (mksfs s0 1) name).2 (sfs_fopen (mksfs s0 1) name).1 calls).1 =
      calls.map (fun c => (c.2.length : Int)) ∧
    ((write_all (sfs_fopen (mksfs s0 1) name).2 (sfs_fopen (mksfs s0 1) name).1 calls).2.inode_table
      1).size = ((calls.map Prod.snd).flatten.length : Int) ∧
    (∀ j : Int, 0 ≤ j → j < 12 →
      (((write_all (sfs_fopen (mksfs s0 1) name).2 (sfs_fopen (mksfs s0 1) name).1
        calls).2.inode_table 1).pointers j ≠ 0 ↔
        j < nblocks ((calls.map Prod.snd).flatten.length : Int))) ∧
    (((write_all (sfs_fopen (mksfs s0 1) name).2 (sfs_fopen (mksfs s0 1) name).1
      calls).2.inode_table 1).indirect_pointer ≠ 0 ↔
      12 < nblocks ((calls.map Prod.snd).flatten.length : Int)) ∧
    (12 < nblocks ((calls.map Prod.snd).flatten.length : Int) →
      (∀ k : Int, 0 ≤ k → k < 256 →
        (block_int
          ((write_all (sfs_fopen (mksfs s0 1) name).2 (sfs_fopen (mksfs s0 1) name).1
            calls).2.disk.blocks
            ((write_all (sfs_fopen (mksfs s0 1) name).2 (sfs_fopen (mksfs s0 1) name).1
              calls).2.inode_table 1).indirect_pointer) k.toNat ≠ 0 ↔
          k < nblocks ((calls.map Prod.snd).flatten.length : Int) - 12)) ∧
      (∀ p : Int, 12288 ≤ p → p < ((calls.map Prod.snd).flatten.length : Int) →
        (write_all (sfs_fopen (mksfs s0 1) name).2 (sfs_fopen (mksfs s0 1) name).1
          calls).2.disk.blocks
          (block_int
            ((write_all (sfs_fopen (mksfs s0 1) name).2 (sfs_fopen (mksfs s0 1) name).1
              calls).2.disk.blocks
              ((write_all (sfs_fopen (mksfs s0 1) name).2 (sfs_fopen (mksfs s0 1) name).1
                calls).2.inode_table 1).indirect_pointer) (p / 1024 - 12).toNat)
          (p % 1024).toNat = (calls.map Prod.snd).flatten.getD p.toNat 0)) := by
  obtain ⟨f1, f2, f3⟩ := first_file s0 name hlen hnew
  rw [f1]
  have hT0 := Int.natCast_nonneg (calls.map Prod.snd).flatten.length
  obtain ⟨w1, w2, -⟩ := write_all_append 1 1 23 (by decide) calls (sfs_fopen (mksfs s0 1) name).2 0 []
    f2 (by rw [f3]) (by rw [f3]) (by omega)
    (by have := used_nblocks_max (0 + ((calls.map Prod.snd).flatten.length : Int)) (by omega); omega)
  rw [zero_add, List.nil_append] at w2
  generalize write_all (sfs_fopen (mksfs s0 1) name).2 1 calls = r at w1 w2 ⊢
  generalize hTT : ((calls.map Prod.snd).flatten.length : Int) = T at *
  have hn := nblocks_facts T hT0
  refine ⟨w1, w2.size_eq, fun j hj1 hj2 => ?_, ?_, fun h12 => ⟨fun k hk1 hk2 => ?_, fun p hp1 hp2 => ?_⟩⟩
  · rw [w2.direct j hj1 hj2]
    by_cases h : j < nblocks T
    · rw [if_pos h]; exact ⟨fun _ => h, fun _ => by omega⟩
    · rw [if_neg h]; exact ⟨fun h0 => absurd rfl h0, fun h1 => absurd h1 h⟩
  · rw [w2.indirect]
    by_cases h : 12 < nblocks T
    · rw [if_pos h]; exact ⟨fun _ => h, fun _ => by decide⟩
    · rw [if_neg h]; exact ⟨fun h0 => absurd rfl h0, fun h1 => absurd h1 h⟩
  · rw [w2.indirect, if_pos h12, w2.entries h12 k hk1 hk2]
    by_cases h : k < nblocks T - 12
    · rw [if_pos h]; exact ⟨fun _ => h, fun _ => by omega⟩
    · rw [if_neg h]; exact ⟨fun h0 => absurd rfl h0, fun h1 => absurd h1 h⟩
  · have hk1 : 0 ≤ p / 1024 - 12 := by omega
    have hk2 : p / 1024 - 12 < 256 := by omega
    have hk3 : p / 1024 - 12 < nblocks T - 12 := by
      have := hn.1; have := hn.2
      by_cases h0 : T % 1024 = 0
      · rw [hn.1 h0]; omega
      · rw [hn.2 h0]; omega
    rw [w2.indirect, if_pos h12, w2.entries h12 _ hk1 hk2, if_pos hk3]
    have hb : (23 : Int) + 13 + (p / 1024 - 12) = blk 23 p := by
      unfold blk; rw [if_neg (by omega)]; omega
    rw [hb]
    exact w2.content p (by omega) hp2

/-- A single write of 13 * 1024 bytes to a new file on a fresh file system
returns 13312; the twelve direct pointers and the indirect pointer are
non-zero, entry 0 of the indirect block is non-zero and entries 1..255 are 0. -/
theorem append_block_map_witness :
    (write_all (sfs_fopen (mksfs boot 1) "a".toList).2 (sfs_fopen (mksfs boot 1) "a".toList).1
      [(stack0, zeros 13312)]).1 = [13312] ∧
    (∀ j : Int, 0 ≤ j → j < 12 →
      ((write_all (sfs_fopen (mksfs boot 1) "a".toList).2 (sfs_fopen (mksfs boot 1) "a".toList).1
        [(stack0, zeros 13312)]).2.inode_table 1).pointers j ≠ 0) ∧
    ((write_all (sfs_fopen (mksfs boot 1) "a".toList).2 (sfs_fopen (mksfs boot 1) "a".toList).1
      [(stack0, zeros 13312)]).2.inode_table 1).indirect_pointer ≠ 0 ∧
    block_int
      ((write_all (sfs_fopen (mksfs boot 1) "a".toList).2 (sfs_fopen (mksfs boot 1) "a".toList).1
        [(stack0, zeros 13312)]).2.disk.blocks
        ((write_all (sfs_fopen (mksfs boot 1) "a".toList).2 (sfs_fopen (mksfs boot 1) "a".toList).1
          [(stack0, zeros 13312)]).2.inode_table 1).indirect_pointer) 0 ≠ 0 ∧
    (∀ k : Int, 1 ≤ k → k < 256 →
      block_int
        ((write_all (sfs_fopen (mksfs boot 1) "a".toList).2 (sfs_fopen (mksfs boot 1) "a".toList).1
          [(stack0, zeros 13312)]).2.disk.blocks
          ((write_all (sfs_fopen (mksfs boot 1) "a".toList).2 (sfs_fopen (mksfs boot 1) "a".toList).1
            [(stack0, zeros 13312)]).2.inode_table 1).indirect_pointer) k.toNat = 0) := by
  have hT : (((([(stack0, zeros 13312)] : List ((Int → Int) × List Nat)).map
      Prod.snd).flatten.length : Nat) : Int) = 13312 := by
    rw [flatten_single, zeros_length_int]; rfl
  have hn : nblocks 13312 = 13 := by decide
  have h := append_block_map boot "a".toList [(stack0, zeros 13312)] (by decide)
    (fun k h1 _ => by
      rw [(mksfs_fresh_fields boot).2.2.2.1, Function.update_noteq (by omega)]
      decide)
    (by rw [hT]; decide)
  rw [hT, hn] at h
  obtain ⟨h1, -, h3, h4, h5⟩ := h
  have h6 := (h5 (by decide)).1
  refine ⟨?_, fun j hj1 hj2 => (h3 j hj1 hj2).2 (by omega), h4.2 (by decide), ?_, fun k hk1 hk2 => ?_⟩
  · rw [h1]
    show [((zeros 13312).length : Int)] = [13312]
    rw [zeros_length_int]; rfl
  · exact (h6 0 (by decide) (by decide)).2 (by decide)
  · by_contra hne
    have := (h6 k (by omega) hk2).1 hne
    omega

/-! ## A failed append, a remount and a stale indirect pointer -/

theorem fwrite_step_bitmap (s : FS) (fileID : Int) (descriptor : OPEN_FILE_DESCRIPTOR) (l : WLocals) :
    ∀ (s' : FS) (l' : WLocals), fwrite_step s fileID descriptor l = .ok (s', l') →
      BitmapSynced s' := by
  apply fwrite_step_cases s fileID descriptor l
    (fun r => ∀ (s' : FS) (l' : WLocals), r = .ok (s', l') → BitmapSynced s')
  · intro s1 _ s' l' h; cases h
  · intro s1 l1 bp hprep e1 e2 e3 e4 s' l' h
    injection h with h
    injection h with hs hl
    subst hs hl
    unfold BitmapSynced
    simp only [fwrite_flush]
    split_ifs
    · exact (write_block_fields _ _ _).2.2.2.1
    · rfl

theorem fwrite_loop_bitmap (fileID : Int) (descriptor : OPEN_FILE_DESCRIPTOR) (fuel : Nat) :
    ∀ (s : FS) (l : WLocals), BitmapSynced s →
      (fwrite_loop fileID descriptor fuel s l).1 ≠ -1 → 0 ≤ l.bytes_wrote →
      BitmapSynced (fwrite_loop fileID descriptor fuel s l).2 := by
  induction fuel with
  | zero => intro s l h _ _; exact h
  | succ n ih =>
    intro s l hs hne hb
    by_cases hr : l.remaining > 0
    · rcases hstep : fwrite_step s fileID descriptor l with s1 | ⟨s', l'⟩
      · rw [fwrite_loop_err _ _ _ _ _ _ hr hstep] at hne
        exact absurd rfl hne
      · rw [fwrite_loop_ok _ _ _ _ _ _ _ hr hstep] at hne ⊢
        have hf := fwrite_step_ok s fileID descriptor l s' l' hstep
        have hcb := chunk_bounds l.write_ptr_loc l.remaining hr
        obtain ⟨-, g2, -⟩ := hf
        exact ih s' l' (fwrite_step_bitmap s fileID descriptor l s' l' hstep) hne
          (by rw [g2]; omega)
    · rw [fwrite_loop_done _ _ _ _ _ hr]
      exact hs

/-- A call of `sfs_fwrite` that does not return -1 leaves the data bitmap on
the device equal to the one in memory, if it was so before. -/
theorem sfs_fwrite_bitmap_synced (s : FS) (stack : Int → Int) (h : Int) (buf : List Nat) (n : Int)
    (hs : BitmapSynced s) (hne : (sfs_fwrite s stack h buf n).1 ≠ -1) :
    BitmapSynced (sfs_fwrite s stack h buf n).2 := by
  unfold sfs_fwrite at hne ⊢
  by_cases hp : (s.open_file_descriptor_table h).inode_pointer = 0
  · simp only [if_pos hp] at hne ⊢
    exact absurd rfl hne
  · simp only [if_neg hp] at hne ⊢
    exact fwrite_loop_bitmap h (s.open_file_descriptor_table h) n.toNat s _ hs hne (le_refl _)

theorem bitmap_synced_fresh (s : FS) : BitmapSynced (mksfs s 1) := by
  exact (mksfs_fresh_fields s).2.2.2.2.2.2.2.1

theorem bitmap_synced_created (s : FS) (name : List Char) (d i : Int) (h : BitmapSynced s) :
    BitmapSynced (created_state s name d i) := h

/-- Creating the next file and filling it with one write: the data bitmap
stays flushed and the directory entry of the file names its inode. -/
theorem next_file_tables (s : FS) (created : List (List Char)) (name : List Char)
    (stack : Int → Int) (buf : List Nat) (n k : Int)
    (hF : Filled s created) (hfiles : created.length < 127)
    (hvalid : ∀ m ∈ created, m ≠ [] ∧ m.length ≤ 32)
    (hn1 : name ≠ []) (hn2 : name.length ≤ 32) (hn3 : name ∉ created)
    (hk : (created.length : Int) + 1 = k) (hB : BitmapSynced s)
    (hW : writes_succeed s [.fopen name, .fwrite stack k buf n]) :
    BitmapSynced (run s [.fopen name, .fwrite stack k buf n]) ∧
    (run s [.fopen name, .fwrite stack k buf n]).directory_table k =
      { full_filename := name, inode_pointer := k } := by
  have heq := filled_step_eq s created name hF hfiles hvalid hn1 hn2 hn3
  rw [hk] at heq
  have hne : (sfs_fwrite (sfs_fopen s name).2 stack k buf n).1 ≠ -1 := hW.1
  have hrun : run s [.fopen name, .fwrite stack k buf n] =
      (sfs_fwrite (sfs_fopen s name).2 stack k buf n).2 := rfl
  rw [hrun]
  rw [heq] at hne ⊢
  refine ⟨sfs_fwrite_bitmap_synced _ _ _ _ _ (bitmap_synced_created s name k k hB) hne, ?_⟩
  obtain ⟨w1, -⟩ := (sfs_fwrite_frame (created_state s name k k) stack k buf n).1
  rw [w1]
  simp only [created_state, Function.update_same]

/-- The tables of `nearly_full`: the five files sit in slots 1..5, slot 5
names inode 5, and the data bitmap on the device is the one in memory. -/
theorem nearly_full_tables :
    Filled nearly_full ["a".toList, "b".toList, "c".toList, "d".toList, "e".toList] ∧
    BitmapSynced nearly_full ∧
    nearly_full.directory_table 5 = { full_filename := "e".toList, inode_pointer := 5 } := by
  have u1 : (23 : Int) + used (nblocks 274432) = 292 := by decide
  have u2 : (292 : Int) + used (nblocks 274432) = 561 := by decide
  have u3 : (561 : Int) + used (nblocks 274432) = 830 := by decide
  have u4 : (830 : Int) + used (nblocks 184320) = 1011 := by decide
  have u5 : (1011 : Int) + used (nblocks 12288) = 1023 := by decide
  obtain ⟨aF, aB, aS, -, -, aW⟩ := next_file_run (mksfs boot 1) [] "a".toList stack0
    (zeros 274432) 274432 23 1 292 (filled_fresh boot) (by decide) (by decide) (by decide)
    (by decide) (by decide) (bitmap_prefix_fresh boot) (by decide) (synced_fresh boot)
    (zeros_length_int _) (by decide) (by rw [u1]; decide) rfl u1 (by decide)
  obtain ⟨aT, -⟩ := next_file_tables (mksfs boot 1) [] "a".toList stack0
    (zeros 274432) 274432 1 (filled_fresh boot) (by decide) (by decide) (by decide)
    (by decide) (by decide) rfl (bitmap_synced_fresh boot) aW
  obtain ⟨bF, bB, bS, -, -, bW⟩ := next_file_run _ _ "b".toList stack0
    (zeros 274432) 274432 292 2 561 aF (by decide) (by decide) (by decide)
    (by decide) (by decide) aB (by decide) aS
    (zeros_length_int _) (by decide) (by rw [u2]; decide) rfl u2 (by decide)
  obtain ⟨bT, -⟩ := next_file_tables _ _ "b".toList stack0
    (zeros 274432) 274432 2 aF (by decide) (by decide) (by decide)
    (by decide) (by decide) rfl aT bW
  obtain ⟨cF, cB, cS, -, -, cW⟩ := next_file_run _ _ "c".toList stack0
    (zeros 274432) 274432 561 3 830 bF (by decide) (by decide) (by decide)
    (by decide) (by decide) bB (by decide) bS
    (zeros_length_int _) (by decide) (by rw [u3]; decide) rfl u3 (by decide)
  obtain ⟨cT, -⟩ := next_file_tables _ _ "c".toList stack0
    (zeros 274432) 274432 3 bF (by decide) (by decide) (by decide)
    (by decide) (by decide) rfl bT cW
  obtain ⟨dF, dB, dS, -, -, dW⟩ := next_file_run _ _ "d".toList stack0
    (zeros 184320) 184320 830 4 1011 cF (by decide) (by decide) (by decide)
    (by decide) (by decide) cB (by decide) cS
    (zeros_length_int _) (by decide) (by rw [u4]; decide) rfl u4 (by decide)
  obtain ⟨dT, -⟩ := next_file_tables _ _ "d".toList stack0
    (zeros 184320) 184320 4 cF (by decide) (by decide) (by decide)
    (by decide) (by decide) rfl cT dW
  obtain ⟨eF, -, -, -, -, eW⟩ := next_file_run _ _ "e".toList stack0
    (zeros 12288) 12288 1011 5 1023 dF (by decide) (by decide) (by decide)
    (by decide) (by decide) dB (by decide) dS
    (zeros_length_int _) (by decide) (by rw [u5]; decide) rfl u5 (by decide)
  obtain ⟨eT, eD⟩ := next_file_tables _ _ "e".toList stack0
    (zeros 12288) 12288 5 dF (by decide) (by decide) (by decide)
    (by decide) (by decide) rfl dT eW
  rw [nearly_full, fill_calls_split, run_append, run_append, run_append, run_append]
  exact ⟨eF, eT, eD⟩

/-- The state a write leaves when it finds one free data block at the end of
the direct region: the block is marked and stored as the indirect pointer in
memory, and the call returns -1 without a flush. -/
theorem write_fails_state (s : FS) (stack : Int → Int) (h i N0 : Int)
    (data buf : List Nat) (n : Int) (hinv : FileInv s i N0 12288 data) (hfull : N0 + 12 = 1023)
    (hi : i ≠ 0) (hh : (s.open_file_descriptor_table h).inode_pointer = i)
    (hw : (s.open_file_descriptor_table h).write_pointer = 12288) (hn : 0 < n) :
    sfs_fwrite s stack h buf n = (-1, set_indirect (set_bit_1 s "data" 1023) i 1023) := by
  have e1 : nblocks 12288 = 12 := by decide
  have hind := hinv.indirect
  have hbit := hinv.bitmap
  rw [e1, if_neg (by decide)] at hind
  rw [e1, used_small _ (by decide), hfull] at hbit
  have hff1 : find_free_bit s "data" = 1023 :=
    find_free_bit_prefix s _ (by decide) (by decide) hbit
  have hff2 : find_free_bit (set_indirect (set_bit_1 s "data" 1023) i 1023) "data" = -1 := by
    apply find_free_bit_full
    intro b hb1 hb2
    rw [(set_indirect_fields _ _ _).1, set_bit_data_bitmap]
    by_cases hb : b = 1023
    · rw [hb, Function.update_same]
    · rw [Function.update_noteq hb, hbit b hb1 hb2, if_pos (by omega)]
  have hstep : ∀ l : WLocals, l.write_ptr_loc = 12288 → l.indirect_pointer = 0 →
      fwrite_step s h (s.open_file_descriptor_table h) l =
        .error (set_indirect (set_bit_1 s "data" 1023) i 1023) := by
    intro l hl1 hl2
    unfold fwrite_step
    dsimp only
    rw [hl1, hh, if_neg (show ¬ ((12288 : Int) < 12 * BLOCK_SIZE) by decide), if_pos hl2, hff1,
      if_neg (by decide), hff2, if_pos rfl]
  unfold sfs_fwrite
  simp only [if_neg (show ¬ (s.open_file_descriptor_table h).inode_pointer = 0 by rw [hh]; exact hi)]
  obtain ⟨m, hm⟩ : ∃ m : Nat, n.toNat = m + 1 := ⟨n.toNat - 1, by omega⟩
  rw [hm]
  have hip : (s.inode_table (s.open_file_descriptor_table h).inode_pointer).indirect_pointer = 0 := by
    rw [hh]; exact hind
  exact fwrite_loop_err _ _ _ _ _ _ hn (hstep _ hw hip)

theorem failed_append_eq :
    sfs_fwrite nearly_full stack0 5 [120] 1 =
      (-1, set_indirect (set_bit_1 nearly_full "data" 1023) 5 1023) := by
  obtain ⟨h1, h2, -, -⟩ := nearly_full_shape
  exact write_fails_state nearly_full stack0 5 5 1011 _ [120] 1 h1 (by decide) (by decide)
    (by rw [h2]) (by rw [h2]) (by decide)

theorem run_fopen (s : FS) (name : List Char) :
    run s [.fopen name] = (sfs_fopen s name).2 := rfl

theorem set_indirect_bit_frame (s : FS) (i v b : Int) :
    (set_indirect (set_bit_1 s "data" b) i v).directory_table = s.directory_table ∧
    (set_indirect (set_bit_1 s "data" b) i v).open_file_descriptor_table =
      s.open_file_descriptor_table ∧
    (set_indirect (set_bit_1 s "data" b) i v).disk = s.disk ∧
    (∀ k : Int, ((set_indirect (set_bit_1 s "data" b) i v).inode_table k).mode =
      (s.inode_table k).mode) ∧
    (∀ k : Int, k ≠ i → (set_indirect (set_bit_1 s "data" b) i v).inode_table k =
      s.inode_table k) := by
  refine ⟨?_, ?_, ?_, fun k => ?_, fun k hk => ?_⟩
  · simp only [set_indirect, set_bit_1, show ("data" : String) ≠ "inode" by decide,
      if_false, if_true]
  · simp only [set_indirect, set_bit_1, show ("data" : String) ≠ "inode" by decide,
      if_false, if_true]
  · rw [(set_indirect_fields _ _ _).2.1, (set_bit_data_fields _ _).2]
  · by_cases hk : k = i
    · simp only [set_indirect, set_bit_1, show ("data" : String) ≠ "inode" by decide,
        if_false, if_true, hk, Function.update_same]
    · simp only [set_indirect, set_bit_1, show ("data" : String) ≠ "inode" by decide,
        if_false, if_true, Function.update_noteq hk]
  · simp only [set_indirect, set_bit_1, show ("data" : String) ≠ "inode" by decide,
      if_false, if_true, Function.update_noteq hk]

theorem failed_append_state :
    failed_append = set_indirect (set_bit_1 nearly_full "data" 1023) 5 1023 := by
  rw [failed_append, run_fwrite, failed_append_eq]

/-- The state `failed_append`: the tables of `nearly_full` with indirect
pointer 1023 in inode 5 and data bit 1023 set, in memory only. -/
theorem failed_append_fields :
    failed_append.directory_table = nearly_full.directory_table ∧
    failed_append.open_file_descriptor_table = nearly_full.open_file_descriptor_table ∧
    failed_append.disk = nearly_full.disk ∧
    (failed_append.inode_table 5).indirect_pointer = 1023 ∧
    (failed_append.inode_table 5).size = 12288 ∧
    (∀ k : Int, (failed_append.inode_table k).mode = (nearly_full.inode_table k).mode) := by
  obtain ⟨h1, -, -, -⟩ := nearly_full_shape
  obtain ⟨f1, f2, f3, f4, -⟩ := set_indirect_bit_frame nearly_full 5 1023 1023
  rw [failed_append_state]
  refine ⟨f1, f2, f3, (set_indirect_fields _ _ _).2.2.2.1, ?_, f4⟩
  rw [(set_indirect_fields _ _ _).2.2.1, (set_bit_data_fields _ _).1]; exact h1.size_eq

theorem failed_append_filled :
    Filled failed_append ["a".toList, "b".toList, "c".toList, "d".toList, "e".toList] := by
  obtain ⟨t0, t1, t2, t3, t4⟩ := nearly_full_tables.1
  obtain ⟨f1, -, -, -, -, f6⟩ := failed_append_fields
  refine ⟨?_, fun j hj => ?_, fun k h1 h2 => ?_, fun k h1 h2 => ?_, fun k h1 h2 => ?_⟩
  · rw [f1]; exact t0
  · rw [f1]; exact t1 j hj
  · rw [f1]; exact t2 k h1 h2
  · rw [f6]; exact t3 k h1 h2
  · rw [f6]; exact t4 k h1 h2

theorem filled_step_eq_at (s : FS) (created : List (List Char)) (n : List Char) (k : Int)
    (hF : Filled s created) (hroom : created.length < 127)
    (hvalid : ∀ m ∈ created, m ≠ [] ∧ m.length ≤ 32)
    (hn1 : n ≠ []) (hn2 : n.length ≤ 32) (hn3 : n ∉ created)
    (hk : (created.length : Int) + 1 = k) :
    sfs_fopen s n = (k, created_state s n k k) := by
  subst hk
  exact filled_step_eq s created n hF hroom hvalid hn1 hn2 hn3

theorem sixth_file_eq :
    sfs_fopen failed_append "f".toList = (6, created_state failed_append "f".toList 6 6) :=
  filled_step_eq_at failed_append _ "f".toList 6 failed_append_filled (by decide) (by decide)
    (by decide) (by decide) (by decide) (by decide)

theorem sixth_file_state : sixth_file = created_state failed_append "f".toList 6 6 := by
  rw [sixth_file, run_fopen, sixth_file_eq]

/-- What `mksfs(0)` loads right after `sfs_fopen` has created a file in slot
`d` with inode `i`: the inode table and the directory that the creation
flushed, and the data bitmap the device held before. -/
theorem remount_created (s : FS) (name : List Char) (d i : Int) :
    (mksfs (created_state s name d i) 0).inode_table =
      Function.update s.inode_table i
        { gid := 0, indirect_pointer := 0, link_cnt := 0, mode := 1,
          pointers := fun _ => 0, size := 0, uid := 0 } ∧
    (mksfs (created_state s name d i) 0).directory_table =
      Function.update s.directory_table d { full_filename := name, inode_pointer := i } ∧
    (mksfs (created_state s name d i) 0).data_block_bitmap = s.disk.data_block_bitmap ∧
    (mksfs (created_state s name d i) 0).open_file_descriptor_table =
      Function.update s.open_file_descriptor_table d ⟨i, 0, 0⟩ ∧
    (mksfs (created_state s name d i) 0).disk.blocks = s.disk.blocks := by
  obtain ⟨m1, m2, -, m4, m5, m6⟩ := mksfs_remount_fields (created_state s name d i)
  rw [m1, m2, m4, m5, m6]
  exact ⟨rfl, rfl, rfl, rfl, rfl⟩

theorem stale_remount_state :
    stale_remount = mksfs (created_state failed_append "f".toList 6 6) 0 := by
  rw [stale_remount, sixth_file_state]

/-- The state `stale_remount`: file "f" is empty in slot 6 with inode 6, inode
5 has indirect pointer 1023, and data bit 1023 is 0. -/
theorem stale_remount_fields :
    (∀ j : Int, j ≠ 6 → stale_remount.directory_table j = nearly_full.directory_table j) ∧
    stale_remount.directory_table 6 = { full_filename := "f".toList, inode_pointer := 6 } ∧
    (stale_remount.inode_table 5).indirect_pointer = 1023 ∧
    stale_remount.open_file_descriptor_table 6 = ⟨6, 0, 0⟩ ∧
    FileInv stale_remount 6 1023 0 [] := by
  obtain ⟨h1, -, -, -⟩ := nearly_full_shape
  obtain ⟨-, t2, -⟩ := nearly_full_tables
  obtain ⟨f1, -, f3, f4, -, -⟩ := failed_append_fields
  obtain ⟨r1, r2, r3, r4, r5⟩ := remount_created failed_append "f".toList 6 6
  have hbit := h1.bitmap
  rw [show (1011 : Int) + used (nblocks 12288) = 1023 by decide] at hbit
  rw [stale_remount_state]
  refine ⟨fun j hj => ?_, ?_, ?_, ?_, ?_⟩
  · rw [r2, Function.update_noteq hj, f1]
  · rw [r2, Function.update_same]
  · rw [r1, Function.update_noteq (by decide)]; exact f4
  · rw [r4, Function.update_same]
  · refine ⟨rfl, by decide, by decide, ?_, ?_, ?_, ?_, ?_, ?_⟩
    · rw [r1, Function.update_same]
    · intro j _ _
      rw [r1, Function.update_same, if_neg (by rw [show nblocks 0 = 0 by decide]; omega)]
    · rw [r1, Function.update_same, if_neg (by decide)]
    · intro h; exact absurd h (by decide)
    · intro b hb1 hb2
      rw [r3, f3, t2, hbit b hb1 hb2, show (1023 : Int) + used (nblocks 0) = 1023 by decide]
    · intro p hp1 hp2; omega

theorem refilled_state (buf : List Nat) :
    refilled buf = (sfs_fwrite stale_remount stack0 6 buf 4).2 := by
  rw [refilled, run_fwrite]

/-- Writing the four bytes `buf` to "f" on `stale_remount`: the call returns
4 and takes block 1023, the only free one, as the first data block of "f". -/
theorem refilled_fields (buf : List Nat) (hlen : (buf.length : Int) = 4) :
    (sfs_fwrite stale_remount stack0 6 buf 4).1 = 4 ∧
    (∀ j : Int, j ≠ 6 → (refilled buf).directory_table j = nearly_full.directory_table j) ∧
    (refilled buf).directory_table 6 = { full_filename := "f".toList, inode_pointer := 6 } ∧
    ((refilled buf).inode_table 5).indirect_pointer = 1023 ∧
    ((refilled buf).inode_table 6).size = 4 ∧
    ((refilled buf).inode_table 6).pointers 0 = 1023 ∧
    (∀ b : Int, 0 ≤ b → b < 1024 → (refilled buf).data_block_bitmap b = 1) ∧
    (refilled buf).disk.blocks 1023 0 = buf.getD 0 0 ∧
    (refilled buf).disk.blocks 1023 1 = buf.getD 1 0 ∧
    (refilled buf).disk.blocks 1023 2 = buf.getD 2 0 ∧
    (refilled buf).disk.blocks 1023 3 = buf.getD 3 0 := by
  obtain ⟨s1, s2, s3, s4, s5⟩ := stale_remount_fields
  obtain ⟨a1, a2, -⟩ := sfs_fwrite_append stale_remount stack0 6 6 1023 0 [] buf s5 (by decide)
    (by rw [s4]) (by rw [s4]) (by omega) (by rw [hlen]; decide)
  have hW := (sfs_fwrite_frame stale_remount stack0 6 buf 4).1
  rw [hlen] at a1 a2
  rw [← refilled_state] at a2 hW
  rw [s4] at hW
  obtain ⟨w1, -, -, w4, -⟩ := hW
  have hn : nblocks ((0 : Int) + 4) = 1 := by decide
  have hu : (1023 : Int) + used (nblocks ((0 : Int) + 4)) = 1024 := by decide
  have hbit := a2.bitmap
  rw [hu] at hbit
  have hc := a2.content
  rw [List.nil_append] at hc
  refine ⟨a1, fun j hj => ?_, ?_, ?_, ?_, ?_, fun b hb1 hb2 => ?_, ?_, ?_, ?_, ?_⟩
  · rw [w1]; exact s1 j hj
  · rw [w1]; exact s2
  · rw [w4 5 (by decide)]; exact s3
  · rw [a2.size_eq]; decide
  · have := a2.direct 0 (by decide) (by decide)
    rw [hn, if_pos (by decide)] at this
    rw [this]; decide
  · rw [hbit b hb1 hb2, if_pos hb2]
  · have h := hc 0 (by decide) (by decide)
    rw [show blk 1023 0 = 1023 by decide, show ((0 : Int) % 1024).toNat = 0 by decide,
      show (0 : Int).toNat = 0 by decide] at h
    exact h
  · have h := hc 1 (by decide) (by decide)
    rw [show blk 1023 1 = 1023 by decide, show ((1 : Int) % 1024).toNat = 1 by decide,
      show (1 : Int).toNat = 1 by decide] at h
    exact h
  · have h := hc 2 (by decide) (by decide)
    rw [show blk 1023 2 = 1023 by decide, show ((2 : Int) % 1024).toNat = 2 by decide,
      show (2 : Int).toNat = 2 by decide] at h
    exact h
  · have h := hc 3 (by decide) (by decide)
    rw [show blk 1023 3 = 1023 by decide, show ((3 : Int) % 1024).toNat = 3 by decide,
      show (3 : Int).toNat = 3 by decide] at h
    exact h

theorem pair_fst {r : Int × FS} {a : Int} {R : FS} (h : r = (a, R)) : r.1 = a := by rw [h]

theorem pair_snd {r : Int × FS} {a : Int} {R : FS} (h : r = (a, R)) : r.2 = R := by rw [h]

theorem filled_five (s : FS) (a b c d e : List Char) (h : Filled s [a, b, c, d, e]) :
    (s.directory_table 0).full_filename = "root".toList ∧
    (s.directory_table 1).full_filename = a ∧ (s.directory_table 2).full_filename = b ∧
    (s.directory_table 3).full_filename = c ∧ (s.directory_table 4).full_filename = d ∧
    (s.directory_table 5).full_filename = e :=
  ⟨h.1, h.2.1 0 (by simp), h.2.1 1 (by simp), h.2.1 2 (by simp), h.2.1 3 (by simp),
    h.2.1 4 (by simp)⟩

theorem read_indirect_first (d : DISK) (p : Int) (stack : Int → Int) (h1 : 0 ≤ p) (h2 : p < 1024) :
    read_indirect d p stack ((0 : Nat) : Int) =
      wrap32 ((d.blocks p 0 : Int) + 256 * d.blocks p 1 + 65536 * d.blocks p 2 +
        16777216 * d.blocks p 3) := by
  unfold read_indirect
  rw [if_pos ⟨h1, h2⟩]
  show (if 0 ≤ ((0 : Nat) : Int) ∧ ((0 : Nat) : Int) < ((256 : Nat) : Int) then _ else _) = _
  rw [if_pos ⟨by decide, by decide⟩]
  rfl

/-- Removing "e" after the refill: the search finds slot 5, whose inode has
indirect pointer 1023; the block read as its indirect block is the data block
of "f", and the block its first four bytes name is erased and marked free. -/
theorem remove_after_refill (buf : List Nat) (E : Int) (hlen : (buf.length : Int) = 4)
    (hE : wrap32 ((buf.getD 0 0 : Int) + 256 * buf.getD 1 0 + 65536 * buf.getD 2 0 +
      16777216 * buf.getD 3 0) = E)
    (hE0 : E ≠ 0) (hE1 : 0 ≤ E) (hE2 : E < 1024) :
    sfs_remove (refilled buf) stack0 "e".toList = (0, remove_entry (refilled buf) stack0 5) ∧
    (remove_entry (refilled buf) stack0 5).data_block_bitmap E = 0 ∧
    (remove_entry (refilled buf) stack0 5).disk.blocks E = eraser ∧
    (remove_entry (refilled buf) stack0 5).directory_table 6 =
      { full_filename := "f".toList, inode_pointer := 6 } ∧
    (remove_entry (refilled buf) stack0 5).inode_table 6 = (refilled buf).inode_table 6 := by
  obtain ⟨-, d1, d2, d3, -, -, -, c0, c1, c2, c3⟩ := refilled_fields buf hlen
  obtain ⟨tF, -, t3⟩ := nearly_full_tables
  obtain ⟨t0, n1, n2, n3, n4, -⟩ := filled_five nearly_full _ _ _ _ _ tF
  have hd5 : (refilled buf).directory_table 5 =
      { full_filename := "e".toList, inode_pointer := 5 } := by
    rw [d1 5 (by decide)]; exact t3
  have hip : ((refilled buf).directory_table 5).inode_pointer = 5 := by rw [hd5]
  have hfound := sfs_remove_found (refilled buf) stack0 "e".toList 5 (by decide) (by decide)
    (by rw [hd5]; decide)
    (by
      intro j h1 h2
      rw [d1 j (by omega)]
      rcases (by omega : j = 0 ∨ j = 1 ∨ j = 2 ∨ j = 3 ∨ j = 4) with h | h | h | h | h
      · rw [h, t0]; decide
      · rw [h, n1]; decide
      · rw [h, n2]; decide
      · rw [h, n3]; decide
      · rw [h, n4]; decide)
  obtain ⟨r1, -, -, -, r5, -, -, -, -, r10, -⟩ := remove_entry_spec (refilled buf) stack0 5
  rw [hip] at r5 r10
  rw [d3] at r10
  have hread : read_indirect (refilled buf).disk 1023 stack0 ((0 : Nat) : Int) = E := by
    rw [read_indirect_first _ _ _ (by decide) (by decide), c0, c1, c2, c3]
    exact hE
  have h10 := (r10 (by decide)).2 0 (by decide) (by rw [hread]; exact hE0)
  rw [hread] at h10
  refine ⟨hfound, h10.1, h10.2 hE1 hE2, ?_, r5 6 (by decide)⟩
  rw [r1, Function.update_noteq (by decide)]
  exact d2

/-- C24 (fails after a failing append): in `nearly_full`, reached from
`mksfs(1)` by creating five files and appending to each once with every write
returning its length, file "e" (handle 5, inode 5) has size 12288 and its write
cursor at 12288.  Appending one more byte returns -1, the size stays 12288, so
the file has `n = 12` blocks, and the indirect pointer of the inode is 1023:
non-zero although `n > 12` does not hold. -/
theorem failed_append_block_map :
    writes_succeed (mksfs boot 1) fill_calls ∧
    (nearly_full.inode_table 5).size = 12288 ∧
    nearly_full.open_file_descriptor_table 5 = ⟨5, 0, 12288⟩ ∧
    (nearly_full.inode_table 5).indirect_pointer = 0 ∧
    (sfs_fwrite nearly_full stack0 5 [120] 1).1 = -1 ∧
    (failed_append.inode_table 5).size = 12288 ∧
    nblocks 12288 = 12 ∧
    (failed_append.inode_table 5).indirect_pointer = 1023 := by
  obtain ⟨h1, h2, -, h4⟩ := nearly_full_shape
  obtain ⟨-, -, -, f4, f5, -⟩ := failed_append_fields
  have hind := h1.indirect
  rw [show nblocks 12288 = 12 by decide, if_neg (by decide)] at hind
  rw [pair_fst failed_append_eq]
  exact ⟨h4, h1.size_eq, h2, hind, rfl, f5, by decide, f4⟩

/-- C21 (fails): a reserved data bit is cleared.  On `nearly_full` (block 1023
is the only free data block), `sfs_fwrite(5, "x", 1)` returns -1 and leaves
indirect pointer 1023 in inode 5; `sfs_fopen("f")` returns 6 and flushes the
inode table; after `mksfs(0)` data bit 1023 is 0 again, and
`sfs_fwrite(6, buf, 4)` with the bytes 5, 0, 0, 0 returns 4 and stores them in
block 1023, now the first data block of "f".  Data bit 5 is 1 at that point.
`sfs_remove("e")` returns 0; it reads block 1023 as the indirect block of "e",
finds the entry 5 and clears data bit 5, one of the reserved bits 0..22. -/
theorem reserved_bit_cleared_by_remove :
    (sfs_fwrite nearly_full stack0 5 [120] 1).1 = -1 ∧
    (failed_append.inode_table 5).indirect_pointer = 1023 ∧
    (sfs_fopen failed_append "f".toList).1 = 6 ∧
    (sfs_fwrite stale_remount stack0 6 [5, 0, 0, 0] 4).1 = 4 ∧
    ((refilled [5, 0, 0, 0]).inode_table 6).pointers 0 = 1023 ∧
    ((refilled [5, 0, 0, 0]).inode_table 5).indirect_pointer = 1023 ∧
    (refilled [5, 0, 0, 0]).disk.blocks 1023 0 = 5 ∧
    (refilled [5, 0, 0, 0]).data_block_bitmap 5 = 1 ∧
    (sfs_remove (refilled [5, 0, 0, 0]) stack0 "e".toList).1 = 0 ∧
    (sfs_remove (refilled [5, 0, 0, 0]) stack0 "e".toList).2.data_block_bitmap 5 = 0 := by
  obtain ⟨-, -, -, f4, -, -⟩ := failed_append_fields
  obtain ⟨a1, -, -, a4, -, a6, a7, a8, -⟩ := refilled_fields [5, 0, 0, 0] (by decide)
  obtain ⟨g1, g2, -⟩ := remove_after_refill [5, 0, 0, 0] 5 (by decide) (by decide) (by decide)
    (by decide) (by decide)
  rw [pair_fst g1, pair_snd g1, pair_fst failed_append_eq, pair_fst sixth_file_eq]
  exact ⟨rfl, f4, rfl, a1, a6, a4, a8, a7 5 (by decide) (by decide), rfl, g2⟩

/-- C25 (fails): `sfs_remove` of one file erases a data block of another.  On
`nearly_full`, after `sfs_fwrite(5, "x", 1)` (returns -1, indirect pointer 1023
left in inode 5), `sfs_fopen("f")` (returns 6), `mksfs(0)` and
`sfs_fwrite(6, buf, 4)` with the bytes 255, 3, 0, 0 (returns 4), file "f" has
inode 6, size 4 and first data block 1023, which starts with 255.
`sfs_remove("e")` returns 0 and leaves the directory entry and the inode of "f"
as they were, but block 1023 is overwritten with zeros: it is read as the
indirect block of "e", and its first entry is 1023. -/
theorem sfs_remove_erases_other_file :
    (sfs_fwrite nearly_full stack0 5 [120] 1).1 = -1 ∧
    (sfs_fopen failed_append "f".toList).1 = 6 ∧
    (sfs_fwrite stale_remount stack0 6 [255, 3, 0, 0] 4).1 = 4 ∧
    (refilled [255, 3, 0, 0]).directory_table 6 =
      { full_filename := "f".toList, inode_pointer := 6 } ∧
    ((refilled [255, 3, 0, 0]).inode_table 6).size = 4 ∧
    ((refilled [255, 3, 0, 0]).inode_table 6).pointers 0 = 1023 ∧
    (refilled [255, 3, 0, 0]).disk.blocks 1023 0 = 255 ∧
    (sfs_remove (refilled [255, 3, 0, 0]) stack0 "e".toList).1 = 0 ∧
    (sfs_remove (refilled [255, 3, 0, 0]) stack0 "e".toList).2.directory_table 6 =
      { full_filename := "f".toList, inode_pointer := 6 } ∧
    ((sfs_remove (refilled [255, 3, 0, 0]) stack0 "e".toList).2.inode_table 6).size = 4 ∧
    ((sfs_remove (refilled [255, 3, 0, 0]) stack0 "e".toList).2.inode_table 6).pointers 0
      = 1023 ∧
    (sfs_remove (refilled [255, 3, 0, 0]) stack0 "e".toList).2.disk.blocks 1023 0 = 0 := by
  obtain ⟨a1, -, a3, -, a5, a6, -, a8, -⟩ := refilled_fields [255, 3, 0, 0] (by decide)
  obtain ⟨g1, -, g3, g4, g5⟩ := remove_after_refill [255, 3, 0, 0] 1023 (by decide) (by decide)
    (by decide) (by decide) (by decide)
  rw [pair_fst g1, pair_snd g1, pair_fst failed_append_eq, pair_fst sixth_file_eq, g5, g3]
  exact ⟨rfl, rfl, a1, a3, a5, a6, a8, rfl, g4, a5, a6, rfl⟩

end SFS
